import Mathlib

/-!
Verification of the GraphCreator CPG construction pipeline.

This file is a shallow embedding, in Lean 4, of the parts of the
GraphCreator repository (a Lua code-property-graph builder) that the
checked claims are about:

* `src/ray_implementation/ast_utils.py` — predicates and searches over
  syntax-tree nodes (`ASTUtils`);
* `src/ray_implementation/local_symbol_table.py` — `SymbolTable`,
  `Scope`, `SymbolID`, `ScopeStack` and bottom-up name lookup;
* `src/ray_implementation/symbol_creation.py` — the first pass
  (`SymbolBuilder.walk`);
* `src/ray_implementation/cpg_builder.py` — the second pass
  (`CPGBuilder.build_cpg` with its context stack);
* `src/graph_builder/output_builder.py` — the CPG v1 exporter's type
  mapping and the in-memory graph store;
* `src/graph_builder/graph_queries.py` — the recursive block-discovery
  fixed point (`build_recursive_blocks`);
* `src/dapr_handler.py` — the orchestrator's per-file error handling and
  publication behaviour.

Python syntax-tree nodes are modelled as a finite inductive tree, Python
dicts as association lists, exceptions as `Except String`, and the
unbounded `while` loops of the source as explicitly fuelled iteration so
that divergence of the source loop is observable as exhaustion of every
fuel.
-/

namespace GraphCreator

/-- Model of a tree-sitter syntax node as consumed by the Python code:
`node.id`, `node.type`, `node.text` (already decoded to a string),
`node.start_byte`, `node.end_byte`, `node.children`.  The grammar
identity `node.id` is an opaque integer that the source only ever uses
as a dictionary key or through `str(...)`; it is modelled as a string
so that both uses read it directly. -/
structure Node where
  id : String
  type : String
  text : String
  start_byte : Nat
  end_byte : Nat
  children : List Node
deriving Repr

/-- Embedding of `ASTUtils.get_text`: the Python function decodes the
node's byte text to a string; `Node.text` already holds that string. -/
def ASTUtils.get_text (n : Node) : String := n.text

mutual

/-- Embedding of `ASTUtils.first_node_of_type`: first node of the given
type in the subtree, depth first, the root itself included. -/
def ASTUtils.first_node_of_type : Node → String → Option Node
  | Node.mk i t tx sb eb cs, target_type =>
    if t = target_type then some (Node.mk i t tx sb eb cs)
    else ASTUtils.first_in_children cs target_type

/-- Helper for `ASTUtils.first_node_of_type`: the `for child in
root.children` loop that returns the first hit. -/
def ASTUtils.first_in_children : List Node → String → Option Node
  | [], _ => none
  | c :: rest, target_type =>
    match ASTUtils.first_node_of_type c target_type with
    | some r => some r
    | none => ASTUtils.first_in_children rest target_type

end

mutual

/-- Embedding of `ASTUtils.nodes_of_type`: every node of the given type
in the subtree, preorder. -/
def ASTUtils.nodes_of_type : Node → String → List Node
  | Node.mk i t tx sb eb cs, target_type =>
    (if t = target_type then [Node.mk i t tx sb eb cs] else [])
      ++ ASTUtils.nodes_of_type_in_children cs target_type

/-- Helper for `ASTUtils.nodes_of_type`: the loop over the children that
concatenates the recursive results. -/
def ASTUtils.nodes_of_type_in_children : List Node → String → List Node
  | [], _ => []
  | c :: rest, target_type =>
    ASTUtils.nodes_of_type c target_type
      ++ ASTUtils.nodes_of_type_in_children rest target_type

end

/-- Embedding of `ASTUtils.is_different_scope_node`: the kinds that
introduce a new lexical scope. -/
def ASTUtils.is_different_scope_node (n : Node) : Bool :=
  n.type ∈ ["chunk", "block", "do_statement", "while_statement",
            "for_statement", "if_statement"]

/-- Embedding of `ASTUtils.is_knowledge_node`: the kinds that become
knowledge nodes in the second pass. -/
def ASTUtils.is_knowledge_node (n : Node) : Bool :=
  n.type ∈ ["function_declaration", "variable_declaration",
            "class_declaration", "block", "chunk"]

/-- Embedding of `ASTUtils.is_declaration_node`: the dict
`{"function_declaration": 'function', "variable_declaration": 'variable',
"block": 'block'}` consulted with `.get(node.type)`. -/
def ASTUtils.is_declaration_node (n : Node) : Option String :=
  (([("function_declaration", "function"),
     ("variable_declaration", "variable"),
     ("block", "block")] : List (String × String)).lookup n.type)

/-- Embedding of `ASTUtils.is_relation_node`: the dict
`{"identifier": 'ident', "function_call": 'call'}` consulted with
`.get(node.type)` — the reference-kind classifier of the second pass. -/
def ASTUtils.is_relation_node (n : Node) : Option String :=
  (([("identifier", "ident"),
     ("function_call", "call")] : List (String × String)).lookup n.type)

/-! Python dictionaries are modelled as association lists that keep
insertion order; writing an existing key replaces the value in place,
as a CPython dict does. -/

/-- Model of the Python dict write `d[k] = v`. -/
def dictInsert {α : Type} : List (String × α) → String → α → List (String × α)
  | [], k, v => [(k, v)]
  | (k0, v0) :: rest, k, v =>
    if k0 = k then (k, v) :: rest else (k0, v0) :: dictInsert rest k v

/-- Model of the Python dict read `d.get(k)` (`None` when absent). -/
def dictGet {α : Type} : List (String × α) → String → Option α
  | [], _ => none
  | (k0, v0) :: rest, k => if k0 = k then some v0 else dictGet rest k

/-- Embedding of `SymbolID` from `local_symbol_table.py`: an immutable
record of a declaration. -/
structure SymbolID where
  worker_id : String
  file_path : String
  scope_id : String
  name : String
  kind : String
  ast_id : String
  start_byte : Option Nat := none
  end_byte : Option Nat := none
deriving Repr, DecidableEq

/-- Embedding of `Scope`: a scope id, an optional parent scope id, and
the name-to-symbol dict. -/
structure Scope where
  scope_id : String
  parent : Option String
  symbols : List (String × SymbolID)
deriving Repr, DecidableEq

/-- Embedding of `SymbolTable`: scopes keyed by scope id, plus the
exports, imports and unresolved dicts. -/
structure SymbolTable where
  worker_id : String
  scopes : List (String × Scope)
  exports : List (String × SymbolID)
  imports : List (String × String)
  unresolved : List (String × SymbolID)
deriving Repr, DecidableEq

/-- One run of the `while scope is not None` loop of
`SymbolTable.scope_lookup_by_name`, with explicit fuel: each loop
iteration consumes one unit, and `none` means the loop has not returned
within the given fuel (on a table whose parent chain cycles no fuel
suffices — the source loop diverges there).  `some r` is the loop
returning `r`.  When a parent id is absent from `scopes` the source
raises `KeyError`; this model follows `scopes.get` instead, which is
equivalent under the parent-present hypothesis assumed by the theorems
below (and holds in every state the pipeline builds). -/
def scopeLookupLoop (st : SymbolTable) (target : String) :
    Option Scope → Nat → Option (Option SymbolID)
  | _, 0 => none
  | none, _ + 1 => some none
  | some sc, fuel + 1 =>
    match dictGet sc.symbols target with
    | some sym => some (some sym)
    | none =>
      match sc.parent with
      | none => scopeLookupLoop st target none fuel
      | some p => scopeLookupLoop st target (dictGet st.scopes p) fuel

/-- Embedding of `SymbolTable.scope_lookup_by_name`: start the walk at
`scopes.get(scope_id)` with the given fuel. -/
def SymbolTable.scope_lookup_by_name (st : SymbolTable) (scope_id target : String)
    (fuel : Nat) : Option (Option SymbolID) :=
  scopeLookupLoop st target (dictGet st.scopes scope_id) fuel

/-- Specification-side characterisation, written from the spec's words:
lookup from a scope returns the symbol stored under the name in the
nearest scope on the parent chain (the start included) whose symbol map
contains the name, and nothing when no scope on the chain contains it.
Compared against the embedded `scope_lookup_by_name` in claim C3. -/
inductive NearestOnChain (st : SymbolTable) (target : String) :
    Option Scope → Option SymbolID → Prop
  | nil : NearestOnChain st target none none
  | here (sc : Scope) (sym : SymbolID) :
      dictGet sc.symbols target = some sym →
      NearestOnChain st target (some sc) (some sym)
  | stop (sc : Scope) :
      dictGet sc.symbols target = none → sc.parent = none →
      NearestOnChain st target (some sc) none
  | up (sc : Scope) (p : String) (r : Option SymbolID) :
      dictGet sc.symbols target = none → sc.parent = some p →
      NearestOnChain st target (dictGet st.scopes p) r →
      NearestOnChain st target (some sc) r

/-- A one-scope symbol table whose single scope names itself as parent:
every parent id names an existing scope, yet the lookup loop of the
source never returns on a name that is not declared. -/
def cyclicTable : SymbolTable :=
  { worker_id := "w"
    scopes := [("a", { scope_id := "a", parent := some "a", symbols := [] })]
    exports := []
    imports := []
    unresolved := [] }

/-- Well-formedness of a symbol table, first half: every parent id that
is set names a scope present in the table (the hypothesis stated by
claim C3; without it the source lookup raises `KeyError`). -/
def parentsPresent (st : SymbolTable) : Bool :=
  st.scopes.all fun pr =>
    match pr.2.parent with
    | none => true
    | some q => (dictGet st.scopes q).isSome

/-- Well-formedness of a symbol table, second half: a rank strictly
decreases along parent links, so parent chains are acyclic.  Scope
stacks built by `ScopeStack.push_scope` always satisfy this (a scope's
parent is pushed strictly earlier). -/
def parentRanked (st : SymbolTable) (r : String → Nat) : Bool :=
  st.scopes.all fun pr =>
    match pr.2.parent with
    | none => true
    | some q => r q < r pr.1

/-- A two-scope table: `outer` declares `x`, its child `inner` declares
`x` again; used to witness that the inner declaration hides the outer. -/
def shadowTable : SymbolTable :=
  { worker_id := "w"
    scopes :=
      [("outer", { scope_id := "outer", parent := none,
                   symbols := [("x", { worker_id := "w", file_path := "f.lua",
                                       scope_id := "outer", name := "x",
                                       kind := "local_var", ast_id := "10" })] }),
       ("inner", { scope_id := "inner", parent := some "outer",
                   symbols := [("x", { worker_id := "w", file_path := "f.lua",
                                       scope_id := "inner", name := "x",
                                       kind := "local_var", ast_id := "20" })] })]
    exports := []
    imports := []
    unresolved := [] }

/-!
First pass (`symbol_creation.py`): `SymbolBuilder` walks the tree,
pushing scopes and recording declarations.  The Python `ScopeStack`
keeps the `Scope` objects aliased between its stack and
`SymbolTable.scopes`; the model keeps the authoritative copy in
`lst.scopes` and stacks only the scope ids (node ids are unique in a
syntax tree, so an id never denotes two different scope objects).
Exceptions of the source (`IndexError` on `node.children[0]`,
`AttributeError` when `nodes_of_type` receives `None`) are modelled
with `Except String`.
-/

/-- State of the first pass: the builder's symbol table, the scope
stack of `ScopeStack` (head is the Python `stack[-1]`), and
`SymbolBuilder.parameter_stack`. -/
structure SymbolBuilderState where
  worker_id : String
  file_path : String
  lst : SymbolTable
  stack : List String
  parameter_stack : List Node
deriving Repr

/-- A fresh `SymbolBuilder` over an empty `SymbolTable`. -/
def SymbolBuilder.init (wid fp : String) : SymbolBuilderState :=
  { worker_id := wid, file_path := fp,
    lst := { worker_id := wid, scopes := [], exports := [], imports := [],
             unresolved := [] },
    stack := [], parameter_stack := [] }

/-- Embedding of `ScopeStack.push_scope`: a new scope whose parent is
the current top, pushed and stored into the table. -/
def SymbolBuilder.push_scope (s : SymbolBuilderState) (scope_id : String) :
    SymbolBuilderState :=
  let parent := s.stack.head?
  { s with stack := scope_id :: s.stack,
           lst := { s.lst with
             scopes := dictInsert s.lst.scopes scope_id
               { scope_id := scope_id, parent := parent, symbols := [] } } }

/-- Embedding of `ScopeStack.pop_scope`.  The source's `list.pop` would
raise on an empty stack; `walk` keeps pushes and pops balanced so the
case never arises. -/
def SymbolBuilder.pop_scope (s : SymbolBuilderState) : SymbolBuilderState :=
  { s with stack := s.stack.tail }

/-- Embedding of `ScopeStack.add_to_scope` (reached through
`SymbolBuilder.__add_symbol`): record a symbol in the current top scope
and in the table's exports.  An empty stack raises `IndexError` in the
source. -/
def SymbolBuilder.add_to_scope (s : SymbolBuilderState) (name : String)
    (astId : String) (kind : String) (sb eb : Nat) :
    Except String SymbolBuilderState :=
  match s.stack with
  | [] => .error "IndexError: scope stack is empty"
  | top :: _ =>
    let sym : SymbolID :=
      { worker_id := s.worker_id, file_path := s.file_path, scope_id := top,
        name := name, kind := kind, ast_id := astId,
        start_byte := some sb, end_byte := some eb }
    match dictGet s.lst.scopes top with
    | none => .error "internal: scope object missing"
    | some sc =>
      .ok { s with lst := { s.lst with
              scopes := dictInsert s.lst.scopes top
                { sc with symbols := dictInsert sc.symbols name sym },
              exports := dictInsert s.lst.exports name sym } }

/-- Embedding of `SymbolBuilder._create_declaration_symbol`.  The
`"variable"` arm reads `node.children[0]` (raising on an empty list)
and passes the declaration node itself to `__add_symbol` for each
identifier of the `variable_list`; the `"function"` arm records the
leading identifier and extends `parameter_stack` with the `parameters`
identifiers; the `"block"` arm adds every queued parameter to the
current scope as a `local_var` — and leaves `parameter_stack` itself
untouched, since the source never clears it. -/
def SymbolBuilder.create_declaration_symbol (ty : String) (node : Node)
    (s : SymbolBuilderState) : Except String SymbolBuilderState :=
  if ty = "variable" then
    match node.children with
    | [] => .error "IndexError: variable declaration has no children"
    | c0 :: _ =>
      let kind := if c0.type = "local" then "local_var" else "global_var"
      match ASTUtils.first_node_of_type node "variable_list" with
      | none => .error "AttributeError: no variable_list in declaration"
      | some var_list =>
        (ASTUtils.nodes_of_type var_list "identifier").foldlM
          (fun st ident =>
            SymbolBuilder.add_to_scope st ident.text node.id kind
              node.start_byte node.end_byte) s
  else if ty = "function" then
    match ASTUtils.first_node_of_type node "identifier" with
    | none => pure s
    | some ident => do
      let s2 ← SymbolBuilder.add_to_scope s ident.text node.id
        "function_declaration" node.start_byte node.end_byte
      match ASTUtils.first_node_of_type node "parameters" with
      | none => .error "AttributeError: no parameters node in declaration"
      | some p =>
        let parameters := ASTUtils.nodes_of_type p "identifier"
        if parameters.length > 0 then
          pure { s2 with parameter_stack := s2.parameter_stack ++ parameters }
        else
          pure s2
  else if ty = "block" then
    s.parameter_stack.foldlM
      (fun st param =>
        SymbolBuilder.add_to_scope st param.text param.id "local_var"
          param.start_byte param.end_byte) s
  else
    pure s

mutual

/-- Embedding of `SymbolBuilder.walk`: push a scope on scope-introducing
nodes, emit declarations, recurse into the children, pop. -/
def SymbolBuilder.walk : Node → SymbolBuilderState →
    Except String SymbolBuilderState
  | Node.mk i t tx sb eb cs, s0 => do
    let node := Node.mk i t tx sb eb cs
    let s1 := if ASTUtils.is_different_scope_node node then
        SymbolBuilder.push_scope s0 i
      else s0
    let s2 ← match ASTUtils.is_declaration_node node with
      | some ty => SymbolBuilder.create_declaration_symbol ty node s1
      | none => pure s1
    let s3 ← SymbolBuilder.walk_children cs s2
    pure (if ASTUtils.is_different_scope_node node then
        SymbolBuilder.pop_scope s3
      else s3)

/-- The `for child in node.children` loop of `SymbolBuilder.walk`. -/
def SymbolBuilder.walk_children : List Node → SymbolBuilderState →
    Except String SymbolBuilderState
  | [], s => pure s
  | c :: rest, s => do
    let s2 ← SymbolBuilder.walk c s
    SymbolBuilder.walk_children rest s2

end

/-!
A concrete file for claim C5: `local function f(a) end` followed by
`do end`.  Node ids follow the tree.
-/

/-- The parameter identifier `a` of the sample function. -/
def paramIdent : Node := ⟨"4", "identifier", "a", 17, 18, []⟩

/-- The sample function declaration `local function f(a) end`. -/
def funDecl : Node :=
  ⟨"1", "function_declaration", "local function f(a) end", 0, 23,
    [⟨"8", "local", "local", 0, 5, []⟩,
     ⟨"2", "identifier", "f", 15, 16, []⟩,
     ⟨"3", "parameters", "(a)", 16, 19, [paramIdent]⟩,
     ⟨"5", "block", "", 20, 20, []⟩]⟩

/-- A `do end` statement entered after the function: its inner block
(node id 7) is a block entered later than the function's own block. -/
def doStmt : Node := ⟨"6", "do_statement", "do end", 24, 30, [⟨"7", "block", "", 27, 27, []⟩]⟩

/-- The sample chunk `local function f(a) end do end`. -/
def chunkWithFun : Node :=
  ⟨"0", "chunk", "local function f(a) end do end", 0, 30, [funDecl, doStmt]⟩

/-!
Second pass (`cpg_builder.py`): `CPGBuilder` walks the tree again and
emits knowledge nodes and edges.  The collections live in a
`LocalOuputBuilder`; that class is imported by the source but its file
is absent from the repository snapshot, so the store is modelled from
the spec (section 4.5 Graph Store): `insert` requires a `_key` and
stores a copy of the document, keyed collections behave as maps, and
`CPGBuilder._update_knowledge_node` re-inserts a document under its
existing key, which the keyed map overwrite captures.  Knowledge edges
are an append-only collection.  Python exceptions (`IndexError` on an
empty stack peek, `KeyError` on `astId_nodeId_map`, `AttributeError` on
dereferencing a failed node search) are modelled with `Except String`;
a `scope_lookup_by_name` call whose loop would not return is also an
`Except.error`, marked as divergence.
-/

/-- Embedding of the Python `str(int)` conversion used to render the
monotone id counters: decimal digits of a natural number. -/
def digitStr : Nat → String
  | 0 => "0" | 1 => "1" | 2 => "2" | 3 => "3" | 4 => "4"
  | 5 => "5" | 6 => "6" | 7 => "7" | 8 => "8" | 9 => "9"
  | _ => ""

/-- Decimal rendering of a counter value, as Python `str` produces. -/
def decimalString (n : Nat) : String :=
  if n < 10 then digitStr n
  else decimalString (n / 10) ++ digitStr (n % 10)
decreasing_by exact Nat.div_lt_self (by omega) (by omega)

/-- Embedding of the `Context` enum of `cpg_builder.py`. -/
inductive Context where
  | GLOBAL
  | VAR_DECL
  | EXPRESSION
  | ARGUMENTS
deriving Repr, DecidableEq

/-- A knowledge-node document as built by
`CPGBuilder._create_knowledge_node` (`_key`, `symbol_id`, `type`,
`text`, `start_byte`, `end_byte`, `file_path`, `properties`).  The
`properties` bag defaults to empty (the source's default is the empty
string; only the `initialized` flag is ever stored). -/
structure KNode where
  key : String
  symbol_id : String
  type : String
  text : String
  start_byte : Nat
  end_byte : Nat
  file_path : String
  properties : List (String × String)
deriving Repr, DecidableEq

/-- A knowledge-edge document as built by
`CPGBuilder._create_knowledge_edge` (`_key`, `_from`, `_to`,
`relation`). -/
structure KEdge where
  key : String
  from_key : String
  to_key : String
  relation : String
deriving Repr, DecidableEq

/-- The mutable state of a `CPGBuilder`: the two knowledge collections
of its `LocalOuputBuilder`, the AST-id-to-knowledge-key map, the scope
stack and context stack (heads are the Python `[-1]` tops; the Python
`scope_stack[0]` is the last element of the list here), and the two id
counters. -/
structure CPGState where
  knowledge_nodes : List (String × KNode)
  knowledge_edges : List KEdge
  astId_nodeId_map : List (String × String)
  scope_stack : List String
  context_stack : List (Context × String)
  n_counter : Nat
  e_counter : Nat
deriving Repr

/-- A fresh `CPGBuilder` state: empty collections, empty stacks,
counters at zero. -/
def CPGBuilder.init : CPGState :=
  { knowledge_nodes := [], knowledge_edges := [], astId_nodeId_map := [],
    scope_stack := [], context_stack := [], n_counter := 0, e_counter := 0 }

/-- The key `f"node:{node.type}:{self.gen_id()}"` that
`_create_knowledge_node` generates for the next knowledge node. -/
def CPGBuilder.gen_node_key (node : Node) (s : CPGState) : String :=
  "node:" ++ node.type ++ ":" ++ decimalString (s.n_counter + 1)

/-- Embedding of `CPGBuilder._create_knowledge_node` (with
`gen_id("node")` inlined): build the document, insert it into the
keyed collection, and record `astId_nodeId_map[str(node.id)]`. -/
def CPGBuilder.create_knowledge_node (node : Node) (file_path : String)
    (add_properties : List (String × String)) (s : CPGState) : KNode × CPGState :=
  let n := s.n_counter + 1
  let node_id := CPGBuilder.gen_node_key node s
  let a_node : KNode :=
    { key := node_id, symbol_id := node.id, type := node.type,
      text := ASTUtils.get_text node, start_byte := node.start_byte,
      end_byte := node.end_byte, file_path := file_path,
      properties := add_properties }
  (a_node,
    { s with n_counter := n,
             knowledge_nodes := dictInsert s.knowledge_nodes node_id a_node,
             astId_nodeId_map := dictInsert s.astId_nodeId_map node.id node_id })

/-- Embedding of `CPGBuilder._create_knowledge_edge` (with
`gen_id("edge")` inlined). -/
def CPGBuilder.create_knowledge_edge (from_node_id to_node_id edge_type : String)
    (s : CPGState) : CPGState :=
  let e := s.e_counter + 1
  { s with e_counter := e,
           knowledge_edges := s.knowledge_edges ++
             [{ key := "knowledge_edge:" ++ decimalString e,
                from_key := from_node_id, to_key := to_node_id,
                relation := edge_type }] }

/-- Embedding of `ContextStack.push_context`. -/
def CPGBuilder.push_context (ids : String) (context : Context) (s : CPGState) :
    CPGState :=
  { s with context_stack := (context, ids) :: s.context_stack }

/-- Embedding of `ContextStack.pop_context` (the source's `list.pop`
raises on an empty stack; the builder pops only right after a push, so
the case never arises). -/
def CPGBuilder.pop_context (s : CPGState) : CPGState :=
  { s with context_stack := s.context_stack.tail }

/-- The builder's `scope_lookup_by_name` call: the source's `while`
loop, run with fuel that is sufficient whenever the loop terminates at
all (a terminating chase never revisits a scope, so it takes at most
one step per stored scope plus the final exit).  Exhausted fuel
therefore means the source call diverges; it is reported as an error. -/
def CPGBuilder.lookup (lst : SymbolTable) (scope_id target : String) :
    Except String (Option SymbolID) :=
  match lst.scope_lookup_by_name scope_id target (lst.scopes.length + 2) with
  | none => .error "scope_lookup_by_name never returns (cyclic parent chain)"
  | some r => .ok r

/-- Embedding of the context-dependent linking section of
`CPGBuilder.create_relation_if_possible` (the three `if context == …`
statements after a knowledge node `k_node` was created): emit
`has_argument(rel → k)` under `ARGUMENTS`, `initializes(k → rel)` under
`VAR_DECL`, `contains(rel → k)` under `EXPRESSION`, and nothing under
`GLOBAL`. -/
def CPGBuilder.context_dependent_edges (context : Context) (relevant_id k_key : String)
    (s : CPGState) : CPGState :=
  let s1 := if context = Context.ARGUMENTS then
      CPGBuilder.create_knowledge_edge relevant_id k_key "has_argument" s
    else s
  let s2 := if context = Context.VAR_DECL then
      CPGBuilder.create_knowledge_edge k_key relevant_id "initializes" s1
    else s1
  if context = Context.EXPRESSION then
    CPGBuilder.create_knowledge_edge relevant_id k_key "contains" s2
  else s2

mutual

/-- Bound used for the termination of the builder walk: a successful
node search returns a subtree of its root. -/
theorem ASTUtils.sizeOf_first_node_of_type :
    ∀ (root : Node) (t : String) (r : Node),
      ASTUtils.first_node_of_type root t = some r → sizeOf r ≤ sizeOf root
  | Node.mk i ty tx sb eb cs, t, r => by
    intro h
    rw [ASTUtils.first_node_of_type] at h
    split at h
    · cases h
      exact le_refl _
    · have := ASTUtils.sizeOf_first_in_children cs t r h
      simp only [Node.mk.sizeOf_spec]
      omega

/-- Companion bound for the child-list search. -/
theorem ASTUtils.sizeOf_first_in_children :
    ∀ (cs : List Node) (t : String) (r : Node),
      ASTUtils.first_in_children cs t = some r → sizeOf r < sizeOf cs
  | [], t, r => by intro h; simp [ASTUtils.first_in_children] at h
  | c :: rest, t, r => by
    intro h
    rw [ASTUtils.first_in_children] at h
    cases hc : ASTUtils.first_node_of_type c t with
    | some r0 =>
      rw [hc] at h
      cases h
      have := ASTUtils.sizeOf_first_node_of_type c t r hc
      simp [List.cons.sizeOf_spec]
      omega
    | none =>
      rw [hc] at h
      have := ASTUtils.sizeOf_first_in_children rest t r h
      simp [List.cons.sizeOf_spec]
      omega

end

mutual

/-- Embedding of `CPGBuilder.build_cpg`: push the scope stack on
scope-introducing nodes, try the knowledge-node arm, then the
reference arm, otherwise recurse into the children and pop.  Note the
source's early `return` after either arm succeeds skips the final pop
(the chunk's scope stays on the stack, as in the source). -/
def CPGBuilder.build_cpg (lst : SymbolTable) :
    Node → String → CPGState → Except String CPGState
  | Node.mk i t tx sb eb cs, file_path, s0 => do
    let node := Node.mk i t tx sb eb cs
    let s1 := if ASTUtils.is_different_scope_node node then
        { s0 with scope_stack := i :: s0.scope_stack }
      else s0
    let (done1, s2) ← CPGBuilder.create_knowledge_node_if_possible lst node file_path s1
    if done1 then
      pure s2
    else do
      let (done2, s3) ← CPGBuilder.create_relation_if_possible lst node file_path s2
      if done2 then
        pure s3
      else do
        let s4 ← CPGBuilder.build_cpg_children lst cs file_path s3
        pure (if ASTUtils.is_different_scope_node node then
            { s4 with scope_stack := s4.scope_stack.tail }
          else s4)
termination_by n fp s => (sizeOf n, 3)

/-- The `for child in node.children: self.build_cpg(child, …)` loop. -/
def CPGBuilder.build_cpg_children (lst : SymbolTable) :
    List Node → String → CPGState → Except String CPGState
  | [], _, s => pure s
  | c :: rest, file_path, s => do
    let s2 ← CPGBuilder.build_cpg lst c file_path s
    CPGBuilder.build_cpg_children lst rest file_path s2
termination_by l fp s => (sizeOf l, 0)

/-- Embedding of `CPGBuilder.create_knowledge_node_if_possible`: emit a
knowledge node for `chunk`/`block`/declaration kinds; add the
root-chunk `contains` edge for declarations; on a variable declaration
set the `initialized` property (re-inserting the node, as
`_update_knowledge_node` does) and walk the children under a `VAR_DECL`
context; on a chunk walk the children under a `GLOBAL` context; the
`block` arm performs an unused scope lookup and falls through to
`False`. -/
def CPGBuilder.create_knowledge_node_if_possible (lst : SymbolTable) :
    Node → String → CPGState → Except String (Bool × CPGState)
  | Node.mk i t tx sb eb cs, file_path, s0 => do
    let node := Node.mk i t tx sb eb cs
    if ASTUtils.is_knowledge_node node then do
      let (k_node, s1) := CPGBuilder.create_knowledge_node node file_path [] s0
      let s2 ← if k_node.type = "function_declaration" ∨
          k_node.type = "variable_declaration" then
          match s1.scope_stack.getLast? with
          | none => Except.error "IndexError: scope_stack[0] on empty stack"
          | some root_scope =>
            match dictGet s1.astId_nodeId_map root_scope with
            | none => pure s1
            | some root_chunk_id =>
              pure (CPGBuilder.create_knowledge_edge root_chunk_id k_node.key
                "contains" s1)
        else pure s1
      if k_node.type = "variable_declaration" then do
        let s3 := match ASTUtils.first_node_of_type node "assignment_statement" with
          | none => s2
          | some _ =>
            let k2 := { k_node with properties := [("initialized", "True")] }
            { s2 with knowledge_nodes := dictInsert s2.knowledge_nodes k2.key k2 }
        let s4 := CPGBuilder.push_context k_node.key Context.VAR_DECL s3
        let s5 ← CPGBuilder.build_cpg_children lst cs file_path s4
        pure (true, CPGBuilder.pop_context s5)
      else if k_node.type = "block" then do
        match s2.scope_stack with
        | [] => Except.error "IndexError: scope stack is empty"
        | top :: _ => do
          let _ ← CPGBuilder.lookup lst top top
          pure (false, s2)
      else if k_node.type = "chunk" then do
        let s4 := CPGBuilder.push_context k_node.key Context.GLOBAL s2
        let s5 ← CPGBuilder.build_cpg_children lst cs file_path s4
        pure (true, CPGBuilder.pop_context s5)
      else
        pure (false, s2)
    else
      pure (false, s0)
termination_by n fp s => (sizeOf n, 2)

/-- Embedding of `CPGBuilder.create_relation_if_possible`: the
`ident`, `exp_list` and `call` arms guarded by the reference-kind
classifier, followed by the context-dependent linking when a knowledge
node was created; returns the `recursive` flag. -/
def CPGBuilder.create_relation_if_possible (lst : SymbolTable) :
    Node → String → CPGState → Except String (Bool × CPGState)
  | Node.mk i t tx sb eb cs, file_path, s0 => do
    let node := Node.mk i t tx sb eb cs
    match ASTUtils.is_relation_node node with
    | none => pure (false, s0)
    | some ty => do
      let (k1, s1) ← if ty = "ident" then
          match s0.context_stack with
          | [] => Except.error "IndexError: context stack peek on empty stack"
          | (ctxTop, _) :: _ =>
            if ctxTop ≠ Context.VAR_DECL then do
              let (k_node, sA) := CPGBuilder.create_knowledge_node node file_path [] s0
              match sA.scope_stack with
              | [] => Except.error "IndexError: scope stack is empty"
              | top :: _ => do
                let symbol ← CPGBuilder.lookup lst top (ASTUtils.get_text node)
                match symbol with
                | none => pure (some k_node.key, sA)
                | some sym =>
                  match dictGet sA.astId_nodeId_map sym.ast_id with
                  | none => Except.error "KeyError: astId_nodeId_map"
                  | some found_node_id =>
                    pure (some k_node.key,
                      CPGBuilder.create_knowledge_edge k_node.key found_node_id
                        "refers_to" sA)
            else
              pure (none, s0)
        else pure (none, s0)
      let (k2, s2, rec2) ← if ty = "exp_list" then do
          let (k_node, sA) := CPGBuilder.create_knowledge_node node file_path [] s1
          let sB := CPGBuilder.push_context k_node.key Context.EXPRESSION sA
          let sC ← CPGBuilder.build_cpg_children lst cs file_path sB
          pure (some k_node.key, CPGBuilder.pop_context sC, true)
        else pure (k1, s1, false)
      let (k3, s3, rec3) ← if ty = "call" then do
          let (k_node, sA) := CPGBuilder.create_knowledge_node node file_path [] s2
          match ASTUtils.first_node_of_type node "identifier" with
          | none =>
            Except.error "AttributeError: get_text(None) for a call without identifier"
          | some identN =>
            match sA.scope_stack with
            | [] => Except.error "IndexError: scope stack is empty"
            | top :: _ => do
              let definition ← CPGBuilder.lookup lst top (ASTUtils.get_text identN)
              let sB ← match definition with
                | none => pure sA
                | some d =>
                  match dictGet sA.astId_nodeId_map d.ast_id with
                  | none => Except.error "KeyError: astId_nodeId_map"
                  | some found_node_id =>
                    pure (CPGBuilder.create_knowledge_edge found_node_id k_node.key
                      "defines" sA)
              match harg : ASTUtils.first_node_of_type node "arguments" with
              | none =>
                Except.error "AttributeError: child_count of None for a call without arguments"
              | some arguments =>
                if arguments.children.length > 2 then do
                  have hsz : sizeOf arguments.children
                      < 1 + sizeOf i + sizeOf t + sizeOf tx + sb + eb + sizeOf cs := by
                    have h1 : sizeOf arguments ≤ sizeOf (Node.mk i t tx sb eb cs) :=
                      ASTUtils.sizeOf_first_node_of_type (Node.mk i t tx sb eb cs)
                        "arguments" arguments harg
                    cases arguments with
                    | mk a1 a2 a3 a4 a5 a6 =>
                      simp only [Node.mk.sizeOf_spec, sizeOf_nat] at h1 ⊢
                      omega
                  let sC := CPGBuilder.push_context k_node.key Context.ARGUMENTS sB
                  let sD ← CPGBuilder.build_cpg_children lst arguments.children
                    file_path sC
                  pure (some k_node.key, CPGBuilder.pop_context sD, true)
                else
                  pure (some k_node.key, sB, false)
        else pure (k2, s2, rec2)
      let s4 ← match k3 with
        | none => pure s3
        | some k_key =>
          match s3.context_stack with
          | [] => Except.error "IndexError: context stack peek on empty stack"
          | (context, relevant_id) :: _ =>
            pure (CPGBuilder.context_dependent_edges context relevant_id k_key s3)
      pure (rec3, s4)
termination_by n fp s => (sizeOf n, 1)

end

/-!
Concrete fixtures for the second-pass claims.
-/

/-- The symbol bound to `x` in the witness table: declared at AST id
`42`. -/
def wSym : SymbolID :=
  { worker_id := "w", file_path := "f.lua", scope_id := "s0", name := "x",
    kind := "local_var", ast_id := "42" }

/-- A one-scope symbol table binding `x` to a declaration whose AST id
is `42`; used to witness claim C1. -/
def lstW : SymbolTable :=
  { worker_id := "w"
    scopes := [("s0", { scope_id := "s0", parent := none, symbols := [("x", wSym)] })]
    exports := [], imports := [], unresolved := [] }

/-- A builder state in the middle of a walk: a `GLOBAL` context frame,
the scope `s0` on the scope stack, and the declaration AST id `42`
already mapped to its knowledge node. -/
def midState : CPGState :=
  { knowledge_nodes := [], knowledge_edges := [],
    astId_nodeId_map := [("42", "node:variable_declaration:1")],
    scope_stack := ["s0"], context_stack := [(Context.GLOBAL, "chunkKey")],
    n_counter := 1, e_counter := 0 }

/-- An identifier AST node referring to `x`; used to witness C1. -/
def identX : Node := ⟨"77", "identifier", "x", 30, 31, []⟩

/-- A `function_call` AST node with no children at all — no identifier
and no arguments descendant; used to witness C10. -/
def bareCall : Node := ⟨"90", "function_call", "()", 40, 42, []⟩



/-!
CPG v1 exporter (`output_builder.py`): the node-type mapping consulted
by `export_cpg_v1` for every exported node.
-/

/-- Embedding of `GraphOutputBuilder._map_type`: the literal dict of
the source (in order), consulted with `mapping.get(internal_type,
"UNKNOWN")`. -/
def GraphOutputBuilder.map_type (internal_type : String) : String :=
  ((([("file", "FILE"),
      ("dir", "DIRECTORY"),
      ("function_definition", "FUNCTION"),
      ("local_function_definition", "FUNCTION"),
      ("variable_declaration", "VARIABLE"),
      ("local_declaration", "VARIABLE"),
      ("identifier", "IDENTIFIER"),
      ("string", "LITERAL"),
      ("number", "LITERAL"),
      ("boolean", "LITERAL"),
      ("nil", "LITERAL"),
      ("call_expression", "CALL"),
      ("if_statement", "CONTROL_STRUCTURE"),
      ("while_statement", "CONTROL_STRUCTURE"),
      ("for_statement", "CONTROL_STRUCTURE"),
      ("repeat_statement", "CONTROL_STRUCTURE"),
      ("do_statement", "BLOCK"),
      ("block", "BLOCK"),
      ("comment", "COMMENT"),
      ("MODULE", "NAMESPACE"),
      ("FUNCTION", "FUNCTION"),
      ("VARIABLE", "VARIABLE"),
      ("PARAMETER", "VARIABLE"),
      ("BLOCK", "BLOCK"),
      ("STATEMENT", "UNKNOWN")] : List (String × String)).lookup
    internal_type).getD "UNKNOWN")

/-!
Orchestrator (`dapr_handler.py`): the per-file parse loop, the final
status computation of `process_project`, and the publications of
`handle_parse_task`.  External effects (download, extraction, schema
validation, the pub/sub posts) are modelled by booleans recording
whether the corresponding source operation raises; the loop and the
status/publication logic are embedded directly.
-/

/-- Embedding of the `FileError` dataclass. -/
structure FileError where
  file_path : String
  error_type : String
  error_message : String
deriving Repr, DecidableEq

/-- Embedding of the `ProcessingResult` dataclass. -/
structure ProcessingResult where
  project_id : String
  status : String
  files_processed : Nat
  files_failed : Nat
  errors : List FileError
  message : Option String
deriving Repr, DecidableEq

/-- The externally determined fate of one `process_project` run: does
the download/extract phase raise, which files parse, does the
build/export/schema-validation phase raise, and does the compressed
publish to `graph-updates` raise.  The error strings carried by the
source exceptions are immaterial to the claims and are modelled as
fixed texts. -/
structure RunInput where
  project_id : String
  download_extract_ok : Bool
  files : List (String × Bool)
  build_export_validate_ok : Bool
  graph_publish_ok : Bool
deriving Repr, DecidableEq

/-- Embedding of the `for file_item in lua_files` loop of
`process_project`: a parse success increments `files_processed`, a
parse failure is caught, appended to `errors` as a `FileError` and
counted in `files_failed`, and the loop continues either way. -/
def parseLoop (files : List (String × Bool)) (res : ProcessingResult) :
    ProcessingResult :=
  match files with
  | [] => res
  | (fp, ok) :: rest =>
    if ok then
      parseLoop rest { res with files_processed := res.files_processed + 1 }
    else
      parseLoop rest
        { res with
            errors := res.errors ++ [{ file_path := fp, error_type := "ParseError",
                                       error_message := "failed to parse" }],
            files_failed := res.files_failed + 1 }

/-- Embedding of `LuaCodeAnalyzerService.process_project`: the result
starts as `completed`; any exception outside the per-file loop lands in
the outer handler which sets `failed`; the compressed publish to
`graph-updates` happens before the final status is determined.  Returns
the result together with whether a `graph-updates` message was
published. -/
def process_project (inp : RunInput) : ProcessingResult × Bool :=
  if inp.download_extract_ok = false then
    ({ project_id := inp.project_id, status := "failed", files_processed := 0,
       files_failed := 0, errors := [],
       message := some "download or extraction error" }, false)
  else
    let res := parseLoop inp.files
      { project_id := inp.project_id, status := "completed", files_processed := 0,
        files_failed := 0, errors := [], message := none }
    if inp.build_export_validate_ok = false then
      ({ res with status := "failed",
                  message := some "build, export or validation error" }, false)
    else if inp.graph_publish_ok = false then
      ({ res with status := "failed", message := some "publish error" }, false)
    else
      let res2 :=
        if res.files_failed > 0 then
          if res.files_processed > 0 then
            { res with status := "partial", message := some "Completed with errors" }
          else
            { res with status := "failed",
                       message := some "All files failed to parse" }
        else
          { res with message := some "Successfully processed files" }
      (res2, true)

/-- The externally determined fate of one delivery handled by
`handle_parse_task`: does the body parse into a task (and the service
exist), the run's fate, and does the publish to `results` raise. -/
structure TaskInput where
  body_ok : Bool
  run : RunInput
  results_publish_ok : Bool
deriving Repr, DecidableEq

/-- What a single delivery produced: how many messages went to the
`results` and `graph-updates` topics and which acknowledgement was
returned. -/
structure TaskOutcome where
  results_messages : Nat
  graph_updates_messages : Nat
  ack : String
deriving Repr, DecidableEq

/-- Embedding of `handle_parse_task`: a malformed body (or failed
publish) is caught by the outer handler which replies `RETRY`;
otherwise the project is processed, the result dict is published to
`results`, and `SUCCESS` is returned. -/
def handle_parse_task (t : TaskInput) : TaskOutcome × Option ProcessingResult :=
  if t.body_ok = false then
    ({ results_messages := 0, graph_updates_messages := 0, ack := "RETRY" }, none)
  else
    let pr := process_project t.run
    if t.results_publish_ok then
      ({ results_messages := 1,
         graph_updates_messages := if pr.2 then 1 else 0,
         ack := "SUCCESS" }, some pr.1)
    else
      ({ results_messages := 0,
         graph_updates_messages := if pr.2 then 1 else 0,
         ack := "RETRY" }, some pr.1)


/-- A run fate with no Lua files at all, everything else succeeding;
used for claim C8's counterexample. -/
def emptyRun : RunInput :=
  { project_id := "p", download_extract_ok := true, files := [],
    build_export_validate_ok := true, graph_publish_ok := true }

/-- A run fate with one parsing file and one failing file; used to
witness claim C8. -/
def mixedRun : RunInput :=
  { project_id := "p", download_extract_ok := true,
    files := [("good.lua", true), ("bad.lua", false)],
    build_export_validate_ok := true, graph_publish_ok := true }

/-- A run fate in which every file fails to parse while download,
build, validation and both publishes succeed; used for claim C9's
counterexample. -/
def allFailRun : RunInput :=
  { project_id := "p", download_extract_ok := true,
    files := [("bad.lua", false)],
    build_export_validate_ok := true, graph_publish_ok := true }

/-- A well-formed delivery of `allFailRun` whose `results` publish
succeeds. -/
def allFailTask : TaskInput :=
  { body_ok := true, run := allFailRun, results_publish_ok := true }

/-- A well-formed delivery of `mixedRun` whose `results` publish
succeeds; used to witness claim C9. -/
def mixedTask : TaskInput :=
  { body_ok := true, run := mixedRun, results_publish_ok := true }


/-!
Recursive block discovery (`graph_queries.py` over the in-memory store
of `output_builder.py`).  The store's AST collections are `_nodes` (a
dict of node documents) and `_edges` (a list of `child_of` edge
documents; an edge's `_from`/`_to` carry a fixed `nodes/` prefix that
`get_children` strips again, so edges are modelled as bare key pairs).
The knowledge collections are `_knowledge_nodes` (a dict) and
`_knowledge_edges` (an append-only list).  None of the functions driven
by `build_recursive_blocks` ever reads `_knowledge_edges`; to make that
visible the state is split into a core (everything the loop reads and
writes) and the knowledge-edge log, and every operation is given as a
core transformer that also returns the edge documents it appends. -/

/-- An AST node document as stored in the `nodes` collection (`_key`,
`type`, `text`, `start_byte`, `end_byte`). -/
structure ANode where
  key : String
  type : String
  text : String
  start_byte : Nat
  end_byte : Nat
deriving Repr, DecidableEq

/-- A knowledge-node document: the block documents additionally carry
the `discovered`/`processed` flags (absent on other kinds, hence
`Option`). -/
structure GNode where
  key : String
  type : String
  text : String
  start_byte : Nat
  end_byte : Nat
  discovered : Option Bool := none
  processed : Option Bool := none
deriving Repr, DecidableEq

/-- A knowledge-edge document (`_from`, `_to`, `relation`; the
`knowledge_nodes/` handle prefix is constant and omitted). -/
structure QEdge where
  from_key : String
  to_key : String
  relation : String
deriving Repr, DecidableEq

/-- The part of the store that `build_recursive_blocks` reads: the AST
node dict, the AST edge list (from-key, to-key pairs), and the
knowledge-node dict. -/
structure QCore where
  nodes : List (String × ANode)
  edges : List (String × String)
  knowledge_nodes : List (String × GNode)
deriving Repr, DecidableEq

/-- The full store state: the core plus the append-only knowledge-edge
log. -/
structure QState where
  core : QCore
  knowledge_edges : List QEdge
deriving Repr, DecidableEq

/-- Embedding of `GraphOutputBuilder.get_children` on the AST
collections: walk the edge list, keep edges leaving `parent`, and
return the stored target documents (targets missing from `_nodes` are
skipped). -/
def astChildren (c : QCore) (parent : String) : List ANode :=
  c.edges.filterMap (fun e => if e.1 = parent then dictGet c.nodes e.2 else none)

/-- The `discovered and not processed` test of
`query_discovered_blocks_without_analysis` on one knowledge node. -/
def isUDBlock (g : GNode) : Bool :=
  g.type == "block" && g.discovered == some true && g.processed == some false

/-- Embedding of `GraphQueries.query_discovered_blocks_without_analysis`. -/
def GraphQueries.query_discovered_blocks_without_analysis (c : QCore) : List String :=
  (c.knowledge_nodes.filter (fun kv => isUDBlock kv.2)).map (fun kv => kv.1)

/-- Embedding of `GraphQueries.mark_block_analyzed`: the proxy's
`update` merges `processed: True` into the stored document when the key
is present. -/
def GraphQueries.mark_block_analyzed (block_id : String) (c : QCore) : QCore :=
  { c with knowledge_nodes := c.knowledge_nodes.map (fun kv =>
      if kv.1 = block_id then (kv.1, { kv.2 with processed := some true }) else kv) }

/-- Embedding of `GraphQueries.control_statements` (a set literal; only
membership is used). -/
def control_statements : List String :=
  ["if_statement", "else_statement", "while_statement", "for_statement",
   "repeat_statement", "do_statement"]

/-- An entity of `query_undiscovered_statements_from_discovered_blocks`
(`new_node_id`, `from_node_id`, `type`, `text`, byte span). -/
structure StmtEntity where
  new_node_id : String
  from_node_id : String
  type : String
  text : String
  start_byte : Nat
  end_byte : Nat
deriving Repr, DecidableEq

/-- Embedding of the knowledge `CollectionProxy.insert`: store (a copy
of) the document under its `_key`, overwriting any previous document
with that key. -/
def insertKN (c : QCore) (g : GNode) : QCore :=
  { c with knowledge_nodes := dictInsert c.knowledge_nodes g.key g }

/-- Embedding of
`GraphQueries.query_undiscovered_statements_from_discovered_blocks`:
for every discovered knowledge block whose AST node exists, collect the
control-statement AST children that have no knowledge node yet. -/
def GraphQueries.query_undiscovered_statements (c : QCore) : List StmtEntity :=
  c.knowledge_nodes.foldl (fun acc kv =>
    if kv.2.type == "block" && kv.2.discovered == some true then
      match dictGet c.nodes kv.1 with
      | none => acc
      | some _ =>
        acc ++ (astChildren c kv.1).filterMap (fun child =>
          if control_statements.contains child.type
              && (dictGet c.knowledge_nodes child.key).isNone then
            some { new_node_id := child.key, from_node_id := kv.1,
                   type := child.type, text := child.text,
                   start_byte := child.start_byte, end_byte := child.end_byte }
          else none)
    else acc) []

/-- Embedding of `GraphQueries._insert_nodes_and_edges` (the queries
always supply a non-empty `new_node_id`, so the generated-id fallback
is not modelled): insert the node unless a knowledge node with that key
exists, then add the edge when `from_node_id` is set. -/
def GraphQueries.insert_nodes_and_edges (node_type edge_relation : String)
    (entities : List StmtEntity) (p : QCore × List QEdge) : QCore × List QEdge :=
  entities.foldl (fun p e =>
    let c := p.1
    let c1 := if (dictGet c.knowledge_nodes e.new_node_id).isNone then
        insertKN c { key := e.new_node_id, type := node_type, text := e.text,
                     start_byte := e.start_byte, end_byte := e.end_byte }
      else c
    if e.from_node_id == "" then (c1, p.2)
    else (c1, p.2 ++ [{ from_key := e.from_node_id, to_key := e.new_node_id,
                        relation := edge_relation }])) p

/-- Embedding of `GraphQueries.insert_stmt_blocks`: for every statement
whose AST node exists, insert each `block` AST child as a knowledge
block flagged `discovered=True, processed=False` with a `has_block`
edge. -/
def GraphQueries.insert_stmt_blocks (statements : List StmtEntity)
    (p : QCore × List QEdge) : QCore × List QEdge :=
  statements.foldl (fun p stmt =>
    match dictGet p.1.nodes stmt.new_node_id with
    | none => p
    | some _ =>
      (astChildren p.1 stmt.new_node_id).foldl (fun p b =>
        if b.type == "block" then
          (insertKN p.1 { key := b.key, type := "block", text := b.text,
                          start_byte := b.start_byte, end_byte := b.end_byte,
                          discovered := some true, processed := some false },
           p.2 ++ [{ from_key := stmt.new_node_id, to_key := b.key,
                     relation := "has_block" }])
        else p) p) p

/-- Embedding of `GraphQueries.laststat_return`: every
`return_statement` AST child of the block becomes a `laststat_return`
knowledge node with an `executes` edge. -/
def GraphQueries.laststat_return (block_id : String)
    (p : QCore × List QEdge) : QCore × List QEdge :=
  (astChildren p.1 block_id).foldl (fun p stmt =>
    if stmt.type == "return_statement" then
      (insertKN p.1 { key := stmt.key, type := "laststat_return", text := stmt.text,
                      start_byte := stmt.start_byte, end_byte := stmt.end_byte },
       p.2 ++ [{ from_key := block_id, to_key := stmt.key,
                 relation := "executes" }])
    else p) p

/-- Embedding of `GraphQueries.insert_block_var_decls`: for every
`variable_declaration` child with an `assignment_statement` child
holding a `variable_list`, each identifier becomes a `local_var`
knowledge node with a `declares` edge from the block. -/
def GraphQueries.insert_block_var_decls (block_id : String)
    (p : QCore × List QEdge) : QCore × List QEdge :=
  match dictGet p.1.nodes block_id with
  | none => p
  | some _ =>
    (astChildren p.1 block_id).foldl (fun p vd =>
      if vd.type == "variable_declaration" then
        match (astChildren p.1 vd.key).find? (fun c => c.type == "assignment_statement") with
        | none => p
        | some assign =>
          match (astChildren p.1 assign.key).find? (fun c => c.type == "variable_list") with
          | none => p
          | some var_list =>
            (astChildren p.1 var_list.key).foldl (fun p ident =>
              if ident.type == "identifier" then
                (insertKN p.1 { key := ident.key, type := "local_var",
                                text := ident.text, start_byte := ident.start_byte,
                                end_byte := ident.end_byte },
                 p.2 ++ [{ from_key := block_id, to_key := ident.key,
                           relation := "declares" }])
              else p) p
      else p) p

/-- Embedding of `GraphQueries.insert_local_assignments`: every
`assignment_statement` child of a `variable_declaration` child becomes
a `local_assignment` knowledge node with an `executes` edge. -/
def GraphQueries.insert_local_assignments (block_id : String)
    (p : QCore × List QEdge) : QCore × List QEdge :=
  (astChildren p.1 block_id).foldl (fun p vd =>
    if vd.type == "variable_declaration" then
      (astChildren p.1 vd.key).foldl (fun p assign =>
        if assign.type == "assignment_statement" then
          (insertKN p.1 { key := assign.key, type := "local_assignment",
                          text := assign.text, start_byte := assign.start_byte,
                          end_byte := assign.end_byte },
           p.2 ++ [{ from_key := block_id, to_key := assign.key,
                     relation := "executes" }])
        else p) p
    else p) p

mutual

/-- Embedding of the inner `traverse` of `GraphQueries._traverse_ast`:
the fuel is `max_depth + 1 - depth`, so fuel `0` is the `depth >
max_depth` exit and `fuel = maxFuel` identifies the start node (the
`depth > 0` guard of the stop test).  Threads the `visited` set and
returns the visited nodes in preorder. -/
def GraphQueries.traverseGo (c : QCore) (stop_at : List String) (maxFuel : Nat) :
    Nat → String → List String → List String × List ANode
  | 0, _, visited => (visited, [])
  | fuel + 1, key, visited =>
    if visited.contains key then (visited, [])
    else
      let v2 := key :: visited
      match dictGet c.nodes key with
      | none => (v2, [])
      | some node =>
        if stop_at.contains node.type && (fuel + 1 ≠ maxFuel) then (v2, [])
        else
          let pr := GraphQueries.traverseChildren c stop_at maxFuel fuel
            ((astChildren c key).map (fun ch => ch.key)) v2
          (pr.1, node :: pr.2)

/-- The `for child in children` recursion of `_traverse_ast`. -/
def GraphQueries.traverseChildren (c : QCore) (stop_at : List String) (maxFuel : Nat) :
    Nat → List String → List String → List String × List ANode
  | _, [], visited => (visited, [])
  | fuel, k :: ks, visited =>
    let pr1 := GraphQueries.traverseGo c stop_at maxFuel fuel k visited
    let pr2 := GraphQueries.traverseChildren c stop_at maxFuel fuel ks pr1.1
    (pr2.1, pr1.2 ++ pr2.2)

end

/-- Embedding of `GraphQueries._traverse_ast` (returning the visited
node documents; the source also records depth and path, which
`insert_block_function_calls` ignores). -/
def GraphQueries.traverse_ast (c : QCore) (start_key : String) (max_depth : Nat)
    (stop_at : List String) : List ANode :=
  (GraphQueries.traverseGo c stop_at (max_depth + 1) (max_depth + 1) start_key []).2

/-- Embedding of `GraphQueries.insert_block_function_calls`: traverse
the block (stopping at nested blocks, depth at most 10); every
`function_call` with an `identifier`/`dot_index_expression` child is
linked by a `calls` edge — to the first knowledge node with matching
text of a function-ish kind when one exists, else to a `function_call`
knowledge node created on demand. -/
def GraphQueries.insert_block_function_calls (block_id : String)
    (p : QCore × List QEdge) : QCore × List QEdge :=
  (GraphQueries.traverse_ast p.1 block_id 10 ["block"]).foldl (fun p node =>
    if node.type == "function_call" then
      match (astChildren p.1 node.key).find?
          (fun ch => ch.type == "identifier" || ch.type == "dot_index_expression") with
      | none => p
      | some name_node =>
        let func_name := name_node.text
        match p.1.knowledge_nodes.find? (fun kv =>
            kv.2.text == func_name &&
            (kv.2.type == "function" || kv.2.type == "local_function" ||
             kv.2.type == "global_function" || kv.2.type == "local_var")) with
        | some existing =>
          (p.1, p.2 ++ [{ from_key := block_id, to_key := existing.1,
                          relation := "calls" }])
        | none =>
          let c1 := if (dictGet p.1.knowledge_nodes node.key).isNone then
              insertKN p.1 { key := node.key, type := "function_call",
                             text := func_name, start_byte := node.start_byte,
                             end_byte := node.end_byte }
            else p.1
          (c1, p.2 ++ [{ from_key := block_id, to_key := node.key,
                         relation := "calls" }])
    else p) p

/-- Embedding of `GraphQueries.process_if_statements`: for every
`if_statement` child of the block, each `else_statement` or
`elseif_statement` child is inserted with an `executes` edge, and each
`block` child of that else/elseif is inserted flagged
`discovered=True, processed=False` with a `has_block` edge. -/
def GraphQueries.process_if_statements (block_id : String)
    (p : QCore × List QEdge) : QCore × List QEdge :=
  (astChildren p.1 block_id).foldl (fun p if_stmt =>
    if if_stmt.type == "if_statement" then
      (astChildren p.1 if_stmt.key).foldl (fun p child =>
        if child.type == "else_statement" || child.type == "elseif_statement" then
          let c3 := insertKN p.1 { key := child.key, type := child.type,
                                   text := child.text,
                                   start_byte := child.start_byte,
                                   end_byte := child.end_byte }
          let p4 : QCore × List QEdge :=
            (c3, p.2 ++ [{ from_key := if_stmt.key, to_key := child.key,
                           relation := "executes" }])
          (astChildren p4.1 child.key).foldl (fun p b =>
            if b.type == "block" then
              (insertKN p.1 { key := b.key, type := "block", text := b.text,
                              start_byte := b.start_byte, end_byte := b.end_byte,
                              discovered := some true, processed := some false },
               p.2 ++ [{ from_key := child.key, to_key := b.key,
                         relation := "has_block" }])
            else p) p4
        else p) p
    else p) p

/-- The body of the `for block_id in discovered_blocks` loop of
`build_recursive_blocks`: the five per-block insertion passes followed
by `mark_block_analyzed`. -/
def GraphQueries.processBlock (block_id : String) (p : QCore × List QEdge) :
    QCore × List QEdge :=
  let q := GraphQueries.process_if_statements block_id
    (GraphQueries.insert_block_function_calls block_id
      (GraphQueries.insert_local_assignments block_id
        (GraphQueries.insert_block_var_decls block_id
          (GraphQueries.laststat_return block_id p))))
  (GraphQueries.mark_block_analyzed block_id q.1, q.2)

/-- One pass of the `while True` body of
`GraphQueries.build_recursive_blocks`: run the undiscovered-statement
phase, break (`Sum.inl`) when no discovered-unprocessed block remains,
otherwise (`Sum.inr`) process every such block and mark it analyzed. -/
def GraphQueries.loopIter (s : QState) : QState ⊕ QState :=
  let new_statements := GraphQueries.query_undiscovered_statements s.core
  let p1 := GraphQueries.insert_stmt_blocks new_statements
    (new_statements.foldl (fun p stmt =>
        GraphQueries.insert_nodes_and_edges stmt.type "executes" [stmt] p)
      (s.core, s.knowledge_edges))
  let discovered_blocks := GraphQueries.query_discovered_blocks_without_analysis p1.1
  if discovered_blocks.isEmpty then
    Sum.inl { core := p1.1, knowledge_edges := p1.2 }
  else
    let p2 := discovered_blocks.foldl
      (fun p block_id => GraphQueries.processBlock block_id p) p1
    Sum.inr { core := p2.1, knowledge_edges := p2.2 }

/-- Embedding of `GraphQueries.build_recursive_blocks` with explicit
fuel for the unbounded `while True`: `none` means the loop has not
broken out within the given number of iterations (if no fuel suffices,
the source loop runs forever); `some` is the state at `break`. -/
def GraphQueries.build_recursive_blocks_fuel : Nat → QState → Option QState
  | 0, _ => none
  | fuel + 1, s =>
    match GraphQueries.loopIter s with
    | Sum.inl t => some t
    | Sum.inr t => GraphQueries.build_recursive_blocks_fuel fuel t


/-- The core-only observation of one loop pass: `none` when the pass
breaks, `some` the next core otherwise (the knowledge-edge log, which
no pass reads, is dropped).  Used to analyse `build_recursive_blocks`. -/
def GraphQueries.stepCoreRes (c : QCore) : Option QCore :=
  match GraphQueries.loopIter { core := c, knowledge_edges := [] } with
  | Sum.inl _ => none
  | Sum.inr t => some t.core

/-!
A finite — but cyclic — AST graph on which `build_recursive_blocks`
never terminates: two blocks, each holding an `if_statement` whose
`else_statement` child's block is the other block.  Processing either
block re-inserts the other with `discovered=True, processed=False`,
so the two blocks reset each other forever.  (Texts and byte spans are
irrelevant to the loop and set to `""`/`0`.)
-/

/-- The six AST node documents of the cyclic graph. -/
def cycNodes : List (String × ANode) :=
  [("B1", ⟨"B1", "block", "", 0, 0⟩),
   ("I1", ⟨"I1", "if_statement", "", 0, 0⟩),
   ("E1", ⟨"E1", "else_statement", "", 0, 0⟩),
   ("B2", ⟨"B2", "block", "", 0, 0⟩),
   ("I2", ⟨"I2", "if_statement", "", 0, 0⟩),
   ("E2", ⟨"E2", "else_statement", "", 0, 0⟩)]

/-- The cyclic child edges `B1→I1→E1→B2→I2→E2→B1`. -/
def cycEdges : List (String × String) :=
  [("B1", "I1"), ("I1", "E1"), ("E1", "B2"),
   ("B2", "I2"), ("I2", "E2"), ("E2", "B1")]

/-- A knowledge block document over the cyclic graph. -/
def blockKN (k : String) (proc : Bool) : GNode :=
  { key := k, type := "block", text := "", start_byte := 0, end_byte := 0,
    discovered := some true, processed := some proc }

/-- A knowledge statement document over the cyclic graph. -/
def stmtKN (k ty : String) : GNode :=
  { key := k, type := ty, text := "", start_byte := 0, end_byte := 0 }

/-- Initial core: only `B1` is discovered. -/
def cyc0 : QCore := ⟨cycNodes, cycEdges, [("B1", blockKN "B1" false)]⟩

/-- Core after one pass: `B1` processed, `I1`/`E1` inserted, `B2`
freshly discovered. -/
def cyc1 : QCore :=
  ⟨cycNodes, cycEdges,
   [("B1", blockKN "B1" true), ("I1", stmtKN "I1" "if_statement"),
    ("E1", stmtKN "E1" "else_statement"), ("B2", blockKN "B2" false)]⟩

/-- Core after two passes: processing `B2` reset `B1`. -/
def cyc2 : QCore :=
  ⟨cycNodes, cycEdges,
   [("B1", blockKN "B1" false), ("I1", stmtKN "I1" "if_statement"),
    ("E1", stmtKN "E1" "else_statement"), ("B2", blockKN "B2" true),
    ("I2", stmtKN "I2" "if_statement"), ("E2", stmtKN "E2" "else_statement")]⟩

/-- Core after three passes: processing `B1` reset `B2`; from here the
loop alternates between this core and `cyc2` forever. -/
def cyc3 : QCore :=
  ⟨cycNodes, cycEdges,
   [("B1", blockKN "B1" true), ("I1", stmtKN "I1" "if_statement"),
    ("E1", stmtKN "E1" "else_statement"), ("B2", blockKN "B2" false),
    ("I2", stmtKN "I2" "if_statement"), ("E2", stmtKN "E2" "else_statement")]⟩


/-!
Apparatus for the termination analysis of `build_recursive_blocks` on
ranked stores (the amended claim C4): a natural-number measure on cores
and the store invariants every loop operation maintains.  `r` ranks the
keys (strictly increasing along AST edges on ranked stores), `M` bounds
the ranks, and `C` is the weight base.
-/

/-- Weight sum of a key-document list: an entry at key `k` counts
`C ^ (M - r k)`. -/
def wsum {α : Type} (C M : Nat) (r : String → Nat) (l : List (String × α)) : Nat :=
  (l.map (fun kv => C ^ (M - r kv.1))).sum

/-- Potential part of the measure: AST nodes that have no knowledge
node yet (each can be inserted at most once, since knowledge keys are
never deleted). -/
def muPot (C M : Nat) (r : String → Nat) (c : QCore) : Nat :=
  wsum C M r (c.nodes.filter (fun kv => (dictGet c.knowledge_nodes kv.1).isNone))

/-- Unprocessed part of the measure: knowledge blocks with
`discovered=true, processed=false`. -/
def muUD (C M : Nat) (r : String → Nat) (c : QCore) : Nat :=
  wsum C M r (c.knowledge_nodes.filter (fun kv => isUDBlock kv.2))

/-- The loop measure: processing a block pays `C^(M-r)` and can only
re-awaken blocks at least three ranks deeper, each costing
`C^(M-r-3)`. -/
def mu (C M : Nat) (r : String → Nat) (c : QCore) : Nat :=
  muPot C M r c + muUD C M r c

/-- Store invariant maintained by every loop operation over the fixed
AST collections `N` (nodes) and `Eg` (edges): the AST part is `N`/`Eg`
itself, knowledge keys are distinct, unprocessed-discovered entries sit
only at keys whose AST node is a `block`, and a knowledge entry at a
block-node key has every AST parent of that key in the knowledge
collection as well. -/
def SInv (N : List (String × ANode)) (Eg : List (String × String)) (c : QCore) : Prop :=
  c.nodes = N ∧ c.edges = Eg ∧
  (c.knowledge_nodes.map Prod.fst).Nodup ∧
  (∀ k g, dictGet c.knowledge_nodes k = some g → isUDBlock g = true →
     ∃ nd, dictGet N k = some nd ∧ nd.type = "block") ∧
  (∀ k, (dictGet c.knowledge_nodes k).isSome = true →
     ∀ nd, dictGet N k = some nd → nd.type = "block" →
       ∀ ab, ab ∈ Eg → ab.2 = k → (dictGet c.knowledge_nodes ab.1).isSome = true)

/-- One admissible core transformation of the loop: the invariant still
holds, the knowledge domain only grows, unprocessed blocks stay
unprocessed except at the keys in `X`, and the measure rises by at most
`W`. -/
def CoreStep (N : List (String × ANode)) (Eg : List (String × String))
    (C M : Nat) (r : String → Nat) (X : List String) (W : Nat)
    (c c' : QCore) : Prop :=
  SInv N Eg c' ∧
  mu C M r c' ≤ mu C M r c + W ∧
  (∀ k, (dictGet c.knowledge_nodes k).isSome = true →
     (dictGet c'.knowledge_nodes k).isSome = true) ∧
  (∀ k, k ∉ X → ∀ g, dictGet c.knowledge_nodes k = some g → isUDBlock g = true →
     ∃ g', dictGet c'.knowledge_nodes k = some g' ∧ isUDBlock g' = true)


/-- A small ranked store for exercising the termination theorem: a
linear chain `B1 → I1 → E1 → B2` with only `B1` discovered. -/
def linNodes : List (String × ANode) :=
  [("B1", ⟨"B1", "block", "", 0, 0⟩),
   ("I1", ⟨"I1", "if_statement", "", 0, 0⟩),
   ("E1", ⟨"E1", "else_statement", "", 0, 0⟩),
   ("B2", ⟨"B2", "block", "", 0, 0⟩)]

/-- The chain edges of the ranked store. -/
def linEdges : List (String × String) :=
  [("B1", "I1"), ("I1", "E1"), ("E1", "B2")]

/-- The ranked store's core. -/
def linCore : QCore := ⟨linNodes, linEdges, [("B1", blockKN "B1" false)]⟩

/-- A rank function for the chain. -/
def linRank (k : String) : Nat :=
  if k = "B1" then 0 else if k = "I1" then 1 else if k = "E1" then 2 else 3

/-!
Theorems.  Each claim of the review gets exactly one theorem below,
preceded by helper lemmas where needed.
-/

/-- Helper: a successful dict read exhibits a member of the list. -/
theorem dictGet_mem {α : Type} {d : List (String × α)} {k : String} {v : α}
    (h : dictGet d k = some v) : (k, v) ∈ d := by
  induction d with
  | nil => simp [dictGet] at h
  | cons hd tl ih =>
    obtain ⟨k0, v0⟩ := hd
    by_cases hk : k0 = k
    · subst hk
      simp [dictGet] at h
      subst h
      exact List.mem_cons_self _ _
    · simp [dictGet, hk] at h
      exact List.mem_cons_of_mem _ (ih h)

/-- Helper for claim C3: on a well-formed table the lookup loop started
at a scope stored under key `k` returns, with any fuel above `r k + 1`,
a result characterised by `NearestOnChain`. -/
theorem scopeLookupLoop_ranked (st : SymbolTable) (r : String → Nat) (target : String)
    (hpar : parentsPresent st = true) (hrank : parentRanked st r = true) :
    ∀ n k sc, r k ≤ n → dictGet st.scopes k = some sc →
      ∃ res, (∀ fuel, n + 1 < fuel →
          scopeLookupLoop st target (some sc) fuel = some res)
        ∧ NearestOnChain st target (some sc) res := by
  intro n
  induction n with
  | zero =>
    intro k sc hrk hd
    cases hsym : dictGet sc.symbols target with
    | some sym =>
      refine ⟨some sym, fun fuel hf => ?_, NearestOnChain.here sc sym hsym⟩
      obtain ⟨f, rfl⟩ : ∃ f, fuel = f + 1 := ⟨fuel - 1, by omega⟩
      simp [scopeLookupLoop, hsym]
    | none =>
      cases hp : sc.parent with
      | none =>
        refine ⟨none, fun fuel hf => ?_, NearestOnChain.stop sc hsym hp⟩
        obtain ⟨f, rfl⟩ : ∃ f, fuel = f + 1 := ⟨fuel - 1, by omega⟩
        obtain ⟨g, rfl⟩ : ∃ g, f = g + 1 := ⟨f - 1, by omega⟩
        simp [scopeLookupLoop, hsym, hp]
      | some p =>
        exfalso
        have hmem := dictGet_mem hd
        have := (List.all_eq_true.mp hrank) _ hmem
        simp [hp] at this
        omega
  | succ m ih =>
    intro k sc hrk hd
    cases hsym : dictGet sc.symbols target with
    | some sym =>
      refine ⟨some sym, fun fuel hf => ?_, NearestOnChain.here sc sym hsym⟩
      obtain ⟨f, rfl⟩ : ∃ f, fuel = f + 1 := ⟨fuel - 1, by omega⟩
      simp [scopeLookupLoop, hsym]
    | none =>
      cases hp : sc.parent with
      | none =>
        refine ⟨none, fun fuel hf => ?_, NearestOnChain.stop sc hsym hp⟩
        obtain ⟨f, rfl⟩ : ∃ f, fuel = f + 1 := ⟨fuel - 1, by omega⟩
        obtain ⟨g, rfl⟩ : ∃ g, f = g + 1 := ⟨f - 1, by omega⟩
        simp [scopeLookupLoop, hsym, hp]
      | some p =>
        have hmem := dictGet_mem hd
        have hq := (List.all_eq_true.mp hpar) _ hmem
        simp [hp, Option.isSome_iff_exists] at hq
        obtain ⟨sc2, hsc2⟩ := hq
        have hlt := (List.all_eq_true.mp hrank) _ hmem
        simp [hp] at hlt
        obtain ⟨res, hfuel, hnear⟩ := ih p sc2 (by omega) hsc2
        refine ⟨res, fun fuel hf => ?_, ?_⟩
        · obtain ⟨f, rfl⟩ : ∃ f, fuel = f + 1 := ⟨fuel - 1, by omega⟩
          have : scopeLookupLoop st target (some sc) (f + 1)
              = scopeLookupLoop st target (dictGet st.scopes p) f := by
            simp [scopeLookupLoop, hsym, hp]
          rw [this, hsc2]
          exact hfuel f (by omega)
        · refine NearestOnChain.up sc p res hsym hp ?_
          rw [hsc2]
          exact hnear

/-- Claim C3 (amended: the claim's hypothesis — every set parent id
names a scope present in the table — is extended with acyclicity of the
parent chains, witnessed by a rank that strictly decreases along parent
links; the counterexample below shows the original hypothesis alone is
not enough because the source's `while` loop then need not return).
Under these hypotheses `scope_lookup_by_name` returns, with any
sufficient fuel, exactly the symbol stored under the name in the
nearest scope on the parent chain starting at `scope_id` (inclusive)
whose symbol map contains the name, and nothing when no scope on the
chain contains it; in particular an inner declaration hides an outer
one of the same name. -/
theorem scope_lookup_by_name_nearest (st : SymbolTable) (r : String → Nat)
    (scope_id target : String)
    (hpar : parentsPresent st = true) (hrank : parentRanked st r = true) :
    ∃ res, (∀ fuel, r scope_id + 1 < fuel →
        st.scope_lookup_by_name scope_id target fuel = some res)
      ∧ NearestOnChain st target (dictGet st.scopes scope_id) res := by
  cases hd : dictGet st.scopes scope_id with
  | none =>
    refine ⟨none, fun fuel hf => ?_, NearestOnChain.nil⟩
    obtain ⟨f, rfl⟩ : ∃ f, fuel = f + 1 := ⟨fuel - 1, by omega⟩
    simp [SymbolTable.scope_lookup_by_name, hd, scopeLookupLoop]
  | some sc =>
    obtain ⟨res, hfuel, hnear⟩ :=
      scopeLookupLoop_ranked st r target hpar hrank (r scope_id) scope_id sc le_rfl hd
    refine ⟨res, fun fuel hf => ?_, hnear⟩
    unfold SymbolTable.scope_lookup_by_name
    rw [hd]
    exact hfuel fuel hf

/-- Claim C3 (witness): the amended theorem applied to the concrete
two-scope table where `inner` shadows `outer`; the characterised result
is the inner symbol, exhibiting lexical hiding. -/
theorem scope_lookup_by_name_nearest_witness :
    ∃ res, (∀ fuel, (fun k => if k = "outer" then 0 else 1) "inner" + 1 < fuel →
        shadowTable.scope_lookup_by_name "inner" "x" fuel = some res)
      ∧ NearestOnChain shadowTable "x" (dictGet shadowTable.scopes "inner") res :=
  scope_lookup_by_name_nearest shadowTable (fun k => if k = "outer" then 0 else 1)
    "inner" "x" (by decide) (by decide)

/-- Claim C3 (counterexample): a table in which every set parent id
names a present scope — the claim's hypothesis holds — yet looking up
an undeclared name never returns: the source's `while` loop follows the
self-parent forever, so no amount of fuel makes the embedded loop
produce a result.  The claim's promise that the lookup returns nothing
in this situation is therefore false as stated. -/
theorem scope_lookup_cyclic_never_returns :
    parentsPresent cyclicTable = true ∧
    ¬ ∃ fuel res, cyclicTable.scope_lookup_by_name "a" "x" fuel = some res := by
  refine ⟨by decide, ?_⟩
  rintro ⟨fuel, res, h⟩
  have key : ∀ f, scopeLookupLoop cyclicTable "x"
      (some { scope_id := "a", parent := some "a", symbols := [] }) f = none := by
    intro f
    induction f with
    | zero => rfl
    | succ g ih =>
      have step : scopeLookupLoop cyclicTable "x"
          (some { scope_id := "a", parent := some "a", symbols := [] }) (g + 1)
          = scopeLookupLoop cyclicTable "x"
              (some { scope_id := "a", parent := some "a", symbols := [] }) g := by
        simp [scopeLookupLoop, dictGet, cyclicTable]
      rw [step, ih]
  rw [SymbolTable.scope_lookup_by_name, show dictGet cyclicTable.scopes "a"
      = some { scope_id := "a", parent := some "a", symbols := [] } from rfl, key] at h
  exact Option.noConfusion h

/-- Claim C6 (counterexample): the reference-kind classifier of
`ast_utils.py` returns nothing — not `exp_list` — on an
`expression_list` node: its dict has entries only for `identifier` and
`function_call`, so the `exp_list` branch of
`create_relation_if_possible` is unreachable. -/
theorem is_relation_node_misses_expression_list :
    ASTUtils.is_relation_node
      { id := "0", type := "expression_list", text := "",
        start_byte := 0, end_byte := 0, children := [] } = none ∧
    (none : Option String) ≠ some "exp_list" :=
  ⟨rfl, by simp⟩

/-- Claim C6 (amended: the classifier returns `ident` for `identifier`
and `call` for `function_call`, and nothing for every other kind —
including `expression_list`, which the claim said mapped to
`exp_list`). -/
theorem is_relation_node_classification (n : Node) :
    (n.type = "identifier" → ASTUtils.is_relation_node n = some "ident") ∧
    (n.type = "function_call" → ASTUtils.is_relation_node n = some "call") ∧
    (n.type ≠ "identifier" → n.type ≠ "function_call" →
      ASTUtils.is_relation_node n = none) := by
  refine ⟨fun h => ?_, fun h => ?_, fun h1 h2 => ?_⟩
  · simp [ASTUtils.is_relation_node, List.lookup, h]
  · simp [ASTUtils.is_relation_node, List.lookup, h]
  · have e1 : (n.type == "identifier") = false := beq_eq_false_iff_ne.mpr h1
    have e2 : (n.type == "function_call") = false := beq_eq_false_iff_ne.mpr h2
    simp [ASTUtils.is_relation_node, List.lookup, e1, e2]

/-- Claim C6 (witness): the amended classification evaluated on an
`identifier` node and on an `expression_list` node. -/
theorem is_relation_node_classification_witness :
    ASTUtils.is_relation_node
      { id := "1", type := "identifier", text := "x",
        start_byte := 0, end_byte := 1, children := [] } = some "ident" ∧
    ASTUtils.is_relation_node
      { id := "2", type := "expression_list", text := "",
        start_byte := 0, end_byte := 0, children := [] } = none :=
  ⟨(is_relation_node_classification _).1 rfl,
   (is_relation_node_classification _).2.2 (by decide) (by decide)⟩

/-- Claim C5 (code bug, evaluation at the failing input): walking
`local function f(a) end do end` leaves the parameter queue non-empty
after the function's block was entered, and the queued parameter `a` is
added not only to the function's own block scope (node id 5) but also
to the scope of the unrelated `do` block entered later (node id 7) —
the source iterates `parameter_stack` in the block arm but never clears
it, so `a` leaks into every block entered afterwards. -/
theorem parameter_queue_never_cleared :
    (SymbolBuilder.walk chunkWithFun (SymbolBuilder.init "w" "f.lua")).map
        (fun s => s.parameter_stack.length) = .ok 1 ∧
    (SymbolBuilder.walk chunkWithFun (SymbolBuilder.init "w" "f.lua")).map
        (fun s => ((dictGet s.lst.scopes "5").bind
          (fun sc => dictGet sc.symbols "a")).isSome) = .ok true ∧
    (SymbolBuilder.walk chunkWithFun (SymbolBuilder.init "w" "f.lua")).map
        (fun s => ((dictGet s.lst.scopes "7").bind
          (fun sc => dictGet sc.symbols "a")).isSome) = .ok true := by
  refine ⟨?_, ?_, ?_⟩ <;>
  simp [SymbolBuilder.walk, SymbolBuilder.walk_children, chunkWithFun, funDecl, doStmt,
    paramIdent, SymbolBuilder.init, SymbolBuilder.push_scope, SymbolBuilder.pop_scope,
    SymbolBuilder.create_declaration_symbol, SymbolBuilder.add_to_scope,
    ASTUtils.is_different_scope_node, ASTUtils.is_declaration_node,
    ASTUtils.first_node_of_type, ASTUtils.first_in_children,
    ASTUtils.nodes_of_type, ASTUtils.nodes_of_type_in_children,
    dictInsert, dictGet, List.lookup, List.foldlM,
    Bind.bind, Pure.pure, Except.instMonad, Except.bind, Except.pure, Except.map,
    Option.bind, Option.isSome]

/-- Helper: reading back a freshly written dict key. -/
theorem dictGet_dictInsert_self {α : Type} (d : List (String × α)) (k : String) (v : α) :
    dictGet (dictInsert d k v) k = some v := by
  induction d with
  | nil => simp [dictInsert, dictGet]
  | cons hd tl ih =>
    obtain ⟨k0, v0⟩ := hd
    by_cases hk : k0 = k
    · simp [dictInsert, dictGet, hk]
    · simp [dictInsert, dictGet, hk, ih]

/-- Helper: the context-dependent linking section never emits a
`refers_to` edge and leaves the node collection and the AST-id map
unchanged. -/
theorem context_dependent_edges_no_refers (context : Context) (rel kkey : String)
    (s : CPGState) :
    ((CPGBuilder.context_dependent_edges context rel kkey s).knowledge_edges.filter
        (fun e => e.relation = "refers_to")
      = s.knowledge_edges.filter (fun e => e.relation = "refers_to")) ∧
    ((CPGBuilder.context_dependent_edges context rel kkey s).knowledge_nodes
      = s.knowledge_nodes) ∧
    ((CPGBuilder.context_dependent_edges context rel kkey s).astId_nodeId_map
      = s.astId_nodeId_map) := by
  cases context <;>
    simp [CPGBuilder.context_dependent_edges, CPGBuilder.create_knowledge_edge,
      List.filter_append]

/-- Claim C2: after a knowledge node `k` is emitted for a reference AST
node, the linking section emits exactly one extra edge determined by
the top context frame `(context, relevant_id)` — `has_argument` from
the relevant node to `k` under `ARGUMENTS`, `initializes` from `k` to
the relevant node under `VAR_DECL`, `contains` from the relevant node
to `k` under `EXPRESSION` — and no edge at all under `GLOBAL`; the
node collection is never touched. -/
theorem context_dependent_linking (context : Context) (relevant_id k_key : String)
    (s : CPGState) :
    ((CPGBuilder.context_dependent_edges context relevant_id k_key s).knowledge_nodes
        = s.knowledge_nodes) ∧
    (context = Context.ARGUMENTS →
      (CPGBuilder.context_dependent_edges context relevant_id k_key s).knowledge_edges
        = s.knowledge_edges
          ++ [{ key := "knowledge_edge:" ++ decimalString (s.e_counter + 1),
                from_key := relevant_id, to_key := k_key,
                relation := "has_argument" }]) ∧
    (context = Context.VAR_DECL →
      (CPGBuilder.context_dependent_edges context relevant_id k_key s).knowledge_edges
        = s.knowledge_edges
          ++ [{ key := "knowledge_edge:" ++ decimalString (s.e_counter + 1),
                from_key := k_key, to_key := relevant_id,
                relation := "initializes" }]) ∧
    (context = Context.EXPRESSION →
      (CPGBuilder.context_dependent_edges context relevant_id k_key s).knowledge_edges
        = s.knowledge_edges
          ++ [{ key := "knowledge_edge:" ++ decimalString (s.e_counter + 1),
                from_key := relevant_id, to_key := k_key,
                relation := "contains" }]) ∧
    (context = Context.GLOBAL →
      (CPGBuilder.context_dependent_edges context relevant_id k_key s).knowledge_edges
        = s.knowledge_edges) := by
  cases context <;>
    simp [CPGBuilder.context_dependent_edges, CPGBuilder.create_knowledge_edge]

/-- Claim C2 (witness): the linking evaluated under an `ARGUMENTS`
frame (one `has_argument` edge) and under a `GLOBAL` frame (no extra
edge). -/
theorem context_dependent_linking_witness :
    ((CPGBuilder.context_dependent_edges Context.ARGUMENTS "rel" "k"
        CPGBuilder.init).knowledge_edges
      = CPGBuilder.init.knowledge_edges
        ++ [{ key := "knowledge_edge:" ++ decimalString (CPGBuilder.init.e_counter + 1),
              from_key := "rel", to_key := "k", relation := "has_argument" }]) ∧
    ((CPGBuilder.context_dependent_edges Context.GLOBAL "rel" "k"
        CPGBuilder.init).knowledge_edges
      = CPGBuilder.init.knowledge_edges) :=
  ⟨(context_dependent_linking Context.ARGUMENTS "rel" "k" CPGBuilder.init).2.1 rfl,
   (context_dependent_linking Context.GLOBAL "rel" "k" CPGBuilder.init).2.2.2.2 rfl⟩

/-- Claim C1: in the second pass, for an identifier AST node reaching
`create_relation_if_possible`: when the top of the context stack is
`VAR_DECL` the call returns with the state unchanged — no identifier
knowledge node and no edge; otherwise an identifier knowledge node for
the AST node is emitted, and a `refers_to` edge from that identifier
node to the declaration's knowledge node (resolved through the AST-id
map) is emitted exactly when `lookup_by_name` on the current scope
finds a symbol for the identifier's text.  The hypotheses record the
context the claim presupposes: a context frame and a scope id exist
(the walk pushed `GLOBAL` at the chunk), the lookup loop returns, and a
found declaration is present in the AST-id map. -/
theorem identifier_reference_emission (lst : SymbolTable) (node : Node)
    (fp : String) (s : CPGState)
    (hty : node.type = "identifier")
    (ctxTop : Context) (relTop : String) (rest : List (Context × String))
    (hctx : s.context_stack = (ctxTop, relTop) :: rest) :
    (ctxTop = Context.VAR_DECL →
      CPGBuilder.create_relation_if_possible lst node fp s = .ok (false, s)) ∧
    (ctxTop ≠ Context.VAR_DECL →
      ∀ top stk, s.scope_stack = top :: stk →
      ∀ r, CPGBuilder.lookup lst top node.text = .ok r →
      (∀ sym, r = some sym →
        (dictGet (dictInsert s.astId_nodeId_map node.id (CPGBuilder.gen_node_key node s))
            sym.ast_id).isSome = true) →
      ∃ s2, CPGBuilder.create_relation_if_possible lst node fp s = .ok (false, s2) ∧
        dictGet s2.knowledge_nodes (CPGBuilder.gen_node_key node s)
          = some { key := CPGBuilder.gen_node_key node s, symbol_id := node.id,
                   type := node.type, text := node.text,
                   start_byte := node.start_byte, end_byte := node.end_byte,
                   file_path := fp, properties := [] } ∧
        (r = none →
          s2.knowledge_edges.filter (fun e => e.relation = "refers_to")
            = s.knowledge_edges.filter (fun e => e.relation = "refers_to")) ∧
        (∀ sym, r = some sym →
          ∃ tkey, dictGet s2.astId_nodeId_map sym.ast_id = some tkey ∧
            s2.knowledge_edges.filter (fun e => e.relation = "refers_to")
              = s.knowledge_edges.filter (fun e => e.relation = "refers_to")
                ++ [{ key := "knowledge_edge:" ++ decimalString (s.e_counter + 1),
                      from_key := CPGBuilder.gen_node_key node s, to_key := tkey,
                      relation := "refers_to" }])) := by
  obtain ⟨i, t, tx, sb, eb, cs⟩ := node
  simp only at hty
  subst hty
  have hrel : ASTUtils.is_relation_node (Node.mk i "identifier" tx sb eb cs)
      = some "ident" := by
    simp [ASTUtils.is_relation_node, List.lookup]
  constructor
  · intro hvd
    subst hvd
    simp only [CPGBuilder.create_relation_if_possible, hrel, hctx]
    simp [Bind.bind, Except.bind, Pure.pure, Except.pure]
  · intro hne top stk htop r hr hmap
    have hget : ASTUtils.get_text (Node.mk i "identifier" tx sb eb cs) = tx := rfl
    simp only [hget] at hr ⊢
    simp only [CPGBuilder.create_relation_if_possible, hrel]
    simp only [reduceIte, ne_eq, hne, not_false_iff, if_true, String.reduceEq, if_false]
    have hscA : (CPGBuilder.create_knowledge_node
        (Node.mk i "identifier" tx sb eb cs) fp [] s).2.scope_stack = top :: stk := by
      simp [CPGBuilder.create_knowledge_node, htop]
    rw [hscA]
    simp only [hr]
    rcases r with _ | sym
    · -- lookup found nothing: no refers_to edge
      have hctxA : (CPGBuilder.create_knowledge_node
          (Node.mk i "identifier" tx sb eb cs) fp [] s).2.context_stack
          = (ctxTop, relTop) :: rest := by
        simp [CPGBuilder.create_knowledge_node, hctx]
      simp only [hctx, hne, ne_eq, not_false_iff, String.reduceEq, reduceIte,
        hget, hr, Bind.bind, Except.bind, Pure.pure, Except.pure, hctxA]
      refine ⟨_, rfl, ?_, ?_, ?_⟩
      · have hn := (context_dependent_edges_no_refers ctxTop relTop
          (CPGBuilder.create_knowledge_node (Node.mk i "identifier" tx sb eb cs)
            fp [] s).1.key
          (CPGBuilder.create_knowledge_node (Node.mk i "identifier" tx sb eb cs)
            fp [] s).2).2.1
        rw [hn]
        simp [CPGBuilder.create_knowledge_node, CPGBuilder.gen_node_key,
          ASTUtils.get_text, dictGet_dictInsert_self]
      · intro _
        have hf := (context_dependent_edges_no_refers ctxTop relTop
          (CPGBuilder.create_knowledge_node (Node.mk i "identifier" tx sb eb cs)
            fp [] s).1.key
          (CPGBuilder.create_knowledge_node (Node.mk i "identifier" tx sb eb cs)
            fp [] s).2).1
        rw [hf]
        simp [CPGBuilder.create_knowledge_node]
      · intro sym hcon
        exact Option.noConfusion hcon
    · -- lookup found a symbol: exactly one refers_to edge
      have hmm := hmap sym rfl
      rw [Option.isSome_iff_exists] at hmm
      obtain ⟨tkey, htk⟩ := hmm
      have htk2 : dictGet (CPGBuilder.create_knowledge_node
          (Node.mk i "identifier" tx sb eb cs) fp [] s).2.astId_nodeId_map sym.ast_id
          = some tkey := by
        simpa [CPGBuilder.create_knowledge_node] using htk
      have hctxB : (CPGBuilder.create_knowledge_edge
          (CPGBuilder.create_knowledge_node (Node.mk i "identifier" tx sb eb cs)
            fp [] s).1.key tkey "refers_to"
          (CPGBuilder.create_knowledge_node (Node.mk i "identifier" tx sb eb cs)
            fp [] s).2).context_stack = (ctxTop, relTop) :: rest := by
        simp [CPGBuilder.create_knowledge_edge, CPGBuilder.create_knowledge_node, hctx]
      simp only [hctx, hne, ne_eq, not_false_iff, hget, hr, htk2, String.reduceEq,
        reduceIte, Bind.bind, Except.bind, Pure.pure, Except.pure, hctxB]
      refine ⟨_, rfl, ?_, ?_, ?_⟩
      · have hn := (context_dependent_edges_no_refers ctxTop relTop
          (CPGBuilder.create_knowledge_node (Node.mk i "identifier" tx sb eb cs)
            fp [] s).1.key
          (CPGBuilder.create_knowledge_edge
            (CPGBuilder.create_knowledge_node (Node.mk i "identifier" tx sb eb cs)
              fp [] s).1.key tkey "refers_to"
            (CPGBuilder.create_knowledge_node (Node.mk i "identifier" tx sb eb cs)
              fp [] s).2)).2.1
        rw [hn]
        simp [CPGBuilder.create_knowledge_edge, CPGBuilder.create_knowledge_node,
          CPGBuilder.gen_node_key, ASTUtils.get_text, dictGet_dictInsert_self]
      · intro hcon
        exact Option.noConfusion hcon
      · intro sym2 hs
        cases hs
        refine ⟨tkey, ?_, ?_⟩
        · have hm := (context_dependent_edges_no_refers ctxTop relTop
            (CPGBuilder.create_knowledge_node (Node.mk i "identifier" tx sb eb cs)
              fp [] s).1.key
            (CPGBuilder.create_knowledge_edge
              (CPGBuilder.create_knowledge_node (Node.mk i "identifier" tx sb eb cs)
                fp [] s).1.key tkey "refers_to"
              (CPGBuilder.create_knowledge_node (Node.mk i "identifier" tx sb eb cs)
                fp [] s).2)).2.2
          rw [hm]
          simpa [CPGBuilder.create_knowledge_edge, CPGBuilder.create_knowledge_node]
            using htk
        · have hf := (context_dependent_edges_no_refers ctxTop relTop
            (CPGBuilder.create_knowledge_node (Node.mk i "identifier" tx sb eb cs)
              fp [] s).1.key
            (CPGBuilder.create_knowledge_edge
              (CPGBuilder.create_knowledge_node (Node.mk i "identifier" tx sb eb cs)
                fp [] s).1.key tkey "refers_to"
              (CPGBuilder.create_knowledge_node (Node.mk i "identifier" tx sb eb cs)
                fp [] s).2)).1
          rw [hf]
          simp [CPGBuilder.create_knowledge_edge, CPGBuilder.create_knowledge_node,
            CPGBuilder.gen_node_key, List.filter_append]

/-- Claim C10: the builder assumes a `function_call` AST node has an
identifier descendant and an arguments descendant: whenever either
search returns nothing, `create_relation_if_possible` raises (an
`AttributeError` on the unchecked dereference in the source) instead of
skipping the node or recording it as unresolved — on every path. -/
theorem function_call_missing_parts_raise (lst : SymbolTable) (node : Node)
    (fp : String) (s : CPGState) (hty : node.type = "function_call") :
    (ASTUtils.first_node_of_type node "identifier" = none →
      ∃ msg, CPGBuilder.create_relation_if_possible lst node fp s = .error msg) ∧
    (ASTUtils.first_node_of_type node "arguments" = none →
      ∃ msg, CPGBuilder.create_relation_if_possible lst node fp s = .error msg) := by
  obtain ⟨i, t, tx, sb, eb, cs⟩ := node
  simp only at hty
  subst hty
  have hrel : ASTUtils.is_relation_node (Node.mk i "function_call" tx sb eb cs)
      = some "call" := by simp [ASTUtils.is_relation_node, List.lookup]
  constructor
  · intro hident
    simp only [CPGBuilder.create_relation_if_possible, hrel]
    simp only [String.reduceEq, reduceIte, hident, Bind.bind, Except.bind,
      Pure.pure, Except.pure]
    exact ⟨_, rfl⟩
  · intro hargs
    simp only [CPGBuilder.create_relation_if_possible, hrel]
    simp only [String.reduceEq, reduceIte, Bind.bind, Except.bind,
      Pure.pure, Except.pure]
    cases hident : ASTUtils.first_node_of_type
        (Node.mk i "function_call" tx sb eb cs) "identifier" with
    | none =>
      simp only [hident]
      exact ⟨_, rfl⟩
    | some identN =>
      simp only [hident]
      cases hss : (CPGBuilder.create_knowledge_node
          (Node.mk i "function_call" tx sb eb cs) fp [] s).2.scope_stack with
      | nil =>
        simp only [hss]
        exact ⟨_, rfl⟩
      | cons top stk =>
        simp only [hss]
        cases hl : CPGBuilder.lookup lst top (ASTUtils.get_text identN) with
        | error e =>
          simp only [hl]
          exact ⟨_, rfl⟩
        | ok d =>
          simp only [hl]
          cases d with
          | none =>
            cases harg2 : ASTUtils.first_node_of_type
                (Node.mk i "function_call" tx sb eb cs) "arguments" with
            | none => exact ⟨_, rfl⟩
            | some a =>
              rw [hargs] at harg2
              exact Option.noConfusion harg2
          | some dd =>
            cases hm : dictGet (CPGBuilder.create_knowledge_node
                (Node.mk i "function_call" tx sb eb cs) fp [] s).2.astId_nodeId_map
                dd.ast_id with
            | none =>
              simp only [hm]
              exact ⟨_, rfl⟩
            | some found =>
              simp only [hm]
              cases harg2 : ASTUtils.first_node_of_type
                  (Node.mk i "function_call" tx sb eb cs) "arguments" with
              | none => exact ⟨_, rfl⟩
              | some a =>
                rw [hargs] at harg2
                exact Option.noConfusion harg2
/-- Claim C1 (witness): the theorem applied to a concrete identifier
`x` under a `GLOBAL` frame with a table that resolves `x`; the lookup
succeeds and the `refers_to` edge to the mapped declaration node is
characterised. -/
theorem identifier_reference_emission_witness :
    ∃ s2, CPGBuilder.create_relation_if_possible lstW identX "f.lua" midState
        = .ok (false, s2) ∧
      dictGet s2.knowledge_nodes (CPGBuilder.gen_node_key identX midState)
        = some { key := CPGBuilder.gen_node_key identX midState,
                 symbol_id := identX.id, type := identX.type, text := identX.text,
                 start_byte := identX.start_byte, end_byte := identX.end_byte,
                 file_path := "f.lua", properties := [] } ∧
      ((some wSym : Option SymbolID) = none →
        s2.knowledge_edges.filter (fun e => e.relation = "refers_to")
          = midState.knowledge_edges.filter (fun e => e.relation = "refers_to")) ∧
      (∀ sym, (some wSym : Option SymbolID) = some sym →
        ∃ tkey, dictGet s2.astId_nodeId_map sym.ast_id = some tkey ∧
          s2.knowledge_edges.filter (fun e => e.relation = "refers_to")
            = midState.knowledge_edges.filter (fun e => e.relation = "refers_to")
              ++ [{ key := "knowledge_edge:" ++ decimalString (midState.e_counter + 1),
                    from_key := CPGBuilder.gen_node_key identX midState, to_key := tkey,
                    relation := "refers_to" }]) :=
  (identifier_reference_emission lstW identX "f.lua" midState rfl
      Context.GLOBAL "chunkKey" [] rfl).2
    (by decide) "s0" [] rfl (some wSym) (by rfl)
    (by intro sym h; cases h; rfl)

/-- Claim C10 (witness): a `function_call` node with no children —
hence no identifier descendant — makes the builder raise. -/
theorem function_call_missing_parts_raise_witness :
    ∃ msg, CPGBuilder.create_relation_if_possible lstW bareCall "f.lua" midState
      = .error msg :=
  (function_call_missing_parts_raise lstW bareCall "f.lua" midState rfl).1 rfl
/-- Claim C7 (code bug, evaluation at the failing inputs): the actual
`_map_type` dict keys for the knowledge kinds are spelled in upper case
(`MODULE`, `FUNCTION`, `VARIABLE`, `PARAMETER`) or belong to a
different grammar (`call_expression`, `function_definition`), while the
knowledge nodes the exporter feeds it carry lower-case kinds — so
`function_call`, `module`, the function kinds, the variable kinds and
`parameter` all fall through to `UNKNOWN` instead of the types the
claim (and the dict's own upper-case entries) intend. -/
theorem map_type_loses_knowledge_kinds :
    GraphOutputBuilder.map_type "function_call" = "UNKNOWN" ∧
    GraphOutputBuilder.map_type "module" = "UNKNOWN" ∧
    GraphOutputBuilder.map_type "function" = "UNKNOWN" ∧
    GraphOutputBuilder.map_type "local_function" = "UNKNOWN" ∧
    GraphOutputBuilder.map_type "global_function" = "UNKNOWN" ∧
    GraphOutputBuilder.map_type "local_var" = "UNKNOWN" ∧
    GraphOutputBuilder.map_type "global_var" = "UNKNOWN" ∧
    GraphOutputBuilder.map_type "parameter" = "UNKNOWN" ∧
    GraphOutputBuilder.map_type "MODULE" = "NAMESPACE" ∧
    ("UNKNOWN" : String) ≠ "CALL" := by
  refine ⟨?_, ?_, ?_, ?_, ?_, ?_, ?_, ?_, ?_, ?_⟩ <;>
    simp [GraphOutputBuilder.map_type, List.lookup]

/-- Helper: the per-file loop counts one success per parsing file. -/
theorem parseLoop_processed (files : List (String × Bool)) :
    ∀ res, (parseLoop files res).files_processed
      = res.files_processed + (files.filter (fun f => f.2)).length := by
  induction files with
  | nil => intro res; simp [parseLoop]
  | cons hd tl ih =>
    intro res
    obtain ⟨fp, ok⟩ := hd
    cases ok <;> simp [parseLoop, ih] <;> omega

/-- Helper: the per-file loop counts one failure per failing file. -/
theorem parseLoop_failed (files : List (String × Bool)) :
    ∀ res, (parseLoop files res).files_failed
      = res.files_failed + (files.filter (fun f => !f.2)).length := by
  induction files with
  | nil => intro res; simp [parseLoop]
  | cons hd tl ih =>
    intro res
    obtain ⟨fp, ok⟩ := hd
    cases ok <;> simp [parseLoop, ih] <;> omega

/-- Helper: the per-file loop records exactly one `FileError` per
failing file, in order. -/
theorem parseLoop_errors (files : List (String × Bool)) :
    ∀ res, (parseLoop files res).errors
      = res.errors ++ (files.filter (fun f => !f.2)).map
          (fun f => ({ file_path := f.1, error_type := "ParseError",
                       error_message := "failed to parse" } : FileError)) := by
  induction files with
  | nil => intro res; simp [parseLoop]
  | cons hd tl ih =>
    intro res
    obtain ⟨fp, ok⟩ := hd
    cases ok <;> simp [parseLoop, ih]

/-- Helper: the per-file loop never touches the status field. -/
theorem parseLoop_status (files : List (String × Bool)) :
    ∀ res, (parseLoop files res).status = res.status := by
  induction files with
  | nil => intro res; simp [parseLoop]
  | cons hd tl ih =>
    intro res
    obtain ⟨fp, ok⟩ := hd
    cases ok <;> simp [parseLoop, ih]

/-- Claim C8 (counterexample): a run that reaches the parse loop with
no Lua files at all — zero successes and zero failures — ends with
status `completed`, not `failed` as the claim states for the
zero-success case. -/
theorem empty_run_completes :
    (process_project emptyRun).1.status = "completed" ∧
    (process_project emptyRun).1.files_processed = 0 ∧
    ("completed" : String) ≠ "failed" := by
  refine ⟨?_, ?_, ?_⟩ <;> simp [process_project, parseLoop, emptyRun]

/-- Claim C8 (amended: `failed` requires at least one failure — a run
with zero failures is `completed` even when zero files succeeded):
every run that reaches the per-file loop catches each failure, records
it as a `FileError`, counts it and continues; the final status is
`failed` on a non-recoverable error, else `partial` when at least one
file failed and at least one succeeded, `failed` when at least one
failed and none succeeded, and `completed` when no file failed. -/
theorem process_project_status (inp : RunInput)
    (h : inp.download_extract_ok = true) :
    (process_project inp).1.files_processed
        = (inp.files.filter (fun f => f.2)).length ∧
    (process_project inp).1.files_failed
        = (inp.files.filter (fun f => !f.2)).length ∧
    (process_project inp).1.errors
        = (inp.files.filter (fun f => !f.2)).map
            (fun f => ({ file_path := f.1, error_type := "ParseError",
                         error_message := "failed to parse" } : FileError)) ∧
    (process_project inp).1.status
        = (if inp.build_export_validate_ok = false ∨ inp.graph_publish_ok = false
            then "failed"
           else if (inp.files.filter (fun f => !f.2)).length > 0 then
             if (inp.files.filter (fun f => f.2)).length > 0 then "partial"
             else "failed"
           else "completed") := by
  cases hb : inp.build_export_validate_ok <;> cases hg : inp.graph_publish_ok <;>
    simp only [process_project, h, hb, hg, Bool.false_eq_true, if_false, if_true,
      reduceIte, or_self, or_true, or_false, Bool.true_eq_false] <;>
    simp [parseLoop_processed, parseLoop_failed, parseLoop_errors, parseLoop_status] <;>
    by_cases hf : 0 < (inp.files.filter (fun f => !f.2)).length <;>
    by_cases hp : 0 < (inp.files.filter (fun f => f.2)).length <;>
    simp [hf, hp]

/-- Claim C8 (witness): the amended status computation applied to a run
with one parsing and one failing file: the run is `partial` with the
single failure recorded as a `FileError`. -/
theorem process_project_status_witness :
    (process_project mixedRun).1.status = "partial" ∧
    (process_project mixedRun).1.files_processed = 1 ∧
    (process_project mixedRun).1.files_failed = 1 ∧
    (process_project mixedRun).1.errors
      = [{ file_path := "bad.lua", error_type := "ParseError",
           error_message := "failed to parse" }] := by
  have h := process_project_status mixedRun rfl
  rw [show mixedRun.files = [("good.lua", true), ("bad.lua", false)] from rfl] at h
  obtain ⟨h1, h2, h3, h4⟩ := h
  refine ⟨?_, ?_, ?_, ?_⟩
  · rw [h4]; simp [mixedRun]
  · rw [h1]; simp
  · rw [h2]; simp
  · rw [h3]; simp

/-- Claim C9 (counterexample): a delivery whose every file fails to
parse still publishes the exported graph to `graph-updates` — the
compressed publish happens before the final status is computed — and
then ends with status `failed`; so a failed run can publish to
graph-updates, contrary to the claim. -/
theorem failed_run_still_publishes_graph :
    (handle_parse_task allFailTask).1.graph_updates_messages = 1 ∧
    ((handle_parse_task allFailTask).2.map (fun r => r.status)) = some "failed" := by
  constructor <;>
    simp [handle_parse_task, process_project, parseLoop, allFailTask, allFailRun]

/-- Claim C9 (amended: a well-formed delivery whose `results` publish
succeeds produces exactly one message on the results topic; and the
graph-updates topic receives a message exactly when download and
extraction, knowledge-graph build, export and schema validation, and
the compressed publish itself all succeed — independent of the final
status, which can still be `failed` when every file failed to
parse). -/
theorem results_and_graph_publication (t : TaskInput)
    (hbody : t.body_ok = true) (hres : t.results_publish_ok = true) :
    (handle_parse_task t).1.results_messages = 1 ∧
    ((handle_parse_task t).1.graph_updates_messages = 1 ↔
      (t.run.download_extract_ok = true ∧ t.run.build_export_validate_ok = true ∧
       t.run.graph_publish_ok = true)) := by
  cases hd : t.run.download_extract_ok <;>
    cases hb : t.run.build_export_validate_ok <;>
    cases hg : t.run.graph_publish_ok <;>
    simp [handle_parse_task, process_project, hbody, hres, hd, hb, hg]

/-- Claim C9 (witness): the amended publication behaviour on a
successful delivery of the mixed run: one results message, and one
graph-updates message since every phase succeeded. -/
theorem results_and_graph_publication_witness :
    (handle_parse_task mixedTask).1.results_messages = 1 ∧
    ((handle_parse_task mixedTask).1.graph_updates_messages = 1 ↔
      (mixedTask.run.download_extract_ok = true ∧
       mixedTask.run.build_export_validate_ok = true ∧
       mixedTask.run.graph_publish_ok = true)) :=
  results_and_graph_publication mixedTask rfl rfl
/-!
Claim C4.  First the counterexample infrastructure: every pass of
`build_recursive_blocks` only appends to the knowledge-edge log and
computes its core result from the core alone, so the loop's behaviour
(and in particular whether it ever breaks) depends only on the core.
-/

/-- A left fold whose step appends to the edge log and computes its core
from the core alone has the same property. -/
theorem ethread_foldl {β : Type} (F : QCore × List QEdge → β → QCore × List QEdge)
    (hF : ∀ b c e, F (c, e) b = ((F (c, []) b).1, e ++ (F (c, []) b).2)) :
    ∀ (l : List β) (c : QCore) (e : List QEdge),
      l.foldl F (c, e) = ((l.foldl F (c, [])).1, e ++ (l.foldl F (c, [])).2) := by
  intro l
  induction l with
  | nil => intro c e; simp
  | cons b t ih =>
    intro c e
    simp only [List.foldl_cons]
    rw [hF b c e]
    rw [ih (F (c, []) b).1 (e ++ (F (c, []) b).2)]
    rw [show t.foldl F (F (c, []) b)
          = ((t.foldl F ((F (c, []) b).1, [])).1,
             (F (c, []) b).2 ++ (t.foldl F ((F (c, []) b).1, [])).2)
        from ih (F (c, []) b).1 (F (c, []) b).2]
    simp


/-- Variant of `ethread_foldl` for a fold whose initial log is a
non-empty prefix plus tail. -/
theorem ethread_foldl_shift {β : Type} (F : QCore × List QEdge → β → QCore × List QEdge)
    (hF : ∀ b c e, F (c, e) b = ((F (c, []) b).1, e ++ (F (c, []) b).2))
    (l : List β) (c : QCore) (e d : List QEdge) :
    l.foldl F (c, e ++ d) = ((l.foldl F (c, [] ++ d)).1, e ++ (l.foldl F (c, [] ++ d)).2) := by
  rw [ethread_foldl F hF l c (e ++ d), ethread_foldl F hF l c ([] ++ d)]
  simp

/-- `_insert_nodes_and_edges` threads the edge log. -/
theorem insert_nodes_and_edges_edges (nt er : String) (es : List StmtEntity)
    (c : QCore) (e : List QEdge) :
    GraphQueries.insert_nodes_and_edges nt er es (c, e)
      = ((GraphQueries.insert_nodes_and_edges nt er es (c, [])).1,
         e ++ (GraphQueries.insert_nodes_and_edges nt er es (c, [])).2) := by
  simp only [GraphQueries.insert_nodes_and_edges]
  refine ethread_foldl _ ?_ es c e
  intro b c' e'
  dsimp only
  cases hfrom : b.from_node_id == "" <;> simp [hfrom]

/-- `insert_stmt_blocks` threads the edge log. -/
theorem insert_stmt_blocks_edges (sts : List StmtEntity) (c : QCore) (e : List QEdge) :
    GraphQueries.insert_stmt_blocks sts (c, e)
      = ((GraphQueries.insert_stmt_blocks sts (c, [])).1,
         e ++ (GraphQueries.insert_stmt_blocks sts (c, [])).2) := by
  simp only [GraphQueries.insert_stmt_blocks]
  refine ethread_foldl _ ?_ sts c e
  intro b c' e'
  dsimp only
  cases hn : dictGet c'.nodes b.new_node_id with
  | none => simp
  | some a =>
    refine ethread_foldl _ ?_ _ c' e'
    intro bb c'' e''
    dsimp only
    cases hb : bb.type == "block" <;> simp [hb]

/-- `laststat_return` threads the edge log. -/
theorem laststat_return_edges (bid : String) (c : QCore) (e : List QEdge) :
    GraphQueries.laststat_return bid (c, e)
      = ((GraphQueries.laststat_return bid (c, [])).1,
         e ++ (GraphQueries.laststat_return bid (c, [])).2) := by
  simp only [GraphQueries.laststat_return]
  refine ethread_foldl _ ?_ _ c e
  intro b c' e'
  dsimp only
  cases hb : b.type == "return_statement" <;> simp [hb]

/-- `insert_block_var_decls` threads the edge log. -/
theorem insert_block_var_decls_edges (bid : String) (c : QCore) (e : List QEdge) :
    GraphQueries.insert_block_var_decls bid (c, e)
      = ((GraphQueries.insert_block_var_decls bid (c, [])).1,
         e ++ (GraphQueries.insert_block_var_decls bid (c, [])).2) := by
  simp only [GraphQueries.insert_block_var_decls]
  cases hn : dictGet c.nodes bid with
  | none => simp
  | some a =>
    refine ethread_foldl _ ?_ _ c e
    intro b c' e'
    dsimp only
    cases hv : b.type == "variable_declaration"
    · simp [hv]
    · simp only [hv, if_true]
      cases h2 : (astChildren c' b.key).find? (fun x => x.type == "assignment_statement") with
      | none => simp [h2]
      | some assign =>
        simp only [h2]
        cases h3 : (astChildren c' assign.key).find? (fun x => x.type == "variable_list") with
        | none => simp [h3]
        | some vl =>
          simp only [h3]
          refine ethread_foldl _ ?_ _ c' e'
          intro i c'' e''
          dsimp only
          cases hi : i.type == "identifier" <;> simp [hi]

/-- `insert_local_assignments` threads the edge log. -/
theorem insert_local_assignments_edges (bid : String) (c : QCore) (e : List QEdge) :
    GraphQueries.insert_local_assignments bid (c, e)
      = ((GraphQueries.insert_local_assignments bid (c, [])).1,
         e ++ (GraphQueries.insert_local_assignments bid (c, [])).2) := by
  simp only [GraphQueries.insert_local_assignments]
  refine ethread_foldl _ ?_ _ c e
  intro b c' e'
  dsimp only
  cases hv : b.type == "variable_declaration"
  · simp [hv]
  · simp only [hv, if_true]
    refine ethread_foldl _ ?_ _ c' e'
    intro a c'' e''
    dsimp only
    cases ha : a.type == "assignment_statement" <;> simp [ha]

/-- `insert_block_function_calls` threads the edge log. -/
theorem insert_block_function_calls_edges (bid : String) (c : QCore) (e : List QEdge) :
    GraphQueries.insert_block_function_calls bid (c, e)
      = ((GraphQueries.insert_block_function_calls bid (c, [])).1,
         e ++ (GraphQueries.insert_block_function_calls bid (c, [])).2) := by
  simp only [GraphQueries.insert_block_function_calls]
  refine ethread_foldl _ ?_ _ c e
  intro b c' e'
  dsimp only
  cases hb : b.type == "function_call"
  · simp [hb]
  · simp only [hb, if_true]
    cases h2 : (astChildren c' b.key).find?
        (fun ch => ch.type == "identifier" || ch.type == "dot_index_expression") with
    | none => simp
    | some nm =>
      cases h3 : c'.knowledge_nodes.find? (fun kv =>
          kv.2.text == nm.text &&
          (kv.2.type == "function" || kv.2.type == "local_function" ||
           kv.2.type == "global_function" || kv.2.type == "local_var")) <;>
        simp [h3]

/-- The block-insertion step shared by `insert_stmt_blocks` and
`process_if_statements` threads the edge log. -/
theorem blockInsertStep_edges (src : String) (bb : ANode) (cx : QCore) (ex : List QEdge) :
    (if bb.type == "block" then
        (insertKN cx { key := bb.key, type := "block", text := bb.text,
                       start_byte := bb.start_byte, end_byte := bb.end_byte,
                       discovered := some true, processed := some false },
         ex ++ [{ from_key := src, to_key := bb.key, relation := "has_block" }])
      else (cx, ex))
    = ((if bb.type == "block" then
          (insertKN cx { key := bb.key, type := "block", text := bb.text,
                         start_byte := bb.start_byte, end_byte := bb.end_byte,
                         discovered := some true, processed := some false },
           [] ++ [{ from_key := src, to_key := bb.key, relation := "has_block" }])
        else (cx, ([] : List QEdge))).1,
       ex ++ (if bb.type == "block" then
          (insertKN cx { key := bb.key, type := "block", text := bb.text,
                         start_byte := bb.start_byte, end_byte := bb.end_byte,
                         discovered := some true, processed := some false },
           [] ++ [{ from_key := src, to_key := bb.key, relation := "has_block" }])
        else (cx, ([] : List QEdge))).2) := by
  cases h : bb.type == "block" <;> simp [h]

/-- `process_if_statements` threads the edge log. -/
theorem process_if_statements_edges (bid : String) (c : QCore) (e : List QEdge) :
    GraphQueries.process_if_statements bid (c, e)
      = ((GraphQueries.process_if_statements bid (c, [])).1,
         e ++ (GraphQueries.process_if_statements bid (c, [])).2) := by
  simp only [GraphQueries.process_if_statements]
  refine ethread_foldl _ ?_ _ c e
  intro b c' e'
  dsimp only
  cases hb : b.type == "if_statement"
  · simp [hb]
  · simp only [hb, if_true]
    refine ethread_foldl _ ?_ _ c' e'
    intro ch c'' e''
    dsimp only
    cases hc : (ch.type == "else_statement" || ch.type == "elseif_statement")
    · simp [hc]
    · simp only [hc, if_true]
      generalize insertKN c'' { key := ch.key, type := ch.type, text := ch.text, start_byte := ch.start_byte, end_byte := ch.end_byte, discovered := none, processed := none } = X
      exact ethread_foldl_shift _
        (fun bb cx ex => blockInsertStep_edges ch.key bb cx ex) _ _ _ _

/-- `processBlock` threads the edge log. -/
theorem processBlock_edges (bid : String) (c : QCore) (e : List QEdge) :
    GraphQueries.processBlock bid (c, e)
      = ((GraphQueries.processBlock bid (c, [])).1,
         e ++ (GraphQueries.processBlock bid (c, [])).2) := by
  simp only [GraphQueries.processBlock]
  rw [laststat_return_edges bid c e]
  cases h1 : GraphQueries.laststat_return bid (c, []) with
  | mk c1 e1 =>
    dsimp only
    rw [insert_block_var_decls_edges bid c1 (e ++ e1),
        insert_block_var_decls_edges bid c1 e1]
    cases h2 : GraphQueries.insert_block_var_decls bid (c1, []) with
    | mk c2 e2 =>
      dsimp only
      rw [insert_local_assignments_edges bid c2 (e ++ e1 ++ e2),
          insert_local_assignments_edges bid c2 (e1 ++ e2)]
      cases h3 : GraphQueries.insert_local_assignments bid (c2, []) with
      | mk c3 e3 =>
        dsimp only
        rw [insert_block_function_calls_edges bid c3 (e ++ e1 ++ e2 ++ e3),
            insert_block_function_calls_edges bid c3 (e1 ++ e2 ++ e3)]
        cases h4 : GraphQueries.insert_block_function_calls bid (c3, []) with
        | mk c4 e4 =>
          dsimp only
          rw [process_if_statements_edges bid c4 (e ++ e1 ++ e2 ++ e3 ++ e4),
              process_if_statements_edges bid c4 (e1 ++ e2 ++ e3 ++ e4)]
          cases h5 : GraphQueries.process_if_statements bid (c4, []) with
          | mk c5 e5 =>
            dsimp only
            simp

/-- One pass of the `build_recursive_blocks` loop threads the edge log:
its break/continue decision and its core result depend only on the
core. -/
theorem loopIter_edges (c : QCore) (e : List QEdge) :
    GraphQueries.loopIter { core := c, knowledge_edges := e }
      = Sum.map
          (fun t : QState => { core := t.core, knowledge_edges := e ++ t.knowledge_edges })
          (fun t : QState => { core := t.core, knowledge_edges := e ++ t.knowledge_edges })
          (GraphQueries.loopIter { core := c, knowledge_edges := [] }) := by
  simp only [GraphQueries.loopIter]
  rw [ethread_foldl
        (fun p stmt => GraphQueries.insert_nodes_and_edges stmt.type "executes" [stmt] p)
        (fun b c' e' => insert_nodes_and_edges_edges b.type "executes" [b] c' e')
        (GraphQueries.query_undiscovered_statements c) c e]
  cases hph : (GraphQueries.query_undiscovered_statements c).foldl
      (fun p stmt => GraphQueries.insert_nodes_and_edges stmt.type "executes" [stmt] p)
      (c, []) with
  | mk ca ea =>
    dsimp only
    rw [insert_stmt_blocks_edges (GraphQueries.query_undiscovered_statements c) ca (e ++ ea),
        insert_stmt_blocks_edges (GraphQueries.query_undiscovered_statements c) ca ea]
    cases h1 : GraphQueries.insert_stmt_blocks
        (GraphQueries.query_undiscovered_statements c) (ca, []) with
    | mk cb eb =>
      dsimp only
      cases hd : (GraphQueries.query_discovered_blocks_without_analysis cb).isEmpty
      · simp only [hd, Bool.false_eq_true, if_false]
        rw [ethread_foldl
              (fun p block_id => GraphQueries.processBlock block_id p)
              (fun b c' e' => processBlock_edges b c' e')
              (GraphQueries.query_discovered_blocks_without_analysis cb) cb (e ++ ea ++ eb),
            ethread_foldl
              (fun p block_id => GraphQueries.processBlock block_id p)
              (fun b c' e' => processBlock_edges b c' e')
              (GraphQueries.query_discovered_blocks_without_analysis cb) cb (ea ++ eb)]
        simp
      · simp [hd]

/-- If a set of cores is closed under one loop pass (each member steps
to another member instead of breaking), then from any member the fueled
loop never produces a result, whatever the fuel and the edge log: the
source's `while True` runs forever. -/
theorem build_fuel_cycle_none (S : QCore → Prop)
    (hS : ∀ c, S c → ∃ c', GraphQueries.stepCoreRes c = some c' ∧ S c') :
    ∀ (n : Nat) (c : QCore) (e : List QEdge), S c →
      GraphQueries.build_recursive_blocks_fuel n { core := c, knowledge_edges := e }
        = none := by
  intro n
  induction n with
  | zero => intro c e _; rfl
  | succ m ih =>
    intro c e hc
    obtain ⟨c', hstep, hc'⟩ := hS c hc
    unfold GraphQueries.stepCoreRes at hstep
    simp only [GraphQueries.build_recursive_blocks_fuel]
    rw [loopIter_edges c e]
    cases hL : GraphQueries.loopIter { core := c, knowledge_edges := [] } with
    | inl t => rw [hL] at hstep; simp at hstep
    | inr t =>
      rw [hL] at hstep
      simp only [Option.some.injEq] at hstep
      simp only [Sum.map]
      exact ih t.core (e ++ t.knowledge_edges) (hstep ▸ hc')

/-- One pass from the initial cyclic core discovers `B2` and processes
`B1`. -/
theorem stepCoreRes_cyc0 : GraphQueries.stepCoreRes cyc0 = some cyc1 := by
  simp [GraphQueries.stepCoreRes, GraphQueries.loopIter,
        GraphQueries.query_undiscovered_statements, GraphQueries.insert_nodes_and_edges,
        GraphQueries.insert_stmt_blocks, GraphQueries.query_discovered_blocks_without_analysis,
        isUDBlock, GraphQueries.processBlock, GraphQueries.laststat_return,
        GraphQueries.insert_block_var_decls, GraphQueries.insert_local_assignments,
        GraphQueries.insert_block_function_calls, GraphQueries.traverse_ast,
        GraphQueries.traverseGo, GraphQueries.traverseChildren,
        GraphQueries.process_if_statements, GraphQueries.mark_block_analyzed,
        insertKN, dictInsert, dictGet, astChildren, control_statements,
        cyc0, cyc1, cycNodes, cycEdges, blockKN, stmtKN]

/-- The second pass discovers `I2`/`E2`, processes `B2` and — because
`process_if_statements` re-inserts every else-branch block with
`processed=False` — resets the already-processed `B1`. -/
theorem stepCoreRes_cyc1 : GraphQueries.stepCoreRes cyc1 = some cyc2 := by
  simp [GraphQueries.stepCoreRes, GraphQueries.loopIter,
        GraphQueries.query_undiscovered_statements, GraphQueries.insert_nodes_and_edges,
        GraphQueries.insert_stmt_blocks, GraphQueries.query_discovered_blocks_without_analysis,
        isUDBlock, GraphQueries.processBlock, GraphQueries.laststat_return,
        GraphQueries.insert_block_var_decls, GraphQueries.insert_local_assignments,
        GraphQueries.insert_block_function_calls, GraphQueries.traverse_ast,
        GraphQueries.traverseGo, GraphQueries.traverseChildren,
        GraphQueries.process_if_statements, GraphQueries.mark_block_analyzed,
        insertKN, dictInsert, dictGet, astChildren, control_statements,
        cyc1, cyc2, cycNodes, cycEdges, blockKN, stmtKN]

/-- The third pass processes the reset `B1` and resets `B2`. -/
theorem stepCoreRes_cyc2 : GraphQueries.stepCoreRes cyc2 = some cyc3 := by
  simp [GraphQueries.stepCoreRes, GraphQueries.loopIter,
        GraphQueries.query_undiscovered_statements, GraphQueries.insert_nodes_and_edges,
        GraphQueries.insert_stmt_blocks, GraphQueries.query_discovered_blocks_without_analysis,
        isUDBlock, GraphQueries.processBlock, GraphQueries.laststat_return,
        GraphQueries.insert_block_var_decls, GraphQueries.insert_local_assignments,
        GraphQueries.insert_block_function_calls, GraphQueries.traverse_ast,
        GraphQueries.traverseGo, GraphQueries.traverseChildren,
        GraphQueries.process_if_statements, GraphQueries.mark_block_analyzed,
        insertKN, dictInsert, dictGet, astChildren, control_statements,
        cyc2, cyc3, cycNodes, cycEdges, blockKN, stmtKN]

/-- The fourth pass processes the reset `B2` and resets `B1` again,
returning to the pass-two core: the loop oscillates with period two. -/
theorem stepCoreRes_cyc3 : GraphQueries.stepCoreRes cyc3 = some cyc2 := by
  simp [GraphQueries.stepCoreRes, GraphQueries.loopIter,
        GraphQueries.query_undiscovered_statements, GraphQueries.insert_nodes_and_edges,
        GraphQueries.insert_stmt_blocks, GraphQueries.query_discovered_blocks_without_analysis,
        isUDBlock, GraphQueries.processBlock, GraphQueries.laststat_return,
        GraphQueries.insert_block_var_decls, GraphQueries.insert_local_assignments,
        GraphQueries.insert_block_function_calls, GraphQueries.traverse_ast,
        GraphQueries.traverseGo, GraphQueries.traverseChildren,
        GraphQueries.process_if_statements, GraphQueries.mark_block_analyzed,
        insertKN, dictInsert, dictGet, astChildren, control_statements,
        cyc2, cyc3, cycNodes, cycEdges, blockKN, stmtKN]

/-- Claim C4 (counterexample): a finite graph store — six AST nodes,
six edges — on which `build_recursive_blocks` never terminates, however
much fuel the embedded loop is given.  The blocks `B1` and `B2` sit on
an edge cycle through `if_statement`/`else_statement` nodes, and
`process_if_statements` unconditionally re-inserts every else-branch
block with `discovered=True, processed=False`, so processing either
block resets the other: `processed` is not monotone and the loop
oscillates forever.  Finiteness of the store alone therefore does not
give the claimed termination. -/
theorem build_recursive_blocks_cyclic_diverges :
    ¬ ∃ (fuel : Nat) (final : QState),
      GraphQueries.build_recursive_blocks_fuel fuel
        { core := cyc0, knowledge_edges := [] } = some final := by
  rintro ⟨fuel, final, h⟩
  have hnone := build_fuel_cycle_none
    (fun c => c = cyc0 ∨ c = cyc1 ∨ c = cyc2 ∨ c = cyc3)
    (by
      rintro c (rfl | rfl | rfl | rfl)
      · exact ⟨cyc1, stepCoreRes_cyc0, Or.inr (Or.inl rfl)⟩
      · exact ⟨cyc2, stepCoreRes_cyc1, Or.inr (Or.inr (Or.inl rfl))⟩
      · exact ⟨cyc3, stepCoreRes_cyc2, Or.inr (Or.inr (Or.inr rfl))⟩
      · exact ⟨cyc2, stepCoreRes_cyc3, Or.inr (Or.inr (Or.inl rfl))⟩)
    fuel cyc0 [] (Or.inl rfl)
  rw [hnone] at h
  exact Option.noConfusion h

/-!
Dictionary and weight-sum lemmas for the termination analysis.
-/

/-- Inserting at `k` does not change lookups at other keys. -/
theorem dictGet_dictInsert_ne {α : Type} (d : List (String × α)) (k k' : String)
    (v : α) (h : k' ≠ k) : dictGet (dictInsert d k v) k' = dictGet d k' := by
  induction d with
  | nil =>
    have hne : ¬ k = k' := fun hh => h hh.symm
    simp [dictInsert, dictGet, hne]
  | cons hd t ih =>
    obtain ⟨k0, v0⟩ := hd
    by_cases hk : k0 = k
    · subst hk
      have hne : ¬ k0 = k' := fun hh => h hh.symm
      simp [dictInsert, dictGet, hne]
    · by_cases h2 : k0 = k' <;> simp [dictInsert, dictGet, hk, h2, h, ih]

/-- Keys of an insertion result. -/
theorem mem_keys_dictInsert {α : Type} (d : List (String × α)) (k x : String) (v : α)
    (h : x ∈ (dictInsert d k v).map Prod.fst) : x = k ∨ x ∈ d.map Prod.fst := by
  induction d with
  | nil =>
    simp [dictInsert] at h
    exact Or.inl h
  | cons hd t ih =>
    obtain ⟨k0, v0⟩ := hd
    by_cases hk : k0 = k
    · subst hk
      rw [show dictInsert ((k0, v0) :: t) k0 v = (k0, v) :: t from by
        simp [dictInsert]] at h
      simp only [List.map_cons, List.mem_cons] at h ⊢
      tauto
    · simp only [dictInsert, if_neg hk] at h
      simp only [List.map_cons, List.mem_cons] at h ⊢
      rcases h with h | h
      · exact Or.inr (Or.inl h)
      · rcases ih h with h' | h'
        · exact Or.inl h'
        · exact Or.inr (Or.inr h')

/-- Insertion keeps the keys distinct. -/
theorem dictInsert_keysNodup {α : Type} (d : List (String × α)) (k : String) (v : α)
    (h : (d.map Prod.fst).Nodup) : ((dictInsert d k v).map Prod.fst).Nodup := by
  induction d with
  | nil => simp [dictInsert]
  | cons hd t ih =>
    obtain ⟨k0, v0⟩ := hd
    simp only [List.map_cons, List.nodup_cons] at h
    by_cases hk : k0 = k
    · subst hk
      simpa [dictInsert, List.nodup_cons] using h
    · simp only [dictInsert, if_neg hk, List.map_cons, List.nodup_cons]
      refine ⟨fun hm => ?_, ih h.2⟩
      rcases mem_keys_dictInsert t k k0 v hm with h' | h'
      · exact hk h'
      · exact h.1 h'

/-- Insertion only grows the domain. -/
theorem dictGet_isSome_dictInsert {α : Type} (d : List (String × α)) (k x : String)
    (v : α) (h : (dictGet d x).isSome = true) :
    (dictGet (dictInsert d k v) x).isSome = true := by
  by_cases hx : x = k
  · subst hx; simp [dictGet_dictInsert_self]
  · rwa [dictGet_dictInsert_ne d k x v hx]

/-- Inserting an absent key appends the binding. -/
theorem dictInsert_of_get_none {α : Type} (d : List (String × α)) (k : String) (v : α)
    (h : dictGet d k = none) : dictInsert d k v = d ++ [(k, v)] := by
  induction d with
  | nil => simp [dictInsert]
  | cons hd t ih =>
    obtain ⟨k0, v0⟩ := hd
    by_cases hk : k0 = k
    · simp [dictGet, hk] at h
    · simp only [dictGet, if_neg hk] at h
      simp [dictInsert, hk, ih h]

/-- With distinct keys, membership determines the lookup. -/
theorem dictGet_of_mem_nodup {α : Type} (d : List (String × α)) (k : String) (v : α)
    (hn : (d.map Prod.fst).Nodup) (h : (k, v) ∈ d) : dictGet d k = some v := by
  induction d with
  | nil => simp at h
  | cons hd t ih =>
    obtain ⟨k0, v0⟩ := hd
    simp only [List.map_cons, List.nodup_cons] at hn
    rcases List.mem_cons.mp h with h | h
    · rw [Prod.mk.injEq] at h
      obtain ⟨h1, h2⟩ := h
      subst h1
      subst h2
      simp [dictGet]
    · by_cases hk : k0 = k
      · exfalso
        subst hk
        exact hn.1 (by simpa using List.mem_map_of_mem Prod.fst h)
      · simp [dictGet, hk, ih hn.2 h]

/-- Sum of mapped weights over a filter shrinks when the predicate
strengthens. -/
theorem sum_filter_le_of_imp {α : Type} (f : α → Nat) (p q : α → Bool) :
    ∀ l : List α, (∀ x ∈ l, p x = true → q x = true) →
      ((l.filter p).map f).sum ≤ ((l.filter q).map f).sum := by
  intro l
  induction l with
  | nil => intro _; simp
  | cons y t ih =>
    intro h
    have ht := ih (fun x hx => h x (List.mem_cons_of_mem _ hx))
    cases hp : p y
    · cases hq : q y <;> simp [List.filter_cons, hp, hq] <;> omega
    · have hqy := h y (List.mem_cons_self _ _) hp
      simp [List.filter_cons, hp, hqy]
      omega

/-- As above but with one specified element dropped from the stronger
filter: its weight is recovered. -/
theorem sum_filter_add_le {α : Type} (f : α → Nat) (p q : α → Bool) :
    ∀ l : List α, (∀ x ∈ l, p x = true → q x = true) →
      ∀ x0 ∈ l, q x0 = true → p x0 = false →
        ((l.filter p).map f).sum + f x0 ≤ ((l.filter q).map f).sum := by
  intro l
  induction l with
  | nil => intro _ x0 h0; simp at h0
  | cons y t ih =>
    intro h x0 h0 hq hp
    have himp := fun x hx => h x (List.mem_cons_of_mem _ hx)
    rcases List.mem_cons.mp h0 with h0 | h0
    · subst h0
      have := sum_filter_le_of_imp f p q t himp
      simp [List.filter_cons, hp, hq]
      omega
    · have ht := ih himp x0 h0 hq hp
      cases hpy : p y
      · cases hqy : q y <;> simp [List.filter_cons, hpy, hqy] <;> omega
      · have hqy := h y (List.mem_cons_self _ _) hpy
        simp [List.filter_cons, hpy, hqy]
        omega

/-!
Measure changes under the two store primitives: knowledge insertion and
`mark_block_analyzed`.
-/

/-- Inserting a knowledge node never grows the potential sum. -/
theorem muPot_insertKN_le (C M : Nat) (r : String → Nat) (c : QCore) (g : GNode) :
    muPot C M r (insertKN c g) ≤ muPot C M r c := by
  unfold muPot insertKN wsum
  dsimp only
  apply sum_filter_le_of_imp
  intro kv _ hp
  cases ho : dictGet c.knowledge_nodes kv.1 with
  | none => rfl
  | some w =>
    exfalso
    have hs := dictGet_isSome_dictInsert c.knowledge_nodes g.key kv.1 g (by simp [ho])
    rw [Option.isNone_iff_eq_none] at hp
    rw [hp] at hs
    simp at hs

/-- Inserting at an already-known key leaves the potential sum
unchanged. -/
theorem muPot_insertKN_present (C M : Nat) (r : String → Nat) (c : QCore) (g : GNode)
    (old : GNode) (h : dictGet c.knowledge_nodes g.key = some old) :
    muPot C M r (insertKN c g) = muPot C M r c := by
  unfold muPot insertKN
  dsimp only
  congr 1
  apply List.filter_congr
  intro kv _
  by_cases hk : kv.1 = g.key
  · rw [hk, dictGet_dictInsert_self, h]
    rfl
  · rw [dictGet_dictInsert_ne _ _ _ _ hk]

/-- Inserting an absent key whose AST node exists frees its potential
weight. -/
theorem muPot_insertKN_absent (C M : Nat) (r : String → Nat) (c : QCore) (g : GNode)
    (nd : ANode) (hnone : dictGet c.knowledge_nodes g.key = none)
    (hnd : dictGet c.nodes g.key = some nd) :
    muPot C M r (insertKN c g) + C ^ (M - r g.key) ≤ muPot C M r c := by
  unfold muPot insertKN wsum
  dsimp only
  refine sum_filter_add_le _ _ _ c.nodes ?_ (g.key, nd) (dictGet_mem hnd) ?_ ?_
  · intro kv _ hp
    cases ho : dictGet c.knowledge_nodes kv.1 with
    | none => rfl
    | some w =>
      exfalso
      have hs := dictGet_isSome_dictInsert c.knowledge_nodes g.key kv.1 g (by simp [ho])
      rw [Option.isNone_iff_eq_none] at hp
      rw [hp] at hs
      simp at hs
  · simp [hnone]
  · simp [dictGet_dictInsert_self]

/-- Unprocessed-sum change when inserting an absent key. -/
theorem muUD_insertKN_absent (C M : Nat) (r : String → Nat) (c : QCore) (g : GNode)
    (h : dictGet c.knowledge_nodes g.key = none) :
    muUD C M r (insertKN c g)
      = muUD C M r c + (if isUDBlock g = true then C ^ (M - r g.key) else 0) := by
  unfold muUD insertKN wsum
  dsimp only
  rw [dictInsert_of_get_none _ _ _ h, List.filter_append, List.map_append,
      List.sum_append]
  cases hud : isUDBlock g <;> simp [List.filter, hud]

/-- Unprocessed-sum change when replacing a present key (replacement in
place: the old status is traded for the new one). -/
theorem wsumUD_dictInsert_present (C M : Nat) (r : String → Nat) :
    ∀ (kn : List (String × GNode)) (g old : GNode),
      dictGet kn g.key = some old →
      ((List.filter (fun kv => isUDBlock kv.2) (dictInsert kn g.key g)).map
          (fun kv => C ^ (M - r kv.1))).sum
        + (if isUDBlock old = true then C ^ (M - r g.key) else 0)
      = ((kn.filter (fun kv => isUDBlock kv.2)).map
          (fun kv => C ^ (M - r kv.1))).sum
        + (if isUDBlock g = true then C ^ (M - r g.key) else 0) := by
  intro kn
  induction kn with
  | nil => intro g old h; simp [dictGet] at h
  | cons hd t ih =>
    intro g old h
    obtain ⟨k0, v0⟩ := hd
    by_cases hk : k0 = g.key
    · have hv : old = v0 := by
        simp [dictGet, hk] at h
        exact h.symm
      rw [show dictInsert ((k0, v0) :: t) g.key g = (g.key, g) :: t from by
        simp [dictInsert, hk]]
      rw [hv]
      cases h1 : isUDBlock v0 <;> cases h2 : isUDBlock g <;>
        simp [List.filter_cons, h1, h2, hk] <;> omega
    · have h' : dictGet t g.key = some old := by
        simpa [dictGet, hk] using h
      rw [show dictInsert ((k0, v0) :: t) g.key g = (k0, v0) :: dictInsert t g.key g
        from by simp [dictInsert, hk]]
      have := ih g old h'
      cases h0 : isUDBlock v0 <;> simp [List.filter_cons, h0] <;> omega

/-- Core-level version of the replacement lemma. -/
theorem muUD_insertKN_present (C M : Nat) (r : String → Nat) (c : QCore) (g : GNode)
    (old : GNode) (h : dictGet c.knowledge_nodes g.key = some old) :
    muUD C M r (insertKN c g) + (if isUDBlock old = true then C ^ (M - r g.key) else 0)
      = muUD C M r c + (if isUDBlock g = true then C ^ (M - r g.key) else 0) := by
  unfold muUD insertKN wsum
  dsimp only
  exact wsumUD_dictInsert_present C M r c.knowledge_nodes g old h

/-- One entry of `mark_block_analyzed`'s update map. -/
theorem markStep_eq (bid k0 : String) (v0 : GNode) :
    (fun kv : String × GNode =>
        if kv.1 = bid then (kv.1, { kv.2 with processed := some true }) else kv) (k0, v0)
      = if k0 = bid then (k0, { v0 with processed := some true }) else (k0, v0) := by
  by_cases h : k0 = bid <;> simp [h]

/-- Lookup after `mark_block_analyzed`'s update map. -/
theorem dictGet_markList (bid x : String) :
    ∀ kn : List (String × GNode),
      dictGet (kn.map (fun kv =>
          if kv.1 = bid then (kv.1, { kv.2 with processed := some true }) else kv)) x
        = if x = bid then
            Option.map (fun g => { g with processed := some true }) (dictGet kn x)
          else dictGet kn x := by
  intro kn
  induction kn with
  | nil => by_cases hx : x = bid <;> simp [dictGet, hx]
  | cons hd t ih =>
    obtain ⟨k0, v0⟩ := hd
    rw [List.map_cons]
    dsimp only
    by_cases h1 : k0 = bid
    · subst h1
      rw [if_pos rfl]
      by_cases h2 : k0 = x
      · subst h2
        simp [dictGet]
      · have hx : ¬ x = k0 := fun hh => h2 hh.symm
        simp [dictGet, h2, hx, ih]
    · rw [if_neg h1]
      by_cases h2 : k0 = x
      · subst h2
        have hx : ¬ k0 = bid := h1
        simp [dictGet, hx, ih]
      · simp [dictGet, h1, h2, ih]

/-- The update map keeps the key list. -/
theorem keys_markList (bid : String) :
    ∀ kn : List (String × GNode),
      (kn.map (fun kv =>
          if kv.1 = bid then (kv.1, { kv.2 with processed := some true }) else kv)).map
        Prod.fst = kn.map Prod.fst := by
  intro kn
  induction kn with
  | nil => rfl
  | cons hd t ih =>
    obtain ⟨k0, v0⟩ := hd
    by_cases h1 : k0 = bid <;> simp [h1, ih]

/-- Marking never grows the unprocessed sum. -/
theorem wsumUD_markList_le (C M : Nat) (r : String → Nat) (bid : String) :
    ∀ kn : List (String × GNode),
      ((List.filter (fun kv => isUDBlock kv.2) (kn.map (fun kv =>
          if kv.1 = bid then (kv.1, { kv.2 with processed := some true }) else kv))).map
        (fun kv => C ^ (M - r kv.1))).sum
      ≤ ((kn.filter (fun kv => isUDBlock kv.2)).map (fun kv => C ^ (M - r kv.1))).sum := by
  intro kn
  induction kn with
  | nil => simp
  | cons hd t ih =>
    obtain ⟨k0, v0⟩ := hd
    by_cases h1 : k0 = bid
    · have hud : isUDBlock { v0 with processed := some true } = false := by
        simp [isUDBlock]
      cases h0 : isUDBlock v0 <;>
        simp [List.filter_cons, h1, h0, hud] at ih ⊢ <;> omega
    · cases h0 : isUDBlock v0 <;>
        simp [List.filter_cons, h1, h0] at ih ⊢ <;> omega

/-- Marking an unprocessed block pays its full weight. -/
theorem wsumUD_markList_dec (C M : Nat) (r : String → Nat) (bid : String) :
    ∀ (kn : List (String × GNode)) (g : GNode),
      dictGet kn bid = some g → isUDBlock g = true →
      ((List.filter (fun kv => isUDBlock kv.2) (kn.map (fun kv =>
          if kv.1 = bid then (kv.1, { kv.2 with processed := some true }) else kv))).map
        (fun kv => C ^ (M - r kv.1))).sum + C ^ (M - r bid)
      ≤ ((kn.filter (fun kv => isUDBlock kv.2)).map (fun kv => C ^ (M - r kv.1))).sum := by
  intro kn
  induction kn with
  | nil => intro g h _; simp [dictGet] at h
  | cons hd t ih =>
    intro g h hud
    obtain ⟨k0, v0⟩ := hd
    by_cases h1 : k0 = bid
    · have hv : g = v0 := by simp [dictGet, h1] at h; exact h.symm
      have hudm : isUDBlock { v0 with processed := some true } = false := by
        simp [isUDBlock]
      have hle := wsumUD_markList_le C M r bid t
      subst h1
      rw [hv] at hud
      simp [List.filter_cons, hud, hudm] at hle ⊢
      omega
    · have h' : dictGet t bid = some g := by simpa [dictGet, h1] using h
      have hrec := ih g h' hud
      cases h0 : isUDBlock v0 <;>
        simp [List.filter_cons, h1, h0] at hrec ⊢ <;> omega

/-- Marking leaves the potential sum unchanged. -/
theorem muPot_mark_eq (C M : Nat) (r : String → Nat) (bid : String) (c : QCore) :
    muPot C M r (GraphQueries.mark_block_analyzed bid c) = muPot C M r c := by
  unfold muPot GraphQueries.mark_block_analyzed
  dsimp only
  congr 1
  apply List.filter_congr
  intro kv _
  rw [dictGet_markList]
  by_cases hx : kv.1 = bid <;> simp [hx]

/-- Lookup through `mark_block_analyzed`. -/
theorem dictGet_mark (bid x : String) (c : QCore) :
    dictGet (GraphQueries.mark_block_analyzed bid c).knowledge_nodes x
      = if x = bid then
          Option.map (fun g => { g with processed := some true })
            (dictGet c.knowledge_nodes x)
        else dictGet c.knowledge_nodes x := by
  unfold GraphQueries.mark_block_analyzed
  exact dictGet_markList bid x c.knowledge_nodes

/-- Marking keeps the knowledge domain. -/
theorem isSome_mark (bid x : String) (c : QCore) :
    (dictGet (GraphQueries.mark_block_analyzed bid c).knowledge_nodes x).isSome
      = (dictGet c.knowledge_nodes x).isSome := by
  rw [dictGet_mark]
  by_cases hx : x = bid <;> simp [hx]

/-- Marking an unprocessed block pays its weight out of the measure. -/
theorem mu_mark_dec (C M : Nat) (r : String → Nat) (c : QCore) (bid : String)
    (g : GNode) (hget : dictGet c.knowledge_nodes bid = some g)
    (hud : isUDBlock g = true) :
    mu C M r (GraphQueries.mark_block_analyzed bid c) + C ^ (M - r bid)
      ≤ mu C M r c := by
  have h1 := muPot_mark_eq C M r bid c
  have h2 : muUD C M r (GraphQueries.mark_block_analyzed bid c) + C ^ (M - r bid)
      ≤ muUD C M r c := by
    unfold muUD GraphQueries.mark_block_analyzed wsum
    exact wsumUD_markList_dec C M r bid c.knowledge_nodes g hget hud
  unfold mu
  omega

/-- Marking preserves the store invariant. -/
theorem SInv_mark (N : List (String × ANode)) (Eg : List (String × String))
    (c : QCore) (bid : String) (hS : SInv N Eg c) :
    SInv N Eg (GraphQueries.mark_block_analyzed bid c) := by
  obtain ⟨hN, hE, hnod, hInv2, hJ⟩ := hS
  refine ⟨hN, hE, ?_, ?_, ?_⟩
  · unfold GraphQueries.mark_block_analyzed
    dsimp only
    rw [keys_markList]
    exact hnod
  · intro k g' hg' hud'
    rw [dictGet_mark] at hg'
    by_cases hk : k = bid
    · rw [if_pos hk] at hg'
      cases ho : dictGet c.knowledge_nodes k with
      | none => rw [ho] at hg'; simp at hg'
      | some old =>
        rw [ho] at hg'
        have hgold : g' = { old with processed := some true } := by
          simpa using hg'.symm
        rw [hgold] at hud'
        simp [isUDBlock] at hud'
    · rw [if_neg hk] at hg'
      exact hInv2 k g' hg' hud'
  · intro k hk nd hnd hty ab hab habk
    rw [isSome_mark] at hk
    rw [isSome_mark]
    exact hJ k hk nd hnd hty ab hab habk

/-- Marking only flips the entry at its own key. -/
theorem mark_ud_preserved (c : QCore) (bid k : String) (hk : k ≠ bid)
    (g : GNode) (hg : dictGet c.knowledge_nodes k = some g)
    (hud : isUDBlock g = true) :
    ∃ g', dictGet (GraphQueries.mark_block_analyzed bid c).knowledge_nodes k = some g'
      ∧ isUDBlock g' = true := by
  refine ⟨g, ?_, hud⟩
  rw [dictGet_mark, if_neg hk]
  exact hg

/-- Inserting a non-block knowledge node (at a key whose AST node is
not a `block`) is a free admissible step. -/
theorem CoreStep_insert_nonUD (N : List (String × ANode)) (Eg : List (String × String))
    (C M : Nat) (r : String → Nat) (c : QCore) (g : GNode)
    (hS : SInv N Eg c) (hud : isUDBlock g = false)
    (hty : ∀ nd, dictGet N g.key = some nd → ¬ nd.type = "block") :
    CoreStep N Eg C M r [] 0 c (insertKN c g) := by
  obtain ⟨hN, hE, hnod, hInv2, hJ⟩ := hS
  have hkn : (insertKN c g).knowledge_nodes = dictInsert c.knowledge_nodes g.key g := rfl
  refine ⟨⟨hN, hE, ?_, ?_, ?_⟩, ?_, ?_, ?_⟩
  · rw [hkn]
    exact dictInsert_keysNodup _ _ _ hnod
  · intro k g' hg' hud'
    by_cases hk : k = g.key
    · rw [hkn, hk, dictGet_dictInsert_self] at hg'
      have : g = g' := by simpa using hg'
      rw [← this] at hud'
      rw [hud] at hud'
      exact Bool.noConfusion hud'
    · rw [hkn, dictGet_dictInsert_ne _ _ _ _ hk] at hg'
      exact hInv2 k g' hg' hud'
  · intro k hk2 nd hnd hty2 ab hab habk
    by_cases hkk : k = g.key
    · exact absurd hty2 (hty nd (hkk ▸ hnd))
    · rw [hkn, dictGet_dictInsert_ne _ _ _ _ hkk] at hk2
      have := hJ k hk2 nd hnd hty2 ab hab habk
      rw [hkn]
      exact dictGet_isSome_dictInsert _ _ _ _ this
  · have hpot := muPot_insertKN_le C M r c g
    have hudle : muUD C M r (insertKN c g) ≤ muUD C M r c := by
      cases ho : dictGet c.knowledge_nodes g.key with
      | none =>
        rw [muUD_insertKN_absent C M r c g ho, hud]
        simp
      | some old =>
        have hpr := muUD_insertKN_present C M r c g old ho
        rw [hud] at hpr
        cases hol : isUDBlock old <;> simp [hol] at hpr <;> omega
    unfold mu
    omega
  · intro k hk2
    rw [hkn]
    exact dictGet_isSome_dictInsert _ _ _ _ hk2
  · intro k _ g' hg' hud'
    by_cases hkk : k = g.key
    · exfalso
      obtain ⟨nd, hnd, hndty⟩ := hInv2 k g' hg' hud'
      exact hty nd (hkk ▸ hnd) hndty
    · refine ⟨g', ?_, hud'⟩
      rw [hkn, dictGet_dictInsert_ne _ _ _ _ hkk]
      exact hg'

/-- Inserting an unprocessed block (AST node present and of type
`block`, with all its AST parents already known) is an admissible step
costing at most its weight. -/
theorem CoreStep_insert_UD (N : List (String × ANode)) (Eg : List (String × String))
    (C M : Nat) (r : String → Nat) (c : QCore) (g : GNode) (nd : ANode)
    (hS : SInv N Eg c) (hud : isUDBlock g = true)
    (hnd : dictGet N g.key = some nd) (hndty : nd.type = "block")
    (hpar : ∀ ab ∈ Eg, ab.2 = g.key → (dictGet c.knowledge_nodes ab.1).isSome = true) :
    CoreStep N Eg C M r [] (C ^ (M - r g.key)) c (insertKN c g) := by
  obtain ⟨hN, hE, hnod, hInv2, hJ⟩ := hS
  have hkn : (insertKN c g).knowledge_nodes = dictInsert c.knowledge_nodes g.key g := rfl
  refine ⟨⟨hN, hE, ?_, ?_, ?_⟩, ?_, ?_, ?_⟩
  · rw [hkn]
    exact dictInsert_keysNodup _ _ _ hnod
  · intro k g' hg' hud'
    by_cases hk : k = g.key
    · exact ⟨nd, hk ▸ hnd, hndty⟩
    · rw [hkn, dictGet_dictInsert_ne _ _ _ _ hk] at hg'
      exact hInv2 k g' hg' hud'
  · intro k hk2 nd2 hnd2 hty2 ab hab habk
    rw [hkn]
    by_cases hkk : k = g.key
    · exact dictGet_isSome_dictInsert _ _ _ _ (hpar ab hab (hkk ▸ habk))
    · rw [hkn, dictGet_dictInsert_ne _ _ _ _ hkk] at hk2
      exact dictGet_isSome_dictInsert _ _ _ _ (hJ k hk2 nd2 hnd2 hty2 ab hab habk)
  · have hpot := muPot_insertKN_le C M r c g
    have hudle : muUD C M r (insertKN c g) ≤ muUD C M r c + C ^ (M - r g.key) := by
      cases ho : dictGet c.knowledge_nodes g.key with
      | none =>
        rw [muUD_insertKN_absent C M r c g ho, hud]
        simp
      | some old =>
        have hpr := muUD_insertKN_present C M r c g old ho
        rw [hud] at hpr
        cases hol : isUDBlock old <;> simp [hol] at hpr <;> omega
    unfold mu
    omega
  · intro k hk2
    rw [hkn]
    exact dictGet_isSome_dictInsert _ _ _ _ hk2
  · intro k _ g' hg' hud'
    by_cases hkk : k = g.key
    · refine ⟨g, ?_, hud⟩
      rw [hkn, hkk, dictGet_dictInsert_self]
    · refine ⟨g', ?_, hud'⟩
      rw [hkn, dictGet_dictInsert_ne _ _ _ _ hkk]
      exact hg'

/-- As `CoreStep_insert_UD`, but free: the key is either novel (its
potential weight pays for the new unprocessed block) or already an
unprocessed block (nothing changes weight). -/
theorem CoreStep_insert_UD_free (N : List (String × ANode)) (Eg : List (String × String))
    (C M : Nat) (r : String → Nat) (c : QCore) (g : GNode) (nd : ANode)
    (hS : SInv N Eg c) (hud : isUDBlock g = true)
    (hnd : dictGet N g.key = some nd) (hndty : nd.type = "block")
    (hpar : ∀ ab ∈ Eg, ab.2 = g.key → (dictGet c.knowledge_nodes ab.1).isSome = true)
    (hfree : dictGet c.knowledge_nodes g.key = none ∨
      (∃ old, dictGet c.knowledge_nodes g.key = some old ∧ isUDBlock old = true)) :
    CoreStep N Eg C M r [] 0 c (insertKN c g) := by
  have hbase := CoreStep_insert_UD N Eg C M r c g nd hS hud hnd hndty hpar
  obtain ⟨hS', _, hmono, hudp⟩ := hbase
  refine ⟨hS', ?_, hmono, hudp⟩
  have hNeq : c.nodes = N := hS.1
  rcases hfree with ho | ⟨old, ho, hold⟩
  · have hpot := muPot_insertKN_absent C M r c g nd ho (by rw [hNeq]; exact hnd)
    have hudeq := muUD_insertKN_absent C M r c g ho
    rw [hud] at hudeq
    simp at hudeq
    unfold mu
    omega
  · have hpot := muPot_insertKN_present C M r c g old ho
    have hudeq := muUD_insertKN_present C M r c g old ho
    rw [hud, hold] at hudeq
    simp at hudeq
    unfold mu
    omega

/-- Doing nothing is admissible. -/
theorem CoreStep_refl (N : List (String × ANode)) (Eg : List (String × String))
    (C M : Nat) (r : String → Nat) (X : List String) (c : QCore)
    (hS : SInv N Eg c) : CoreStep N Eg C M r X 0 c c :=
  ⟨hS, Nat.le_refl _, fun _ h => h, fun _ _ g hg hu => ⟨g, hg, hu⟩⟩

/-- Admissible steps compose. -/
theorem CoreStep_trans (N : List (String × ANode)) (Eg : List (String × String))
    (C M : Nat) (r : String → Nat) (X : List String) {W1 W2 : Nat} {c c' c'' : QCore}
    (h1 : CoreStep N Eg C M r X W1 c c') (h2 : CoreStep N Eg C M r X W2 c' c'') :
    CoreStep N Eg C M r X (W1 + W2) c c'' := by
  obtain ⟨hS1, hm1, hmono1, hud1⟩ := h1
  obtain ⟨hS2, hm2, hmono2, hud2⟩ := h2
  refine ⟨hS2, by omega, fun k hk => hmono2 k (hmono1 k hk), ?_⟩
  intro k hkX g hg hu
  obtain ⟨g', hg', hu'⟩ := hud1 k hkX g hg hu
  exact hud2 k hkX g' hg' hu'

/-- Admissible steps weaken in budget. -/
theorem CoreStep_weaken (N : List (String × ANode)) (Eg : List (String × String))
    (C M : Nat) (r : String → Nat) (X : List String) {W W' : Nat} {c c' : QCore}
    (h : CoreStep N Eg C M r X W c c') (hW : W ≤ W') :
    CoreStep N Eg C M r X W' c c' :=
  ⟨h.1, Nat.le_trans h.2.1 (by omega), h.2.2.1, h.2.2.2⟩

/-- Admissible steps widen in exception set. -/
theorem CoreStep_widen (N : List (String × ANode)) (Eg : List (String × String))
    (C M : Nat) (r : String → Nat) {X X' : List String} {W : Nat} {c c' : QCore}
    (h : CoreStep N Eg C M r X W c c') (hX : ∀ k, k ∈ X → k ∈ X') :
    CoreStep N Eg C M r X' W c c' :=
  ⟨h.1, h.2.1, h.2.2.1, fun k hk => h.2.2.2 k (fun hkX => hk (hX k hkX))⟩

/-- A fold of admissible steps is admissible, with a budget per
element; an auxiliary predicate `T` on cores can be threaded through. -/
theorem CoreStep_foldl {β : Type} (N : List (String × ANode)) (Eg : List (String × String))
    (C M : Nat) (r : String → Nat) (X : List String) (W : Nat) (T : QCore → Prop)
    (F : QCore × List QEdge → β → QCore × List QEdge) :
    ∀ l : List β,
      (∀ p b, b ∈ l → SInv N Eg p.1 → T p.1 →
        CoreStep N Eg C M r X W p.1 (F p b).1 ∧ T (F p b).1) →
      ∀ p, SInv N Eg p.1 → T p.1 →
        CoreStep N Eg C M r X (l.length * W) p.1 (l.foldl F p).1 ∧ T (l.foldl F p).1 := by
  intro l
  induction l with
  | nil =>
    intro _ p hS hT
    exact ⟨CoreStep_weaken N Eg C M r X (CoreStep_refl N Eg C M r X p.1 hS)
      (Nat.zero_le _), hT⟩
  | cons b t ih =>
    intro hF p hS hT
    obtain ⟨hstep, hT'⟩ := hF p b (List.mem_cons_self _ _) hS hT
    obtain ⟨hrec, hT''⟩ := ih
      (fun q x hx hSq hTq => hF q x (List.mem_cons_of_mem _ hx) hSq hTq)
      (F p b) hstep.1 hT'
    rw [List.foldl_cons]
    refine ⟨CoreStep_weaken N Eg C M r X
      (CoreStep_trans N Eg C M r X hstep hrec) ?_, hT''⟩
    rw [List.length_cons, Nat.succ_mul]
    omega

/-- Unpacking membership in `astChildren`. -/
theorem mem_astChildren (c : QCore) (P : String) (nd : ANode)
    (h : nd ∈ astChildren c P) :
    ∃ ab, ab ∈ c.edges ∧ ab.1 = P ∧ dictGet c.nodes ab.2 = some nd := by
  unfold astChildren at h
  rw [List.mem_filterMap] at h
  obtain ⟨ab, hab, hf⟩ := h
  by_cases hP : ab.1 = P
  · rw [if_pos hP] at hf
    exact ⟨ab, hab, hP, hf⟩
  · rw [if_neg hP] at hf
    exact Option.noConfusion hf

/-- A control statement is never a `block`. -/
theorem control_not_block (x : String) (h : control_statements.contains x = true) :
    ¬ x = "block" := by
  intro hx
  subst hx
  simp [control_statements] at h

/-- With pairwise-distinct edge targets, a node has at most one AST
parent. -/
theorem unique_parent (Eg : List (String × String))
    (hndp : (Eg.map Prod.snd).Nodup) (a b : String) (h : (a, b) ∈ Eg) :
    ∀ ab ∈ Eg, ab.2 = b → ab.1 = a := by
  induction Eg with
  | nil => simp at h
  | cons hd t ih =>
    simp only [List.map_cons, List.nodup_cons] at hndp
    intro ab hab hab2
    rcases List.mem_cons.mp h with h | h
    · rcases List.mem_cons.mp hab with hab | hab
      · rw [hab, ← h]
      · exfalso
        apply hndp.1
        rw [show hd.2 = b from by rw [← h]]
        rw [← hab2]
        exact List.mem_map_of_mem Prod.snd hab
    · rcases List.mem_cons.mp hab with hab | hab
      · exfalso
        apply hndp.1
        have hh : hd.2 = b := by rw [← hab]; exact hab2
        rw [hh]
        exact List.mem_map_of_mem Prod.snd h
      · exact ih hndp.2 h ab hab hab2

/-- What membership in the undiscovered-statement query implies: the
statement is a control statement, it has no knowledge node yet, and it
is a stored AST child of its `from` node. -/
theorem query_undiscovered_facts (c : QCore) (s : StmtEntity)
    (h : s ∈ GraphQueries.query_undiscovered_statements c) :
    control_statements.contains s.type = true ∧
    (dictGet c.knowledge_nodes s.new_node_id).isNone = true ∧
    ∃ ab, ab ∈ c.edges ∧ ab.1 = s.from_node_id ∧
      ∃ nd, dictGet c.nodes ab.2 = some nd ∧ nd.key = s.new_node_id ∧
        nd.type = s.type := by
  unfold GraphQueries.query_undiscovered_statements at h
  suffices haux : ∀ (kn : List (String × GNode)) (init : List StmtEntity),
      s ∈ kn.foldl (fun acc kv =>
        if kv.2.type == "block" && kv.2.discovered == some true then
          match dictGet c.nodes kv.1 with
          | none => acc
          | some _ =>
            acc ++ (astChildren c kv.1).filterMap (fun child =>
              if control_statements.contains child.type
                  && (dictGet c.knowledge_nodes child.key).isNone then
                some { new_node_id := child.key, from_node_id := kv.1,
                       type := child.type, text := child.text,
                       start_byte := child.start_byte, end_byte := child.end_byte }
              else none)
        else acc) init →
      s ∈ init ∨
        (control_statements.contains s.type = true ∧
         (dictGet c.knowledge_nodes s.new_node_id).isNone = true ∧
         ∃ ab, ab ∈ c.edges ∧ ab.1 = s.from_node_id ∧
           ∃ nd, dictGet c.nodes ab.2 = some nd ∧ nd.key = s.new_node_id ∧
             nd.type = s.type) by
    rcases haux c.knowledge_nodes [] h with h0 | hf
    · simp at h0
    · exact hf
  intro kn
  induction kn with
  | nil =>
    intro init h0
    exact Or.inl h0
  | cons kv t ih =>
    intro init h0
    rw [List.foldl_cons] at h0
    rcases ih _ h0 with h1 | h1
    · cases hcond : (kv.2.type == "block" && kv.2.discovered == some true) with
      | false => rw [hcond] at h1; simp at h1; exact Or.inl h1
      | true =>
        rw [hcond] at h1
        simp only [if_true] at h1
        cases hnd : dictGet c.nodes kv.1 with
        | none => rw [hnd] at h1; exact Or.inl h1
        | some a =>
          rw [hnd] at h1
          rcases List.mem_append.mp h1 with h2 | h2
          · exact Or.inl h2
          · right
            rw [List.mem_filterMap] at h2
            obtain ⟨child, hch, hf⟩ := h2
            by_cases hcc : (control_statements.contains child.type
                && (dictGet c.knowledge_nodes child.key).isNone) = true
            · rw [if_pos hcc] at hf
              have hs : s = { new_node_id := child.key, from_node_id := kv.1, type := child.type, text := child.text, start_byte := child.start_byte, end_byte := child.end_byte } := by
                exact (Option.some.inj hf).symm
              obtain ⟨ab, hab, hab1, habg⟩ := mem_astChildren c kv.1 child hch
              rw [Bool.and_eq_true] at hcc
              subst hs
              exact ⟨hcc.1, hcc.2, ab, hab, hab1, child, habg, rfl, rfl⟩
            · rw [if_neg hcc] at hf
              exact Option.noConfusion hf
    · exact Or.inr h1

/-- Every node document the traversal returns is stored in the AST
collection. -/
theorem traverse_mem (c : QCore) (sa : List String) (m : Nat) :
    ∀ fuel : Nat,
      (∀ key visited n, n ∈ (GraphQueries.traverseGo c sa m fuel key visited).2 →
        ∃ k, dictGet c.nodes k = some n) ∧
      (∀ ks visited n, n ∈ (GraphQueries.traverseChildren c sa m fuel ks visited).2 →
        ∃ k, dictGet c.nodes k = some n) := by
  intro fuel
  induction fuel with
  | zero =>
    constructor
    · intro key visited n hn
      simp [GraphQueries.traverseGo] at hn
    · intro ks
      induction ks with
      | nil => intro visited n hn; simp [GraphQueries.traverseChildren] at hn
      | cons k kt ihk =>
        intro visited n hn
        simp only [GraphQueries.traverseChildren, GraphQueries.traverseGo] at hn
        simp only [List.nil_append] at hn
        exact ihk _ n hn
  | succ f ihf =>
    have hgo : ∀ key visited n, n ∈ (GraphQueries.traverseGo c sa m (f + 1) key visited).2 →
        ∃ k, dictGet c.nodes k = some n := by
      intro key visited n hn
      rw [GraphQueries.traverseGo] at hn
      cases hvc : visited.contains key with
      | true => rw [hvc] at hn; simp at hn
      | false =>
        rw [hvc] at hn
        simp only [Bool.false_eq_true, if_false] at hn
        cases hnd : dictGet c.nodes key with
        | none => rw [hnd] at hn; simp at hn
        | some node =>
          rw [hnd] at hn
          dsimp only at hn
          by_cases hstop : (sa.contains node.type && decide (f + 1 ≠ m)) = true
          · rw [if_pos hstop] at hn; simp at hn
          · rw [if_neg hstop] at hn
            simp only [List.mem_cons] at hn
            rcases hn with hn | hn
            · exact ⟨key, hn ▸ hnd⟩
            · exact ihf.2 _ _ n hn
    refine ⟨hgo, ?_⟩
    intro ks
    induction ks with
    | nil => intro visited n hn; simp [GraphQueries.traverseChildren] at hn
    | cons k kt ihk =>
      intro visited n hn
      simp only [GraphQueries.traverseChildren] at hn
      rw [List.mem_append] at hn
      rcases hn with hn | hn
      · exact hgo k visited n hn
      · exact ihk _ n hn

/-- A fold preserves any property its steps preserve. -/
theorem foldl_pres {β : Type} (Q : QCore × List QEdge → Prop)
    (F : QCore × List QEdge → β → QCore × List QEdge) :
    ∀ (l : List β) (p : QCore × List QEdge), Q p →
      (∀ q b, b ∈ l → Q q → Q (F q b)) → Q (l.foldl F p) := by
  intro l
  induction l with
  | nil => intro p h _; exact h
  | cons b t ih =>
    intro p h hF
    rw [List.foldl_cons]
    exact ih (F p b) (hF p b (List.mem_cons_self _ _) h)
      (fun q x hx => hF q x (List.mem_cons_of_mem _ hx))

/-- `_insert_nodes_and_edges` only grows the knowledge domain. -/
theorem insert_nodes_and_edges_mono (nt er : String) (es : List StmtEntity)
    (p : QCore × List QEdge) (k : String)
    (h : (dictGet p.1.knowledge_nodes k).isSome = true) :
    (dictGet (GraphQueries.insert_nodes_and_edges nt er es p).1.knowledge_nodes
      k).isSome = true := by
  unfold GraphQueries.insert_nodes_and_edges
  refine foldl_pres (fun q => (dictGet q.1.knowledge_nodes k).isSome = true) _ es p h ?_
  intro q e _ hq
  dsimp only
  have hc1 : (dictGet (if (dictGet q.1.knowledge_nodes e.new_node_id).isNone then
      insertKN q.1 { key := e.new_node_id, type := nt, text := e.text, start_byte := e.start_byte, end_byte := e.end_byte }
    else q.1).knowledge_nodes k).isSome = true := by
    by_cases hcond : (dictGet q.1.knowledge_nodes e.new_node_id).isNone = true
    · rw [if_pos hcond]
      exact dictGet_isSome_dictInsert _ _ _ _ hq
    · rw [if_neg hcond]
      exact hq
  by_cases hfrom : (e.from_node_id == "") = true
  · rw [if_pos hfrom]
    exact hc1
  · rw [if_neg hfrom]
    exact hc1

/-- The core of a single-entity `_insert_nodes_and_edges`. -/
theorem insert_single_core (nt er : String) (e : StmtEntity) (p : QCore × List QEdge) :
    (GraphQueries.insert_nodes_and_edges nt er [e] p).1
      = if (dictGet p.1.knowledge_nodes e.new_node_id).isNone then
          insertKN p.1 { key := e.new_node_id, type := nt, text := e.text, start_byte := e.start_byte, end_byte := e.end_byte }
        else p.1 := by
  unfold GraphQueries.insert_nodes_and_edges
  simp only [List.foldl_cons, List.foldl_nil]
  by_cases hfrom : (e.from_node_id == "") = true
  · rw [if_pos hfrom]
  · rw [if_neg hfrom]

/-- After the per-statement insertion fold, the knowledge domain has
only grown. -/
theorem fold1_mono (l : List StmtEntity) (p : QCore × List QEdge) (k : String)
    (h : (dictGet p.1.knowledge_nodes k).isSome = true) :
    (dictGet ((l.foldl (fun q stmt =>
        GraphQueries.insert_nodes_and_edges stmt.type "executes" [stmt] q) p)).1.knowledge_nodes
      k).isSome = true := by
  refine foldl_pres (fun q => (dictGet q.1.knowledge_nodes k).isSome = true) _ l p h ?_
  intro q s _ hq
  exact insert_nodes_and_edges_mono s.type "executes" [s] q k hq

/-- After the per-statement insertion fold, every statement key is
known. -/
theorem fold1_inserts :
    ∀ (l : List StmtEntity) (p : QCore × List QEdge) (s : StmtEntity), s ∈ l →
      (dictGet ((l.foldl (fun q stmt =>
          GraphQueries.insert_nodes_and_edges stmt.type "executes" [stmt] q)
        p)).1.knowledge_nodes s.new_node_id).isSome = true := by
  intro l
  induction l with
  | nil => intro p s hs; simp at hs
  | cons s0 t ih =>
    intro p s hs
    rw [List.foldl_cons]
    rcases List.mem_cons.mp hs with hs | hs
    · subst hs
      apply fold1_mono
      rw [insert_single_core]
      by_cases hcond : (dictGet p.1.knowledge_nodes s.new_node_id).isNone = true
      · rw [if_pos hcond]
        have := dictGet_dictInsert_self p.1.knowledge_nodes s.new_node_id
          { key := s.new_node_id, type := s.type, text := s.text, start_byte := s.start_byte, end_byte := s.end_byte }
        simp [insertKN, this]
      · rw [if_neg hcond]
        cases ho : dictGet p.1.knowledge_nodes s.new_node_id with
        | none => rw [ho] at hcond; simp at hcond
        | some a => simp [ho]
    · exact ih _ s hs

/-- The discovery phase of one loop pass — inserting the undiscovered
control statements and their blocks — is admissible and free: novel
statements only consume potential, and each inserted block is either
novel (paid by its potential) or already an unprocessed block. -/
theorem CoreStep_phase (N : List (String × ANode)) (Eg : List (String × String))
    (C M : Nat) (r : String → Nat)
    (hkeys : ∀ kv ∈ N, kv.2.key = kv.1)
    (hndp : (Eg.map Prod.snd).Nodup)
    (c : QCore) (e : List QEdge) (hS : SInv N Eg c) :
    CoreStep N Eg C M r [] 0 c
      (GraphQueries.insert_stmt_blocks (GraphQueries.query_undiscovered_statements c)
        ((GraphQueries.query_undiscovered_statements c).foldl
          (fun p stmt => GraphQueries.insert_nodes_and_edges stmt.type "executes" [stmt] p)
          (c, e))).1 := by
  have hNc : c.nodes = N := hS.1
  have hEc : c.edges = Eg := hS.2.1
  -- facts that a query entity gives over the fixed collections
  have hbfacts : ∀ b ∈ GraphQueries.query_undiscovered_statements c,
      (dictGet c.knowledge_nodes b.new_node_id).isNone = true ∧
      ¬ b.type = "block" ∧
      (∃ nd, dictGet N b.new_node_id = some nd ∧ nd.type = b.type) ∧
      (b.from_node_id, b.new_node_id) ∈ Eg := by
    intro b hb
    obtain ⟨hcont, hnone0, ab, habE, hab1, nd, hndget, hndkey, hndtype⟩ :=
      query_undiscovered_facts c b hb
    rw [hNc] at hndget
    rw [hEc] at habE
    have hkey2 : nd.key = ab.2 := hkeys (ab.2, nd) (dictGet_mem hndget)
    have hab2 : ab.2 = b.new_node_id := by rw [← hkey2, hndkey]
    have hgetb : dictGet N b.new_node_id = some nd := hab2 ▸ hndget
    have habP : ab = (b.from_node_id, b.new_node_id) := by
      rw [← hab1, ← hab2]
    refine ⟨hnone0, control_not_block _ hcont, ⟨nd, hgetb, hndtype⟩, habP ▸ habE⟩
  -- the phase invariant: entries at novel block-node keys are unprocessed
  have hT0 : (fun q : QCore => ∀ k nd, dictGet N k = some nd → nd.type = "block" →
      dictGet c.knowledge_nodes k = none →
      ∀ g, dictGet q.knowledge_nodes k = some g → isUDBlock g = true) c := by
    intro k nd _ _ hnovel g hg
    rw [hnovel] at hg
    exact Option.noConfusion hg
  -- step lemma for the per-statement insertion fold
  have hF1 : ∀ (p : QCore × List QEdge) (b : StmtEntity),
      b ∈ GraphQueries.query_undiscovered_statements c → SInv N Eg p.1 →
      (fun q : QCore => ∀ k nd, dictGet N k = some nd → nd.type = "block" →
        dictGet c.knowledge_nodes k = none →
        ∀ g, dictGet q.knowledge_nodes k = some g → isUDBlock g = true) p.1 →
      CoreStep N Eg C M r [] 0 p.1
        (GraphQueries.insert_nodes_and_edges b.type "executes" [b] p).1 ∧
      (fun q : QCore => ∀ k nd, dictGet N k = some nd → nd.type = "block" →
        dictGet c.knowledge_nodes k = none →
        ∀ g, dictGet q.knowledge_nodes k = some g → isUDBlock g = true)
        (GraphQueries.insert_nodes_and_edges b.type "executes" [b] p).1 := by
    intro p b hb hSp hTp
    obtain ⟨hnone0, hbty, ⟨nd, hgetb, hndtype⟩, hedge⟩ := hbfacts b hb
    rw [insert_single_core]
    by_cases hcond : (dictGet p.1.knowledge_nodes b.new_node_id).isNone = true
    · rw [if_pos hcond]
      have hudf : isUDBlock { key := b.new_node_id, type := b.type, text := b.text, start_byte := b.start_byte, end_byte := b.end_byte } = false := by
        simp [isUDBlock]
      have htyf : ∀ nd', dictGet N b.new_node_id = some nd' → ¬ nd'.type = "block" := by
        intro nd' hnd'
        rw [hgetb] at hnd'
        have : nd = nd' := by simpa using hnd'
        rw [← this, hndtype]
        exact hbty
      refine ⟨CoreStep_insert_nonUD N Eg C M r p.1 _ hSp hudf htyf, ?_⟩
      intro k nd' hnd' htyb hnovel g hg
      by_cases hkk : k = b.new_node_id
      · exfalso
        rw [hkk, hgetb] at hnd'
        have : nd = nd' := by simpa using hnd'
        rw [← this, hndtype] at htyb
        exact hbty htyb
      · rw [show (insertKN p.1 { key := b.new_node_id, type := b.type, text := b.text, start_byte := b.start_byte, end_byte := b.end_byte }).knowledge_nodes = dictInsert p.1.knowledge_nodes b.new_node_id { key := b.new_node_id, type := b.type, text := b.text, start_byte := b.start_byte, end_byte := b.end_byte } from rfl,
            dictGet_dictInsert_ne _ _ _ _ hkk] at hg
        exact hTp k nd' hnd' htyb hnovel g hg
    · rw [if_neg hcond]
      exact ⟨CoreStep_refl N Eg C M r [] p.1 hSp, hTp⟩
  -- run the per-statement fold
  have hfold1 := CoreStep_foldl N Eg C M r [] 0
    (fun q : QCore => ∀ k nd, dictGet N k = some nd → nd.type = "block" →
      dictGet c.knowledge_nodes k = none →
      ∀ g, dictGet q.knowledge_nodes k = some g → isUDBlock g = true)
    (fun p stmt => GraphQueries.insert_nodes_and_edges stmt.type "executes" [stmt] p)
    (GraphQueries.query_undiscovered_statements c) hF1 (c, e) hS hT0
  rw [Nat.mul_zero] at hfold1
  obtain ⟨hCS1, hT1⟩ := hfold1
  have hS1 := hCS1.1
  have hpresent := fold1_inserts (GraphQueries.query_undiscovered_statements c) (c, e)
  -- step lemma for the statement-block fold
  have hF2 : ∀ (p : QCore × List QEdge) (b : StmtEntity),
      b ∈ GraphQueries.query_undiscovered_statements c → SInv N Eg p.1 →
      (fun q : QCore =>
        (∀ k nd, dictGet N k = some nd → nd.type = "block" →
          dictGet c.knowledge_nodes k = none →
          ∀ g, dictGet q.knowledge_nodes k = some g → isUDBlock g = true) ∧
        (∀ s ∈ GraphQueries.query_undiscovered_statements c,
          (dictGet q.knowledge_nodes s.new_node_id).isSome = true)) p.1 →
      CoreStep N Eg C M r [] 0 p.1
        ((fun (p : QCore × List QEdge) (stmt : StmtEntity) =>
          match dictGet p.1.nodes stmt.new_node_id with
          | none => p
          | some _ =>
            (astChildren p.1 stmt.new_node_id).foldl
              (fun (p : QCore × List QEdge) (b : ANode) =>
              if b.type == "block" then
                (insertKN p.1 { key := b.key, type := "block", text := b.text,
                                start_byte := b.start_byte, end_byte := b.end_byte,
                                discovered := some true, processed := some false },
                 p.2 ++ [({ from_key := stmt.new_node_id, to_key := b.key,
                            relation := "has_block" } : QEdge)])
              else p) p) p b).1 ∧
      (fun q : QCore =>
        (∀ k nd, dictGet N k = some nd → nd.type = "block" →
          dictGet c.knowledge_nodes k = none →
          ∀ g, dictGet q.knowledge_nodes k = some g → isUDBlock g = true) ∧
        (∀ s ∈ GraphQueries.query_undiscovered_statements c,
          (dictGet q.knowledge_nodes s.new_node_id).isSome = true))
        ((fun (p : QCore × List QEdge) (stmt : StmtEntity) =>
          match dictGet p.1.nodes stmt.new_node_id with
          | none => p
          | some _ =>
            (astChildren p.1 stmt.new_node_id).foldl
              (fun (p : QCore × List QEdge) (b : ANode) =>
              if b.type == "block" then
                (insertKN p.1 { key := b.key, type := "block", text := b.text,
                                start_byte := b.start_byte, end_byte := b.end_byte,
                                discovered := some true, processed := some false },
                 p.2 ++ [({ from_key := stmt.new_node_id, to_key := b.key,
                            relation := "has_block" } : QEdge)])
              else p) p) p b).1 := by
    intro p b hb hSp hTp
    obtain ⟨hnone0, hbty, ⟨nd, hgetb, hndtype⟩, hedge⟩ := hbfacts b hb
    dsimp only
    cases hn : dictGet p.1.nodes b.new_node_id with
    | none => exact ⟨CoreStep_refl N Eg C M r [] p.1 hSp, hTp⟩
    | some a =>
      have hINNER : ∀ (q : QCore × List QEdge) (bb : ANode),
          bb ∈ astChildren p.1 b.new_node_id → SInv N Eg q.1 →
          (fun qq : QCore =>
            (∀ k nd, dictGet N k = some nd → nd.type = "block" →
              dictGet c.knowledge_nodes k = none →
              ∀ g, dictGet qq.knowledge_nodes k = some g → isUDBlock g = true) ∧
            (∀ s ∈ GraphQueries.query_undiscovered_statements c,
              (dictGet qq.knowledge_nodes s.new_node_id).isSome = true)) q.1 →
          CoreStep N Eg C M r [] 0 q.1
            ((fun (q : QCore × List QEdge) (bb : ANode) =>
              if bb.type == "block" then
                (insertKN q.1 { key := bb.key, type := "block", text := bb.text,
                                start_byte := bb.start_byte, end_byte := bb.end_byte,
                                discovered := some true, processed := some false },
                 q.2 ++ [({ from_key := b.new_node_id, to_key := bb.key,
                            relation := "has_block" } : QEdge)])
              else q) q bb).1 ∧
          (fun qq : QCore =>
            (∀ k nd, dictGet N k = some nd → nd.type = "block" →
              dictGet c.knowledge_nodes k = none →
              ∀ g, dictGet qq.knowledge_nodes k = some g → isUDBlock g = true) ∧
            (∀ s ∈ GraphQueries.query_undiscovered_statements c,
              (dictGet qq.knowledge_nodes s.new_node_id).isSome = true))
            ((fun (q : QCore × List QEdge) (bb : ANode) =>
              if bb.type == "block" then
                (insertKN q.1 { key := bb.key, type := "block", text := bb.text,
                                start_byte := bb.start_byte, end_byte := bb.end_byte,
                                discovered := some true, processed := some false },
                 q.2 ++ [({ from_key := b.new_node_id, to_key := bb.key,
                            relation := "has_block" } : QEdge)])
              else q) q bb).1 := by
        intro q bb hbb hSq hTq
        dsimp only
        by_cases hbbt : (bb.type == "block") = true
        · rw [if_pos hbbt]
          have hbbeq : bb.type = "block" := eq_of_beq hbbt
          obtain ⟨ab2, hab2E, hab21, hab2get⟩ := mem_astChildren p.1 b.new_node_id bb hbb
          rw [hSp.1] at hab2get
          rw [hSp.2.1] at hab2E
          have hkeybb : bb.key = ab2.2 := hkeys (ab2.2, bb) (dictGet_mem hab2get)
          have hgetbb : dictGet N bb.key = some bb := by rw [hkeybb]; exact hab2get
          have hedgebb : (b.new_node_id, bb.key) ∈ Eg := by
            have habP : ab2 = (b.new_node_id, bb.key) := by rw [← hab21, hkeybb]
            exact habP ▸ hab2E
          have hud : isUDBlock { key := bb.key, type := "block", text := bb.text, start_byte := bb.start_byte, end_byte := bb.end_byte, discovered := some true, processed := some false } = true := by
            simp [isUDBlock]
          have hpar : ∀ ab ∈ Eg, ab.2 = bb.key →
              (dictGet q.1.knowledge_nodes ab.1).isSome = true := by
            intro ab hab habk
            have := unique_parent Eg hndp b.new_node_id bb.key hedgebb ab hab habk
            rw [this]
            exact hTq.2 b hb
          have hfree : dictGet q.1.knowledge_nodes bb.key = none ∨
              (∃ old, dictGet q.1.knowledge_nodes bb.key = some old ∧
                isUDBlock old = true) := by
            cases ho : dictGet q.1.knowledge_nodes bb.key with
            | none => exact Or.inl rfl
            | some old =>
              right
              refine ⟨old, rfl, ?_⟩
              cases h0 : dictGet c.knowledge_nodes bb.key with
              | some g0 =>
                exfalso
                have hsome0 : (dictGet c.knowledge_nodes bb.key).isSome = true := by
                  rw [h0]; rfl
                have := hS.2.2.2.2 bb.key hsome0 bb hgetbb hbbeq
                  (b.new_node_id, bb.key) hedgebb rfl
                rw [Option.isNone_iff_eq_none] at hnone0
                rw [hnone0] at this
                simp at this
              | none => exact hTq.1 bb.key bb hgetbb hbbeq h0 old ho
          refine ⟨CoreStep_insert_UD_free N Eg C M r q.1 _ bb hSq hud hgetbb hbbeq
            hpar hfree, ?_, ?_⟩
          · intro k nd' hnd' htyb hnovel g hg
            by_cases hkk : k = bb.key
            · rw [show (insertKN q.1 { key := bb.key, type := "block", text := bb.text, start_byte := bb.start_byte, end_byte := bb.end_byte, discovered := some true, processed := some false }).knowledge_nodes = dictInsert q.1.knowledge_nodes bb.key { key := bb.key, type := "block", text := bb.text, start_byte := bb.start_byte, end_byte := bb.end_byte, discovered := some true, processed := some false } from rfl,
                  hkk, dictGet_dictInsert_self] at hg
              have : { key := bb.key, type := "block", text := bb.text, start_byte := bb.start_byte, end_byte := bb.end_byte, discovered := some true, processed := some false } = g := by
                simpa using hg
              rw [← this]
              exact hud
            · rw [show (insertKN q.1 { key := bb.key, type := "block", text := bb.text, start_byte := bb.start_byte, end_byte := bb.end_byte, discovered := some true, processed := some false }).knowledge_nodes = dictInsert q.1.knowledge_nodes bb.key { key := bb.key, type := "block", text := bb.text, start_byte := bb.start_byte, end_byte := bb.end_byte, discovered := some true, processed := some false } from rfl,
                  dictGet_dictInsert_ne _ _ _ _ hkk] at hg
              exact hTq.1 k nd' hnd' htyb hnovel g hg
          · intro s hs
            exact dictGet_isSome_dictInsert _ _ _ _ (hTq.2 s hs)
        · rw [if_neg hbbt]
          exact ⟨CoreStep_refl N Eg C M r [] q.1 hSq, hTq⟩
      have hin := CoreStep_foldl N Eg C M r [] 0
        (fun qq : QCore =>
          (∀ k nd, dictGet N k = some nd → nd.type = "block" →
            dictGet c.knowledge_nodes k = none →
            ∀ g, dictGet qq.knowledge_nodes k = some g → isUDBlock g = true) ∧
          (∀ s ∈ GraphQueries.query_undiscovered_statements c,
            (dictGet qq.knowledge_nodes s.new_node_id).isSome = true))
        (fun q bb =>
          if bb.type == "block" then
            (insertKN q.1 { key := bb.key, type := "block", text := bb.text,
                            start_byte := bb.start_byte, end_byte := bb.end_byte,
                            discovered := some true, processed := some false },
             q.2 ++ [{ from_key := b.new_node_id, to_key := bb.key,
                       relation := "has_block" }])
          else q)
        (astChildren p.1 b.new_node_id) hINNER p hSp hTp
      rw [Nat.mul_zero] at hin
      exact hin
  -- run the statement-block fold
  unfold GraphQueries.insert_stmt_blocks
  have hfold2 := CoreStep_foldl N Eg C M r [] 0
    (fun q : QCore =>
      (∀ k nd, dictGet N k = some nd → nd.type = "block" →
        dictGet c.knowledge_nodes k = none →
        ∀ g, dictGet q.knowledge_nodes k = some g → isUDBlock g = true) ∧
      (∀ s ∈ GraphQueries.query_undiscovered_statements c,
        (dictGet q.knowledge_nodes s.new_node_id).isSome = true))
    (fun p stmt =>
      match dictGet p.1.nodes stmt.new_node_id with
      | none => p
      | some _ =>
        (astChildren p.1 stmt.new_node_id).foldl (fun p b =>
          if b.type == "block" then
            (insertKN p.1 { key := b.key, type := "block", text := b.text,
                            start_byte := b.start_byte, end_byte := b.end_byte,
                            discovered := some true, processed := some false },
             p.2 ++ [{ from_key := stmt.new_node_id, to_key := b.key,
                       relation := "has_block" }])
          else p) p)
    (GraphQueries.query_undiscovered_statements c) hF2
    ((GraphQueries.query_undiscovered_statements c).foldl
      (fun p stmt => GraphQueries.insert_nodes_and_edges stmt.type "executes" [stmt] p)
      (c, e)) hS1 ⟨hT1, hpresent⟩
  rw [Nat.mul_zero] at hfold2
  exact CoreStep_trans N Eg C M r [] hCS1 hfold2.1

/-- A stored AST child is a stored node with an edge from its parent. -/
theorem astChild_node (N : List (String × ANode)) (Eg : List (String × String))
    (hkeys : ∀ kv ∈ N, kv.2.key = kv.1) (q : QCore) (hSq : SInv N Eg q)
    (P : String) (ch : ANode) (h : ch ∈ astChildren q P) :
    dictGet N ch.key = some ch ∧ (P, ch.key) ∈ Eg := by
  obtain ⟨ab, habE, hab1, habg⟩ := mem_astChildren q P ch h
  rw [hSq.1] at habg
  rw [hSq.2.1] at habE
  have hk : ch.key = ab.2 := hkeys (ab.2, ch) (dictGet_mem habg)
  constructor
  · rw [hk]; exact habg
  · have habP : ab = (P, ch.key) := by rw [← hab1, hk]
    exact habP ▸ habE

/-- Inserting an undiscovered-flag-free document at a non-block AST key
is free and admissible. -/
theorem CoreStep_insert_child (N : List (String × ANode)) (Eg : List (String × String))
    (C M : Nat) (r : String → Nat) (q : QCore) (doc : GNode) (nd : ANode)
    (hSq : SInv N Eg q) (hdoc : doc.discovered = none)
    (hnd : dictGet N doc.key = some nd) (hty : ¬ nd.type = "block") :
    CoreStep N Eg C M r [] 0 q (insertKN q doc) := by
  apply CoreStep_insert_nonUD N Eg C M r q doc hSq
  · simp [isUDBlock, hdoc]
  · intro nd' hnd'
    rw [hnd] at hnd'
    have : nd = nd' := by simpa using hnd'
    rw [← this]
    exact hty

/-- `laststat_return` is free and admissible. -/
theorem CoreStep_laststat (N : List (String × ANode)) (Eg : List (String × String))
    (C M : Nat) (r : String → Nat) (hkeys : ∀ kv ∈ N, kv.2.key = kv.1)
    (bid : String) (p : QCore × List QEdge) (hS : SInv N Eg p.1) :
    CoreStep N Eg C M r [] 0 p.1 (GraphQueries.laststat_return bid p).1 := by
  unfold GraphQueries.laststat_return
  have h := CoreStep_foldl N Eg C M r [] 0 (fun _ => True)
    (fun p stmt =>
      if stmt.type == "return_statement" then
        (insertKN p.1 { key := stmt.key, type := "laststat_return", text := stmt.text,
                        start_byte := stmt.start_byte, end_byte := stmt.end_byte },
         p.2 ++ [({ from_key := bid, to_key := stmt.key,
                    relation := "executes" } : QEdge)])
      else p)
    (astChildren p.1 bid) ?_ p hS trivial
  · rw [Nat.mul_zero] at h
    exact h.1
  · intro q stmt hmem hSq _
    refine ⟨?_, trivial⟩
    dsimp only
    by_cases hst : (stmt.type == "return_statement") = true
    · rw [if_pos hst]
      obtain ⟨hnd, _⟩ := astChild_node N Eg hkeys p.1 hS bid stmt hmem
      refine CoreStep_insert_child N Eg C M r q.1 _ stmt hSq rfl hnd ?_
      rw [eq_of_beq hst]
      decide
    · rw [if_neg hst]
      exact CoreStep_refl N Eg C M r [] q.1 hSq

/-- `insert_local_assignments` is free and admissible. -/
theorem CoreStep_local_assignments (N : List (String × ANode)) (Eg : List (String × String))
    (C M : Nat) (r : String → Nat) (hkeys : ∀ kv ∈ N, kv.2.key = kv.1)
    (bid : String) (p : QCore × List QEdge) (hS : SInv N Eg p.1) :
    CoreStep N Eg C M r [] 0 p.1 (GraphQueries.insert_local_assignments bid p).1 := by
  unfold GraphQueries.insert_local_assignments
  have h := CoreStep_foldl N Eg C M r [] 0 (fun _ => True)
    (fun p vd =>
      if vd.type == "variable_declaration" then
        (astChildren p.1 vd.key).foldl (fun p assign =>
          if assign.type == "assignment_statement" then
            (insertKN p.1 { key := assign.key, type := "local_assignment",
                            text := assign.text, start_byte := assign.start_byte,
                            end_byte := assign.end_byte },
             p.2 ++ [({ from_key := bid, to_key := assign.key,
                        relation := "executes" } : QEdge)])
          else p) p
      else p)
    (astChildren p.1 bid) ?_ p hS trivial
  · rw [Nat.mul_zero] at h
    exact h.1
  · intro q vd _ hSq _
    refine ⟨?_, trivial⟩
    dsimp only
    by_cases hvd : (vd.type == "variable_declaration") = true
    · rw [if_pos hvd]
      have hin := CoreStep_foldl N Eg C M r [] 0 (fun _ => True)
        (fun p assign =>
          if assign.type == "assignment_statement" then
            (insertKN p.1 { key := assign.key, type := "local_assignment",
                            text := assign.text, start_byte := assign.start_byte,
                            end_byte := assign.end_byte },
             p.2 ++ [({ from_key := bid, to_key := assign.key,
                        relation := "executes" } : QEdge)])
          else p)
        (astChildren q.1 vd.key) ?_ q hSq trivial
      · rw [Nat.mul_zero] at hin
        exact hin.1
      · intro qq assign hmem2 hSqq _
        refine ⟨?_, trivial⟩
        dsimp only
        by_cases ha : (assign.type == "assignment_statement") = true
        · rw [if_pos ha]
          obtain ⟨hnd, _⟩ := astChild_node N Eg hkeys q.1 hSq vd.key assign hmem2
          refine CoreStep_insert_child N Eg C M r qq.1 _ assign hSqq rfl hnd ?_
          rw [eq_of_beq ha]
          decide
        · rw [if_neg ha]
          exact CoreStep_refl N Eg C M r [] qq.1 hSqq
    · rw [if_neg hvd]
      exact CoreStep_refl N Eg C M r [] q.1 hSq

/-- `insert_block_var_decls` is free and admissible. -/
theorem CoreStep_var_decls (N : List (String × ANode)) (Eg : List (String × String))
    (C M : Nat) (r : String → Nat) (hkeys : ∀ kv ∈ N, kv.2.key = kv.1)
    (bid : String) (p : QCore × List QEdge) (hS : SInv N Eg p.1) :
    CoreStep N Eg C M r [] 0 p.1 (GraphQueries.insert_block_var_decls bid p).1 := by
  unfold GraphQueries.insert_block_var_decls
  cases hn : dictGet p.1.nodes bid with
  | none => exact CoreStep_refl N Eg C M r [] p.1 hS
  | some a =>
    have h := CoreStep_foldl N Eg C M r [] 0 (fun _ => True)
      (fun p vd =>
        if vd.type == "variable_declaration" then
          match (astChildren p.1 vd.key).find? (fun c => c.type == "assignment_statement") with
          | none => p
          | some assign =>
            match (astChildren p.1 assign.key).find? (fun c => c.type == "variable_list") with
            | none => p
            | some var_list =>
              (astChildren p.1 var_list.key).foldl (fun p ident =>
                if ident.type == "identifier" then
                  (insertKN p.1 { key := ident.key, type := "local_var",
                                  text := ident.text, start_byte := ident.start_byte,
                                  end_byte := ident.end_byte },
                   p.2 ++ [({ from_key := bid, to_key := ident.key,
                              relation := "declares" } : QEdge)])
                else p) p
        else p)
      (astChildren p.1 bid) ?_ p hS trivial
    · rw [Nat.mul_zero] at h
      exact h.1
    · intro q vd _ hSq _
      refine ⟨?_, trivial⟩
      dsimp only
      by_cases hvd : (vd.type == "variable_declaration") = true
      · rw [if_pos hvd]
        cases h2 : (astChildren q.1 vd.key).find? (fun c => c.type == "assignment_statement") with
        | none =>
          try rw [h2]
          exact CoreStep_refl N Eg C M r [] q.1 hSq
        | some assign =>
          try rw [h2]
          dsimp only
          cases h3 : (astChildren q.1 assign.key).find? (fun c => c.type == "variable_list") with
          | none =>
            try rw [h3]
            exact CoreStep_refl N Eg C M r [] q.1 hSq
          | some vl =>
            try rw [h3]
            dsimp only
            have hin := CoreStep_foldl N Eg C M r [] 0 (fun _ => True)
              (fun p ident =>
                if ident.type == "identifier" then
                  (insertKN p.1 { key := ident.key, type := "local_var",
                                  text := ident.text, start_byte := ident.start_byte,
                                  end_byte := ident.end_byte },
                   p.2 ++ [({ from_key := bid, to_key := ident.key,
                              relation := "declares" } : QEdge)])
                else p)
              (astChildren q.1 vl.key) ?_ q hSq trivial
            · rw [Nat.mul_zero] at hin
              exact hin.1
            · intro qq ident hmem2 hSqq _
              refine ⟨?_, trivial⟩
              dsimp only
              by_cases hid : (ident.type == "identifier") = true
              · rw [if_pos hid]
                obtain ⟨hnd, _⟩ := astChild_node N Eg hkeys q.1 hSq vl.key ident hmem2
                refine CoreStep_insert_child N Eg C M r qq.1 _ ident hSqq rfl hnd ?_
                rw [eq_of_beq hid]
                decide
              · rw [if_neg hid]
                exact CoreStep_refl N Eg C M r [] qq.1 hSqq
      · rw [if_neg hvd]
        exact CoreStep_refl N Eg C M r [] q.1 hSq

/-- `insert_block_function_calls` is free and admissible. -/
theorem CoreStep_fn_calls (N : List (String × ANode)) (Eg : List (String × String))
    (C M : Nat) (r : String → Nat) (hkeys : ∀ kv ∈ N, kv.2.key = kv.1)
    (bid : String) (p : QCore × List QEdge) (hS : SInv N Eg p.1) :
    CoreStep N Eg C M r [] 0 p.1 (GraphQueries.insert_block_function_calls bid p).1 := by
  unfold GraphQueries.insert_block_function_calls
  have h := CoreStep_foldl N Eg C M r [] 0 (fun _ => True)
    (fun p node =>
      if node.type == "function_call" then
        match (astChildren p.1 node.key).find?
            (fun ch => ch.type == "identifier" || ch.type == "dot_index_expression") with
        | none => p
        | some name_node =>
          match p.1.knowledge_nodes.find? (fun kv =>
              kv.2.text == name_node.text &&
              (kv.2.type == "function" || kv.2.type == "local_function" ||
               kv.2.type == "global_function" || kv.2.type == "local_var")) with
          | some existing =>
            (p.1, p.2 ++ [({ from_key := bid, to_key := existing.1,
                             relation := "calls" } : QEdge)])
          | none =>
            (if (dictGet p.1.knowledge_nodes node.key).isNone then
                insertKN p.1 { key := node.key, type := "function_call",
                               text := name_node.text, start_byte := node.start_byte,
                               end_byte := node.end_byte }
              else p.1,
             p.2 ++ [({ from_key := bid, to_key := node.key,
                        relation := "calls" } : QEdge)])
      else p)
    (GraphQueries.traverse_ast p.1 bid 10 ["block"]) ?_ p hS trivial
  · rw [Nat.mul_zero] at h
    exact h.1
  · intro q node hmem hSq _
    refine ⟨?_, trivial⟩
    dsimp only
    by_cases hfc : (node.type == "function_call") = true
    · rw [if_pos hfc]
      have hnodefact : dictGet N node.key = some node := by
        unfold GraphQueries.traverse_ast at hmem
        obtain ⟨k, hk⟩ := (traverse_mem p.1 ["block"] (10 + 1) (10 + 1)).1 bid [] node hmem
        rw [hS.1] at hk
        have := hkeys (k, node) (dictGet_mem hk)
        rw [this]
        exact hk
      cases h2 : (astChildren q.1 node.key).find?
          (fun ch => ch.type == "identifier" || ch.type == "dot_index_expression") with
      | none =>
        try rw [h2]
        exact CoreStep_refl N Eg C M r [] q.1 hSq
      | some nm =>
        try rw [h2]
        dsimp only
        cases h3 : q.1.knowledge_nodes.find? (fun kv =>
            kv.2.text == nm.text &&
            (kv.2.type == "function" || kv.2.type == "local_function" ||
             kv.2.type == "global_function" || kv.2.type == "local_var")) with
        | some ex =>
          try rw [h3]
          exact CoreStep_refl N Eg C M r [] q.1 hSq
        | none =>
          try rw [h3]
          dsimp only
          by_cases hcond : (dictGet q.1.knowledge_nodes node.key).isNone = true
          · rw [if_pos hcond]
            refine CoreStep_insert_child N Eg C M r q.1 _ node hSq rfl hnodefact ?_
            rw [eq_of_beq hfc]
            decide
          · rw [if_neg hcond]
            exact CoreStep_refl N Eg C M r [] q.1 hSq
    · rw [if_neg hfc]
      exact CoreStep_refl N Eg C M r [] q.1 hSq

/-- A child list is never longer than the edge list. -/
theorem astChildren_length_le (cq : QCore) (Eg : List (String × String)) (P : String)
    (hE : cq.edges = Eg) : (astChildren cq P).length ≤ Eg.length := by
  unfold astChildren
  rw [← hE]
  exact List.length_filterMap_le _ _

/-- `process_if_statements` is admissible: the only non-free inserts
are the re-inserted else-branch blocks, which sit at least three ranks
below the processed block, and there are at most `|Eg|³` of them. -/
theorem CoreStep_process_if (N : List (String × ANode)) (Eg : List (String × String))
    (C M : Nat) (r : String → Nat) (hkeys : ∀ kv ∈ N, kv.2.key = kv.1)
    (hndp : (Eg.map Prod.snd).Nodup) (hrank : ∀ ab ∈ Eg, r ab.1 < r ab.2)
    (hC1 : 1 ≤ C) (bid : String) (p : QCore × List QEdge) (hS : SInv N Eg p.1) :
    CoreStep N Eg C M r []
      (Eg.length * (Eg.length * (Eg.length * C ^ (M - r bid - 3))))
      p.1 (GraphQueries.process_if_statements bid p).1 := by
  unfold GraphQueries.process_if_statements
  have h := CoreStep_foldl N Eg C M r []
    (Eg.length * (Eg.length * C ^ (M - r bid - 3))) (fun _ => True)
    (fun p if_stmt =>
      if if_stmt.type == "if_statement" then
        (astChildren p.1 if_stmt.key).foldl (fun p child =>
          if child.type == "else_statement" || child.type == "elseif_statement" then
            let c3 := insertKN p.1 { key := child.key, type := child.type,
                                     text := child.text,
                                     start_byte := child.start_byte,
                                     end_byte := child.end_byte }
            let p4 : QCore × List QEdge :=
              (c3, p.2 ++ [{ from_key := if_stmt.key, to_key := child.key,
                             relation := "executes" }])
            (astChildren p4.1 child.key).foldl (fun p b =>
              if b.type == "block" then
                (insertKN p.1 { key := b.key, type := "block", text := b.text,
                                start_byte := b.start_byte, end_byte := b.end_byte,
                                discovered := some true, processed := some false },
                 p.2 ++ [{ from_key := child.key, to_key := b.key,
                           relation := "has_block" }])
              else p) p4
          else p) p
      else p)
    (astChildren p.1 bid) ?_ p hS trivial
  · refine CoreStep_weaken N Eg C M r [] h.1 ?_
    exact Nat.mul_le_mul_right _ (astChildren_length_le p.1 Eg bid hS.2.1)
  · intro q ifst hmemI hSq _
    refine ⟨?_, trivial⟩
    dsimp only
    by_cases hif : (ifst.type == "if_statement") = true
    · rw [if_pos hif]
      obtain ⟨_, hedge1⟩ := astChild_node N Eg hkeys p.1 hS bid ifst hmemI
      have hr1 : r bid < r ifst.key := hrank _ hedge1
      have hmid := CoreStep_foldl N Eg C M r []
        (Eg.length * C ^ (M - r bid - 3)) (fun _ => True)
        (fun p child =>
          if child.type == "else_statement" || child.type == "elseif_statement" then
            let c3 := insertKN p.1 { key := child.key, type := child.type,
                                     text := child.text,
                                     start_byte := child.start_byte,
                                     end_byte := child.end_byte }
            let p4 : QCore × List QEdge :=
              (c3, p.2 ++ [{ from_key := ifst.key, to_key := child.key,
                             relation := "executes" }])
            (astChildren p4.1 child.key).foldl (fun p b =>
              if b.type == "block" then
                (insertKN p.1 { key := b.key, type := "block", text := b.text,
                                start_byte := b.start_byte, end_byte := b.end_byte,
                                discovered := some true, processed := some false },
                 p.2 ++ [{ from_key := child.key, to_key := b.key,
                           relation := "has_block" }])
              else p) p4
          else p)
        (astChildren q.1 ifst.key) ?_ q hSq trivial
      · refine CoreStep_weaken N Eg C M r [] hmid.1 ?_
        exact Nat.mul_le_mul_right _ (astChildren_length_le q.1 Eg ifst.key hSq.2.1)
      · intro qe ch hmemC hSqe _
        refine ⟨?_, trivial⟩
        dsimp only
        by_cases hec : (ch.type == "else_statement" || ch.type == "elseif_statement") = true
        · rw [if_pos hec]
          obtain ⟨hndch, hedge2⟩ := astChild_node N Eg hkeys q.1 hSq ifst.key ch hmemC
          have hr2 : r ifst.key < r ch.key := hrank _ hedge2
          have hchty : ¬ ch.type = "block" := by
            have hec' : ch.type = "else_statement" ∨ ch.type = "elseif_statement" := by
              simpa using hec
            rcases hec' with h' | h' <;> rw [h'] <;> decide
          have hstep1 : CoreStep N Eg C M r [] 0 qe.1
              (insertKN qe.1 { key := ch.key, type := ch.type, text := ch.text, start_byte := ch.start_byte, end_byte := ch.end_byte }) :=
            CoreStep_insert_child N Eg C M r qe.1 _ ch hSqe rfl hndch hchty
          have hSc3 := hstep1.1
          have hT3 : (dictGet (insertKN qe.1 { key := ch.key, type := ch.type, text := ch.text, start_byte := ch.start_byte, end_byte := ch.end_byte }).knowledge_nodes ch.key).isSome = true := by
            rw [show (insertKN qe.1 { key := ch.key, type := ch.type, text := ch.text, start_byte := ch.start_byte, end_byte := ch.end_byte }).knowledge_nodes = dictInsert qe.1.knowledge_nodes ch.key { key := ch.key, type := ch.type, text := ch.text, start_byte := ch.start_byte, end_byte := ch.end_byte } from rfl,
                dictGet_dictInsert_self]
            rfl
          have hinner := CoreStep_foldl N Eg C M r [] (C ^ (M - r bid - 3))
            (fun cr => (dictGet cr.knowledge_nodes ch.key).isSome = true)
            (fun p b =>
              if b.type == "block" then
                (insertKN p.1 { key := b.key, type := "block", text := b.text,
                                start_byte := b.start_byte, end_byte := b.end_byte,
                                discovered := some true, processed := some false },
                 p.2 ++ [{ from_key := ch.key, to_key := b.key,
                           relation := "has_block" }])
              else p)
            (astChildren (insertKN qe.1 { key := ch.key, type := ch.type, text := ch.text, start_byte := ch.start_byte, end_byte := ch.end_byte }) ch.key)
            ?_
            (insertKN qe.1 { key := ch.key, type := ch.type, text := ch.text, start_byte := ch.start_byte, end_byte := ch.end_byte },
             qe.2 ++ [{ from_key := ifst.key, to_key := ch.key, relation := "executes" }])
            hSc3 hT3
          · have hcomp := CoreStep_trans N Eg C M r [] hstep1 hinner.1
            refine CoreStep_weaken N Eg C M r [] hcomp ?_
            have hlen := astChildren_length_le
              (insertKN qe.1 { key := ch.key, type := ch.type, text := ch.text, start_byte := ch.start_byte, end_byte := ch.end_byte })
              Eg ch.key hSc3.2.1
            have := Nat.mul_le_mul_right (C ^ (M - r bid - 3)) hlen
            omega
          · intro qq bb hmemB hSqq hTqq
            dsimp only
            by_cases hbt : (bb.type == "block") = true
            · rw [if_pos hbt]
              obtain ⟨hndbb, hedge3⟩ := astChild_node N Eg hkeys
                (insertKN qe.1 { key := ch.key, type := ch.type, text := ch.text, start_byte := ch.start_byte, end_byte := ch.end_byte })
                hSc3 ch.key bb hmemB
              have hr3 : r ch.key < r bb.key := hrank _ hedge3
              have hud : isUDBlock { key := bb.key, type := "block", text := bb.text, start_byte := bb.start_byte, end_byte := bb.end_byte, discovered := some true, processed := some false } = true := by
                simp [isUDBlock]
              have hpar : ∀ ab ∈ Eg, ab.2 = bb.key →
                  (dictGet qq.1.knowledge_nodes ab.1).isSome = true := by
                intro ab hab habk
                rw [unique_parent Eg hndp ch.key bb.key hedge3 ab hab habk]
                exact hTqq
              have hins := CoreStep_insert_UD N Eg C M r qq.1 _ bb hSqq hud hndbb
                (eq_of_beq hbt) hpar
              constructor
              · refine CoreStep_weaken N Eg C M r [] hins ?_
                have hsub : M - r bb.key ≤ M - r bid - 3 := by omega
                exact Nat.pow_le_pow_right hC1 hsub
              · exact dictGet_isSome_dictInsert _ _ _ _ hTqq
            · rw [if_neg hbt]
              exact ⟨CoreStep_weaken N Eg C M r []
                (CoreStep_refl N Eg C M r [] qq.1 hSqq) (Nat.zero_le _), hTqq⟩
        · rw [if_neg hec]
          exact CoreStep_weaken N Eg C M r []
            (CoreStep_refl N Eg C M r [] qe.1 hSqe) (Nat.zero_le _)
    · rw [if_neg hif]
      exact CoreStep_weaken N Eg C M r []
        (CoreStep_refl N Eg C M r [] q.1 hSq) (Nat.zero_le _)

/-- Processing one discovered-unprocessed block strictly decreases the
measure: the five insertion passes cost at most `|Eg|³` re-awakened
blocks of weight `C^(M-r-3)` each, and the final mark pays the full
`C^(M-r)`. -/
theorem processBlock_decrease (N : List (String × ANode)) (Eg : List (String × String))
    (C M : Nat) (r : String → Nat)
    (hkeys : ∀ kv ∈ N, kv.2.key = kv.1)
    (hndp : (Eg.map Prod.snd).Nodup)
    (hrank : ∀ ab ∈ Eg, r ab.1 < r ab.2)
    (hM : ∀ kv ∈ N, r kv.1 + 4 ≤ M)
    (hCE : Eg.length < C)
    (bid : String) (p : QCore × List QEdge) (hS : SInv N Eg p.1)
    (g : GNode) (hget : dictGet p.1.knowledge_nodes bid = some g)
    (hud : isUDBlock g = true) :
    SInv N Eg (GraphQueries.processBlock bid p).1 ∧
    mu C M r (GraphQueries.processBlock bid p).1 < mu C M r p.1 ∧
    (∀ k, (dictGet p.1.knowledge_nodes k).isSome = true →
      (dictGet (GraphQueries.processBlock bid p).1.knowledge_nodes k).isSome = true) ∧
    (∀ k, ¬ k = bid →
      ∀ g', dictGet p.1.knowledge_nodes k = some g' → isUDBlock g' = true →
      ∃ g'', dictGet (GraphQueries.processBlock bid p).1.knowledge_nodes k = some g''
        ∧ isUDBlock g'' = true) := by
  have hC1 : 1 ≤ C := by omega
  have h1 := CoreStep_laststat N Eg C M r hkeys bid p hS
  have h2 := CoreStep_var_decls N Eg C M r hkeys bid
    (GraphQueries.laststat_return bid p) h1.1
  have h3 := CoreStep_local_assignments N Eg C M r hkeys bid
    (GraphQueries.insert_block_var_decls bid (GraphQueries.laststat_return bid p)) h2.1
  have h4 := CoreStep_fn_calls N Eg C M r hkeys bid
    (GraphQueries.insert_local_assignments bid
      (GraphQueries.insert_block_var_decls bid
        (GraphQueries.laststat_return bid p))) h3.1
  have h5 := CoreStep_process_if N Eg C M r hkeys hndp hrank hC1 bid
    (GraphQueries.insert_block_function_calls bid
      (GraphQueries.insert_local_assignments bid
        (GraphQueries.insert_block_var_decls bid
          (GraphQueries.laststat_return bid p)))) h4.1
  have hchain := CoreStep_trans N Eg C M r [] h1
    (CoreStep_trans N Eg C M r [] h2
      (CoreStep_trans N Eg C M r [] h3
        (CoreStep_trans N Eg C M r [] h4 h5)))
  obtain ⟨hS5, hmu5, hmono5, hudp5⟩ := hchain
  obtain ⟨g5, hget5, hud5⟩ := hudp5 bid (by simp) g hget hud
  obtain ⟨nd, hndbid, _⟩ := hS.2.2.2.1 bid g hget hud
  have hMbid : r bid + 4 ≤ M := hM (bid, nd) (dictGet_mem hndbid)
  have hmark := mu_mark_dec C M r
    (GraphQueries.process_if_statements bid
      (GraphQueries.insert_block_function_calls bid
        (GraphQueries.insert_local_assignments bid
          (GraphQueries.insert_block_var_decls bid
            (GraphQueries.laststat_return bid p))))).1 bid g5 hget5 hud5
  unfold GraphQueries.processBlock
  refine ⟨SInv_mark N Eg _ bid hS5, ?_, ?_, ?_⟩
  · -- strict measure decrease
    have hpow : C ^ (M - r bid) = C ^ 3 * C ^ (M - r bid - 3) := by
      rw [← pow_add]
      congr 1
      omega
    have hE3 : Eg.length ^ 3 < C ^ 3 := Nat.pow_lt_pow_left hCE (by decide)
    have hw3pos : 1 ≤ C ^ (M - r bid - 3) := Nat.one_le_pow _ _ (by omega)
    have hWX : Eg.length * (Eg.length * (Eg.length * C ^ (M - r bid - 3)))
        = Eg.length ^ 3 * C ^ (M - r bid - 3) := by ring
    have hY : Eg.length ^ 3 * C ^ (M - r bid - 3) + C ^ (M - r bid - 3)
        ≤ C ^ 3 * C ^ (M - r bid - 3) := by
      have h1' : Eg.length ^ 3 + 1 ≤ C ^ 3 := hE3
      have h2' := Nat.mul_le_mul_right (C ^ (M - r bid - 3)) h1'
      have hone : (Eg.length ^ 3 + 1) * C ^ (M - r bid - 3)
          = Eg.length ^ 3 * C ^ (M - r bid - 3) + C ^ (M - r bid - 3) := by ring
      omega
    rw [hWX] at hmu5
    rw [hpow] at hmark
    dsimp only
    omega
  · -- domain monotone
    intro k hk
    dsimp only
    rw [isSome_mark]
    exact hmono5 k hk
  · -- unprocessed entries at other keys survive
    intro k hkb g' hg' hud'
    obtain ⟨g'', hg'', hud''⟩ := hudp5 k (by simp) g' hg' hud'
    dsimp only
    exact mark_ud_preserved _ bid k hkb g'' hg'' hud''

/-- Folding `processBlock` over a duplicate-free list of
discovered-unprocessed blocks strictly decreases the measure when the
list is non-empty. -/
theorem processBlocks_fold_dec (N : List (String × ANode)) (Eg : List (String × String))
    (C M : Nat) (r : String → Nat)
    (hkeys : ∀ kv ∈ N, kv.2.key = kv.1)
    (hndp : (Eg.map Prod.snd).Nodup)
    (hrank : ∀ ab ∈ Eg, r ab.1 < r ab.2)
    (hM : ∀ kv ∈ N, r kv.1 + 4 ≤ M)
    (hCE : Eg.length < C) :
    ∀ (D : List String) (p : QCore × List QEdge),
      SInv N Eg p.1 →
      (∀ d ∈ D, ∃ g, dictGet p.1.knowledge_nodes d = some g ∧ isUDBlock g = true) →
      D.Nodup →
      SInv N Eg ((D.foldl (fun q b => GraphQueries.processBlock b q) p)).1 ∧
      mu C M r ((D.foldl (fun q b => GraphQueries.processBlock b q) p)).1
        ≤ mu C M r p.1 ∧
      (D ≠ [] →
        mu C M r ((D.foldl (fun q b => GraphQueries.processBlock b q) p)).1
          < mu C M r p.1) := by
  intro D
  induction D with
  | nil =>
    intro p hS _ _
    exact ⟨hS, Nat.le_refl _, fun h => absurd rfl h⟩
  | cons d t ih =>
    intro p hS hUD hnd
    rw [List.foldl_cons]
    obtain ⟨g, hget, hud⟩ := hUD d (List.mem_cons_self _ _)
    obtain ⟨hS', hlt, hmono, hudp⟩ :=
      processBlock_decrease N Eg C M r hkeys hndp hrank hM hCE d p hS g hget hud
    simp only [List.nodup_cons] at hnd
    have hUD' : ∀ d' ∈ t, ∃ g', dictGet
        (GraphQueries.processBlock d p).1.knowledge_nodes d' = some g' ∧
        isUDBlock g' = true := by
      intro d' hd'
      obtain ⟨g', hget', hud'⟩ := hUD d' (List.mem_cons_of_mem _ hd')
      exact hudp d' (fun he => hnd.1 (he ▸ hd')) g' hget' hud'
    obtain ⟨hSf, hlef, _⟩ := ih (GraphQueries.processBlock d p) hS' hUD' hnd.2
    exact ⟨hSf, by omega, fun _ => by omega⟩

/-- When a pass breaks, no knowledge block is left discovered and
unprocessed. -/
theorem loopIter_inl_post (c : QCore) (e : List QEdge) (t : QState)
    (hit : GraphQueries.loopIter { core := c, knowledge_edges := e } = Sum.inl t) :
    ∀ kv ∈ t.core.knowledge_nodes, isUDBlock kv.2 = false := by
  unfold GraphQueries.loopIter at hit
  dsimp only at hit
  by_cases hd : (GraphQueries.query_discovered_blocks_without_analysis
      (GraphQueries.insert_stmt_blocks (GraphQueries.query_undiscovered_statements c)
        ((GraphQueries.query_undiscovered_statements c).foldl
          (fun p stmt => GraphQueries.insert_nodes_and_edges stmt.type "executes" [stmt] p)
          (c, e))).1).isEmpty = true
  · rw [if_pos hd] at hit
    have hteq := Sum.inl.inj hit
    unfold GraphQueries.query_discovered_blocks_without_analysis at hd
    rw [List.isEmpty_iff, List.map_eq_nil, List.filter_eq_nil] at hd
    intro kv hkv
    have : t.core = (GraphQueries.insert_stmt_blocks
        (GraphQueries.query_undiscovered_statements c)
        ((GraphQueries.query_undiscovered_statements c).foldl
          (fun p stmt => GraphQueries.insert_nodes_and_edges stmt.type "executes" [stmt] p)
          (c, e))).1 := by rw [← hteq]
    rw [this] at hkv
    have := hd kv hkv
    simpa using this
  · rw [if_neg hd] at hit
    exact Sum.noConfusion hit

set_option maxHeartbeats 2000000 in
/-- A pass that does not break preserves the invariant and strictly
decreases the measure. -/
theorem loopIter_inr_decrease (N : List (String × ANode)) (Eg : List (String × String))
    (C M : Nat) (r : String → Nat)
    (hkeys : ∀ kv ∈ N, kv.2.key = kv.1)
    (hndp : (Eg.map Prod.snd).Nodup)
    (hrank : ∀ ab ∈ Eg, r ab.1 < r ab.2)
    (hM : ∀ kv ∈ N, r kv.1 + 4 ≤ M)
    (hCE : Eg.length < C)
    (c : QCore) (e : List QEdge) (hS : SInv N Eg c) (t : QState)
    (hit : GraphQueries.loopIter { core := c, knowledge_edges := e } = Sum.inr t) :
    SInv N Eg t.core ∧ mu C M r t.core < mu C M r c := by
  have hphase := CoreStep_phase N Eg C M r hkeys hndp c e hS
  obtain ⟨hS1, hmu1, _, _⟩ := hphase
  unfold GraphQueries.loopIter at hit
  dsimp only at hit
  by_cases hd : (GraphQueries.query_discovered_blocks_without_analysis
      (GraphQueries.insert_stmt_blocks (GraphQueries.query_undiscovered_statements c)
        ((GraphQueries.query_undiscovered_statements c).foldl
          (fun p stmt => GraphQueries.insert_nodes_and_edges stmt.type "executes" [stmt] p)
          (c, e))).1).isEmpty = true
  · rw [if_pos hd] at hit
    exact Sum.noConfusion hit
  · rw [if_neg hd] at hit
    have hteq := Sum.inr.inj hit
    have hDud : ∀ d ∈ GraphQueries.query_discovered_blocks_without_analysis
        (GraphQueries.insert_stmt_blocks (GraphQueries.query_undiscovered_statements c)
          ((GraphQueries.query_undiscovered_statements c).foldl
            (fun p stmt => GraphQueries.insert_nodes_and_edges stmt.type "executes" [stmt] p)
            (c, e))).1,
        ∃ g, dictGet (GraphQueries.insert_stmt_blocks
          (GraphQueries.query_undiscovered_statements c)
          ((GraphQueries.query_undiscovered_statements c).foldl
            (fun p stmt => GraphQueries.insert_nodes_and_edges stmt.type "executes" [stmt] p)
            (c, e))).1.knowledge_nodes d = some g ∧ isUDBlock g = true := by
      intro d hdmem
      unfold GraphQueries.query_discovered_blocks_without_analysis at hdmem
      rw [List.mem_map] at hdmem
      obtain ⟨kv, hkvmem, hkv1⟩ := hdmem
      rw [List.mem_filter] at hkvmem
      refine ⟨kv.2, ?_, hkvmem.2⟩
      rw [← hkv1]
      have hkv' : (kv.1, kv.2) ∈ (GraphQueries.insert_stmt_blocks
          (GraphQueries.query_undiscovered_statements c)
          ((GraphQueries.query_undiscovered_statements c).foldl
            (fun p stmt => GraphQueries.insert_nodes_and_edges stmt.type "executes" [stmt] p)
            (c, e))).1.knowledge_nodes := hkvmem.1
      exact dictGet_of_mem_nodup _ _ _ hS1.2.2.1 hkv'
    have hDnd : (GraphQueries.query_discovered_blocks_without_analysis
        (GraphQueries.insert_stmt_blocks (GraphQueries.query_undiscovered_statements c)
          ((GraphQueries.query_undiscovered_statements c).foldl
            (fun p stmt => GraphQueries.insert_nodes_and_edges stmt.type "executes" [stmt] p)
            (c, e))).1).Nodup := by
      unfold GraphQueries.query_discovered_blocks_without_analysis
      exact hS1.2.2.1.sublist ((List.filter_sublist _).map Prod.fst)
    have hDne : GraphQueries.query_discovered_blocks_without_analysis
        (GraphQueries.insert_stmt_blocks (GraphQueries.query_undiscovered_statements c)
          ((GraphQueries.query_undiscovered_statements c).foldl
            (fun p stmt => GraphQueries.insert_nodes_and_edges stmt.type "executes" [stmt] p)
            (c, e))).1 ≠ [] := by
      intro hnil
      rw [hnil] at hd
      simp at hd
    obtain ⟨hSf, _, hltD⟩ := processBlocks_fold_dec N Eg C M r hkeys hndp hrank hM hCE
      (GraphQueries.query_discovered_blocks_without_analysis
        (GraphQueries.insert_stmt_blocks (GraphQueries.query_undiscovered_statements c)
          ((GraphQueries.query_undiscovered_statements c).foldl
            (fun p stmt => GraphQueries.insert_nodes_and_edges stmt.type "executes" [stmt] p)
            (c, e))).1)
      (GraphQueries.insert_stmt_blocks (GraphQueries.query_undiscovered_statements c)
        ((GraphQueries.query_undiscovered_statements c).foldl
          (fun p stmt => GraphQueries.insert_nodes_and_edges stmt.type "executes" [stmt] p)
          (c, e)))
      hS1 hDud hDnd
    have htc : t.core = ((GraphQueries.query_discovered_blocks_without_analysis
        (GraphQueries.insert_stmt_blocks (GraphQueries.query_undiscovered_statements c)
          ((GraphQueries.query_undiscovered_statements c).foldl
            (fun p stmt => GraphQueries.insert_nodes_and_edges stmt.type "executes" [stmt] p)
            (c, e))).1).foldl (fun q b => GraphQueries.processBlock b q)
        (GraphQueries.insert_stmt_blocks (GraphQueries.query_undiscovered_statements c)
          ((GraphQueries.query_undiscovered_statements c).foldl
            (fun p stmt => GraphQueries.insert_nodes_and_edges stmt.type "executes" [stmt] p)
            (c, e)))).1 := by
      rw [← hteq]
    rw [htc]
    exact ⟨hSf, by
      have := hltD hDne
      omega⟩

/-- Strong induction on the measure: from any invariant state the
fueled loop reaches a break, and at the break no block is left
discovered-unprocessed. -/
theorem build_term_aux (N : List (String × ANode)) (Eg : List (String × String))
    (C M : Nat) (r : String → Nat)
    (hkeys : ∀ kv ∈ N, kv.2.key = kv.1)
    (hndp : (Eg.map Prod.snd).Nodup)
    (hrank : ∀ ab ∈ Eg, r ab.1 < r ab.2)
    (hM : ∀ kv ∈ N, r kv.1 + 4 ≤ M)
    (hCE : Eg.length < C) :
    ∀ n : Nat, ∀ c : QCore, mu C M r c < n → SInv N Eg c →
      ∀ e, ∃ fuel s, GraphQueries.build_recursive_blocks_fuel fuel
          { core := c, knowledge_edges := e } = some s ∧
        ∀ kv ∈ s.core.knowledge_nodes, isUDBlock kv.2 = false := by
  intro n
  induction n with
  | zero => intro c h; exact absurd h (Nat.not_lt_zero _)
  | succ m ih =>
    intro c hlt hS e
    cases hit : GraphQueries.loopIter { core := c, knowledge_edges := e } with
    | inl t =>
      refine ⟨1, t, ?_, loopIter_inl_post c e t hit⟩
      simp only [GraphQueries.build_recursive_blocks_fuel]
      rw [hit]
    | inr t =>
      obtain ⟨hS', hmu⟩ := loopIter_inr_decrease N Eg C M r hkeys hndp hrank hM hCE
        c e hS t hit
      obtain ⟨fuel, s, hbuild, hpost⟩ := ih t.core (by omega) hS' t.knowledge_edges
      refine ⟨fuel + 1, s, ?_, hpost⟩
      simp only [GraphQueries.build_recursive_blocks_fuel]
      rw [hit]
      exact hbuild

/-- Claim C4 (amended: for every finite **ranked** AST store — ranks
strictly increase along AST edges (so the graph is acyclic), every rank
at least four below the bound, stored node documents keyed by their own
key, at most one parent per node, distinct knowledge keys, and the
initial knowledge collection well-formed in that unprocessed-discovered
entries sit at block-typed AST keys and knowledge entries at block keys
have their AST parents present — the recursive block-discovery loop
terminates, and when it returns no knowledge node of kind block has
`discovered=true` and `processed=false`.  On a cyclic store the loop
need not terminate, so the claim's bare finiteness hypothesis is
insufficient; `processed` is not monotone). -/
theorem build_recursive_blocks_ranked_terminates
    (c : QCore) (e : List QEdge) (r : String → Nat) (M : Nat)
    (hrank : ∀ ab ∈ c.edges, r ab.1 < r ab.2)
    (hM : ∀ kv ∈ c.nodes, r kv.1 + 4 ≤ M)
    (hkeys : ∀ kv ∈ c.nodes, kv.2.key = kv.1)
    (hndp : (c.edges.map Prod.snd).Nodup)
    (hknN : (c.knowledge_nodes.map Prod.fst).Nodup)
    (hUD : ∀ kv ∈ c.knowledge_nodes, isUDBlock kv.2 = true →
        ((dictGet c.nodes kv.1).any (fun nd => nd.type == "block")) = true)
    (hJ : ∀ kv ∈ c.knowledge_nodes,
        ((dictGet c.nodes kv.1).any (fun nd => nd.type == "block")) = true →
        ∀ ab ∈ c.edges, ab.2 = kv.1 →
        (dictGet c.knowledge_nodes ab.1).isSome = true) :
    ∃ fuel s, GraphQueries.build_recursive_blocks_fuel fuel
        { core := c, knowledge_edges := e } = some s ∧
      ∀ kv ∈ s.core.knowledge_nodes, isUDBlock kv.2 = false := by
  have hS : SInv c.nodes c.edges c := by
    refine ⟨rfl, rfl, hknN, ?_, ?_⟩
    · intro k g hg hud
      have hmem := dictGet_mem hg
      have := hUD (k, g) hmem hud
      cases ho : dictGet c.nodes k with
      | none => rw [ho] at this; simp [Option.any] at this
      | some nd =>
        rw [ho] at this
        simp only [Option.any] at this
        exact ⟨nd, rfl, eq_of_beq this⟩
    · intro k hk nd hnd hty ab hab habk
      cases ho : dictGet c.knowledge_nodes k with
      | none => rw [ho] at hk; simp at hk
      | some g =>
        have hmem := dictGet_mem ho
        refine hJ (k, g) hmem ?_ ab hab habk
        rw [hnd]
        simp only [Option.any]
        rw [hty]
        rfl
  have hCE : c.edges.length < c.edges.length + 1 := Nat.lt_succ_self _
  exact build_term_aux c.nodes c.edges (c.edges.length + 1) M r hkeys hndp hrank hM hCE
    (mu (c.edges.length + 1) M r c + 1) c (Nat.lt_succ_self _) hS e

/-- Claim C4 (witness): the amended termination theorem applied to the
concrete ranked chain store: the loop breaks and leaves no
discovered-unprocessed block. -/
theorem build_recursive_blocks_ranked_terminates_witness :
    ∃ fuel s, GraphQueries.build_recursive_blocks_fuel fuel
        { core := linCore, knowledge_edges := [] } = some s ∧
      ∀ kv ∈ s.core.knowledge_nodes, isUDBlock kv.2 = false :=
  build_recursive_blocks_ranked_terminates linCore [] linRank 7
    (by decide) (by decide) (by decide) (by decide) (by decide) (by decide) (by decide)

end GraphCreator
